import Mathlib

/-!
# inject: dependency-ordered construction

A shallow embedding of `inject.go` (package `inject`): the graph builder
`buildObjects`, the de-duplication `dedup`, the recursive constructor
`construct.recurConstruct`, the driver `construct.populate`, the error
combination `combine` / `multiError.Error`, and `run` / `Weave`.

Modelling conventions

* An `interface{}` value is a `Ref`: `none` is the nil interface, `some n` a
  non-nil value (for a pointer: its identity).  A `reflect.Type` is a `Ty`:
  `none` is the nil `Type` that `reflect.TypeOf(nil)` returns.
  What reflection reports about the heap is collected in a `World`: the dynamic
  type of a value, the printed name of a type, whether the type has the method
  `Setup() error`, whether a value is a non-nil pointer to a struct, which struct
  fields of a type carry the `inject` tag and which are exported, the value held
  by field `i` of an instance, and which types are uncomparable.
* The reflection calls of `recurConstruct` can panic: `Elem().NumField()` on a
  value that is not a non-nil pointer to a struct, `Interface()` on an unexported
  field, `==` on two values of one uncomparable type, and
  `reflect.TypeOf(c.current).String()` on a nil `current`.  A panic ends the run
  with `Outcome.panicked`.
* `Setup` is foreign code, taken to return as its signature says.  Its result
  may depend on everything that ran before it; during a construction pass the
  only foreign code that runs is `Setup` itself, so the result is a function of
  the earlier `Setup` calls.  Field values are taken to be stable during the pass.
* The maps `constructed` and `initializedDeps` are total functions
  (`false` / `none` on absent keys).
* `recurConstruct` is recursive without a termination argument in the source, so
  the embedding is indexed by fuel: the maximal depth of nested calls.  A run
  that needs more depth ends in `Outcome.outOfFuel` and still carries the state
  reached so far.
* `setupLog` is an observation of the run (it is never read by the control flow,
  except to give `Setup` its history): one entry per `Setup` invocation, with the
  `constructed` map as it was at the moment of the call and whether the call
  returned an error.
-/

namespace Inject

/-- An `interface{}` value: `none` is nil, `some n` a non-nil value. -/
abbrev Ref := Option Nat

/-- A `reflect.Type`: `none` is the nil `Type` of `reflect.TypeOf(nil)`. -/
abbrev Ty := Option Nat

/-- Go `error` values: an error with a message (`fmt.Errorf`, or whatever a
`Setup` returns), or the package's `*multiError`. -/
inductive GoError where
  | errorString (msg : String)
  | multiError (errs : List GoError)

/-- The `inject.Object` of the graph library, restricted to the two fields this
package sets. -/
structure Object where
  Value : Ref
  Name : String
deriving DecidableEq, Repr

/-- What reflection and the foreign `Setup` methods report. -/
structure World where
  /-- the dynamic type of a non-nil value -/
  dynType : Nat → Nat
  /-- `reflect.Type.String()` -/
  typeString : Ty → String
  /-- whether the method set of a type contains `Setup() error` -/
  hasSetup : Nat → Bool
  /-- whether the non-nil value is a non-nil pointer to a struct, so that
  `reflect.ValueOf(v).Elem().NumField()` does not panic -/
  structPointer : Nat → Bool := fun _ => true
  /-- for the struct behind a pointer type: per field, whether
  `Tag.Lookup("inject")` succeeds -/
  fieldTags : Ty → List Bool
  /-- for the struct behind a pointer type: whether field `i` is exported, so
  that `Field(i).Interface()` does not panic -/
  fieldExported : Ty → Nat → Bool := fun _ _ => true
  /-- `reflect.ValueOf(v).Elem().Field(i).Interface()` -/
  fieldVal : Ref → Nat → Ref
  /-- whether values of the type cannot be compared, so that `==` on two
  interface values that both hold the type panics (a slice, a map, a function,
  or a struct or array with such a part) -/
  uncomparable : Nat → Bool := fun _ => false
  /-- `v.(iConstruct).Setup()`, given the values whose `Setup` ran before -/
  Setup : List Ref → Ref → Option GoError

/-- `reflect.TypeOf(v)`: the nil `Type` for the nil interface. -/
def World.typeOf (w : World) (v : Ref) : Ty :=
  v.map w.dynType

/-- Whether the method set of the type contains `Setup() error`; the nil `Type`
has no methods. -/
def World.implementsSetup (w : World) (t : Ty) : Bool :=
  match t with
  | none => false
  | some n => w.hasSetup n

/-- Whether `v` is a non-nil pointer to a struct; the nil interface is not. -/
def World.pointsToStruct (w : World) (v : Ref) : Bool :=
  match v with
  | none => false
  | some n => w.structPointer n

/-- Whether `a == b` on the interface values panics: both hold values of one
dynamic type, and that type is uncomparable.  A pointer type is comparable. -/
def World.comparePanics (w : World) (a b : Ref) : Bool :=
  match a, b with
  | some x, some y =>
    decide (w.dynType x = w.dynType y) && w.uncomparable (w.dynType x) &&
      !w.pointsToStruct a && !w.pointsToStruct b
  | _, _ => false

/-- One invocation of `Setup`, with the `constructed` map at that moment and
whether it returned an error. -/
structure SetupCall where
  obj : Ref
  constructedAt : Ty → Bool
  failed : Bool

/-- The resolver state `construct`; `setupLog` is the observation of the run. -/
structure construct where
  current : Ref
  constructed : Ty → Bool
  initializedDeps : Ty → Option Ref
  setupLog : List SetupCall

/-- Result of a fuel-indexed call: it returned, it panicked, or it needs more
fuel. -/
inductive Outcome (α : Type) where
  | returned (v : α)
  | panicked
  | outOfFuel

/-- `newConstruct`: empty maps, `current` is the nil interface. -/
def newConstruct : construct :=
  { current := none, constructed := fun _ => false, initializedDeps := fun _ => none,
    setupLog := [] }

/-- `withConstructor`: the type assertion `i.(iConstruct)` succeeds. -/
def withConstructor (w : World) (i : Ref) : Bool :=
  if w.implementsSetup (w.typeOf i) then true else false

/-- The two assignments
`c.constructed[reflect.TypeOf(v)] = true; c.initializedDeps[reflect.TypeOf(v)] = v`. -/
def construct.markConstructed (w : World) (c : construct) (v : Ref) : construct :=
  { c with
    constructed := fun t => if t = w.typeOf v then true else c.constructed t
    initializedDeps := fun t => if t = w.typeOf v then some v else c.initializedDeps t }

/-- The values on which `Setup` has been invoked, oldest first. -/
def construct.setupCalls (c : construct) : List Ref :=
  c.setupLog.map SetupCall.obj

/-- Appends the record of the `Setup` invocation on `v`. -/
def construct.logSetup (w : World) (c : construct) (v : Ref) : construct :=
  { c with
    setupLog := c.setupLog ++
      [{ obj := v, constructedAt := c.constructed,
         failed := (w.Setup c.setupCalls v).isSome }] }

/-- The values on which `Setup` has been invoked and returned nil. -/
def construct.succeededSetups (c : construct) : List Ref :=
  (c.setupLog.filter (fun ev => !ev.failed)).map SetupCall.obj

/-- The error built by `fmt.Errorf("Dep loop: curr[%s], obj[%s]", ...)`. -/
def depLoopError (curr obj : String) : GoError :=
  .errorString ("Dep loop: curr[" ++ curr ++ "], obj[" ++ obj ++ "]")

/-- Lines 116-121 of `recurConstruct` for the tagged field `i` of `obj`:
`fieldVal.Interface()` panics on an unexported field, `==` can panic, and on
equality the loop error is built, which panics at
`reflect.TypeOf(c.current).String()` when `current` is nil.  `none`: the field
differs from `current` and is constructed next. -/
def inspectField (w : World) (c : construct) (obj : Object) (i : Nat) :
    Option (Outcome (Option GoError)) :=
  if !w.fieldExported (w.typeOf obj.Value) i then some .panicked
  else if w.comparePanics (w.fieldVal obj.Value i) c.current then some .panicked
  else if w.fieldVal obj.Value i = c.current then
    match c.current with
    | none => some .panicked
    | some _ =>
      some (.returned (some (depLoopError (w.typeString (w.typeOf c.current))
        (w.typeString (w.typeOf obj.Value)))))
  else none

/-- The `for i := 0; i < NumField(); i++` loop of `recurConstruct` over the
remaining `(i, tagged)` fields; `rc` is the recursive call.  `returned none`
means the loop ran to its end. -/
def fieldLoop (w : World) (rc : construct → Object → construct × Outcome (Option GoError))
    (obj : Object) : List (Nat × Bool) → construct → construct × Outcome (Option GoError)
  | [], c => (c, .returned none)
  | (i, tagged) :: rest, c =>
    if !tagged then fieldLoop w rc obj rest c
    else
      match inspectField w c obj i with
      | some out => (c, out)
      | none =>
        match rc c { Value := w.fieldVal obj.Value i, Name := "" } with
        | (c1, .returned none) => fieldLoop w rc obj rest c1
        | (c1, out) => (c1, out)

/-- `construct.recurConstruct`, with fuel bounding the depth of nested calls. -/
def recurConstruct (w : World) : Nat → construct → Object → construct × Outcome (Option GoError)
  | 0, c, _ => (c, .outOfFuel)
  | fuel + 1, c, obj =>
    if c.constructed (w.typeOf obj.Value) then (c, .returned none)
    else if !withConstructor w obj.Value then (c.markConstructed w obj.Value, .returned none)
    else if !w.pointsToStruct obj.Value then (c, .panicked)
    else
      match fieldLoop w (recurConstruct w fuel) obj (w.fieldTags (w.typeOf obj.Value)).enum c with
      | (c1, .returned none) =>
        match w.Setup c1.setupCalls obj.Value with
        | some err => (c1.logSetup w obj.Value, .returned (some err))
        | none => ((c1.logSetup w obj.Value).markConstructed w obj.Value, .returned none)
      | (c1, out) => (c1, out)

/-- The loop of `dedup`: `bucket` is the set of types seen, `result` the entries kept. -/
def dedupLoop (w : World) : List Object → (Ty → Bool) → List Object → List Object
  | [], _, result => result
  | obj :: rest, bucket, result =>
    if bucket (w.typeOf obj.Value) then dedupLoop w rest bucket result
    else dedupLoop w rest (fun t => if t = w.typeOf obj.Value then true else bucket t)
      (result ++ [obj])

/-- `dedup` removes duplication (by runtime type). -/
def dedup (w : World) (objs : List Object) : List Object :=
  dedupLoop w objs (fun _ => false) []

/-- The method `Error()`: the message of a plain error, and `multiError.Error`
for a `multiError`, which writes the messages of `e.errs` to a buffer. -/
def GoError.Error : GoError → String
  | .errorString msg => msg
  | .multiError errs => writeErrs errs 0 ""
where
  /-- The `for i, err := range e.errs` loop: `i` is the index of the next error,
  `b` the buffer written so far. -/
  writeErrs : List GoError → Nat → String → String
    | [], _, b => b
    | err :: rest, i, b =>
      writeErrs rest (i + 1) ((if i > 0 then b ++ "; " else b) ++ GoError.Error err)

/-- `combine`: nil, the only non-nil error, or a `multiError` of the non-nil ones. -/
def combine (errs : List (Option GoError)) : Option GoError :=
  if errs.length = 0 then none
  else
    let nonNilErrs : List GoError :=
      errs.foldl (fun acc err => match err with
        | some e => acc ++ [e]
        | none => acc) []
    if nonNilErrs.length = 0 then none
    else if nonNilErrs.length = 1 then nonNilErrs.head?
    else some (.multiError nonNilErrs)

/-- The `for _, obj := range objs` loop of `populate`; `errs` collects the
non-nil errors.  The loop stops at a root that panics or exhausts the fuel. -/
def populateLoop (w : World) (fuel : Nat) :
    List Object → construct → List GoError → construct × Outcome (List GoError)
  | [], c, errs => (c, .returned errs)
  | obj :: rest, c, errs =>
    match recurConstruct w fuel { c with current := obj.Value } obj with
    | (c1, .outOfFuel) => (c1, .outOfFuel)
    | (c1, .panicked) => (c1, .panicked)
    | (c1, .returned (some err)) => populateLoop w fuel rest c1 (errs ++ [err])
    | (c1, .returned none) => populateLoop w fuel rest c1 errs

/-- `construct.populate`: returns the final resolver state together with the
returned pair `(c.initializedDeps, combine(errs...))`. -/
def populate (w : World) (fuel : Nat) (c : construct) (objs : List Object) :
    construct × Outcome ((Ty → Option Ref) × Option GoError) :=
  match populateLoop w fuel (dedup w objs) c [] with
  | (c1, .outOfFuel) => (c1, .outOfFuel)
  | (c1, .panicked) => (c1, .panicked)
  | (c1, .returned errs) => (c1, .returned (c1.initializedDeps, combine (errs.map some)))

/-- `buildObjects` over the entries of the map in iteration order: one anonymous
object for an empty name list, and one object per name. -/
def buildObjects (depMap : List (Ref × List String)) : List Object :=
  depMap.foldl (fun deps entry =>
    let deps1 := if entry.2.length = 0 then deps ++ [{ Value := entry.1, Name := "" }] else deps
    entry.2.foldl (fun d name => d ++ [{ Value := entry.1, Name := name }]) deps1) []

/-- The graph of the library `facebookgo/inject` as far as `run` uses it: the
results of `g.Provide(deps...)` and `g.Populate()` and the list `g.Objects()`. -/
structure Graph where
  Provide : List Object → Option GoError
  Populate : List Object → Option GoError
  Objects : List Object → List Object

/-- `run`: the returned map is `none` for a nil map.  `w` is the heap as
reflection sees it once `g.Populate()` has filled the tagged fields. -/
def run (g : Graph) (w : World) (fuel : Nat) (deps : List Object) :
    Outcome (Option (Ty → Option Ref) × Option GoError) :=
  match g.Provide deps with
  | some err => .returned (none, some err)
  | none =>
    match g.Populate deps with
    | some err => .returned (none, some err)
    | none =>
      match (populate w fuel newConstruct (g.Objects deps)).2 with
      | .outOfFuel => .outOfFuel
      | .panicked => .panicked
      | .returned (initializedDeps, err) =>
        match err with
        | some e => .returned (none, some e)
        | none => .returned (some initializedDeps, none)

/-- `Weave`: `buildObjects` followed by `run`. -/
def Weave (g : Graph) (w : World) (fuel : Nat) (depMap : List (Ref × List String)) :
    Outcome (Option (Ty → Option Ref) × Option GoError) :=
  run g w fuel (buildObjects depMap)

/-- The entries `buildObjects` emits for one provider. -/
def entriesOf (e : Ref × List String) : List Object :=
  if e.2 = [] then [{ Value := e.1, Name := "" }]
  else e.2.map (fun n => { Value := e.1, Name := n })

/-- The instance `a` holds the instance `b` in one of its inject-tagged fields. -/
def dependsOn (w : World) (a b : Ref) : Prop :=
  ∃ p ∈ (w.fieldTags (w.typeOf a)).enum, p.2 = true ∧ w.fieldVal a p.1 = b

/-- The values of the inject-tagged fields of `a`, in field order (the values the
loop of `recurConstruct` looks at). -/
def taggedValues (w : World) (a : Ref) : List Ref :=
  ((w.fieldTags (w.typeOf a)).enum.filter (fun p => p.2)).map (fun p => w.fieldVal a p.1)

/-- Reflection can walk the provider `v`: `v` is a non-nil pointer to a struct
and its inject-tagged fields are exported. -/
def World.reflectable (w : World) (v : Ref) : Bool :=
  w.pointsToStruct v &&
    (w.fieldTags (w.typeOf v)).enum.all (fun p => !p.2 || w.fieldExported (w.typeOf v) p.1)

/-- Every type that has `Setup` has a single instance. -/
def World.singleSetupInstances (w : World) : Prop :=
  ∀ a b, withConstructor w a = true → w.typeOf a = w.typeOf b → a = b

/-- Whether the call returned nil. -/
def Outcome.isReturnedNil : Outcome (Option GoError) → Bool
  | .returned none => true
  | _ => false

/-- Whether the call returned at all (it neither panicked nor exhausted its fuel). -/
def Outcome.isReturned {α : Type} : Outcome α → Bool
  | .returned _ => true
  | _ => false

/-- Whether the call panicked. -/
def Outcome.isPanicked {α : Type} : Outcome α → Bool
  | .panicked => true
  | _ => false

/-- Whether the call came to an end: it returned or it panicked. -/
def Outcome.isFinished {α : Type} : Outcome α → Bool
  | .outOfFuel => false
  | _ => true

/-- Whether `populate` returned with a nil error. -/
def Outcome.isNoError : Outcome ((Ty → Option Ref) × Option GoError) → Bool
  | .returned (_, none) => true
  | _ => false

/-- The message of the error a call returned, if it returned one. -/
def Outcome.errorMessage : Outcome (Option GoError) → Option String
  | .returned (some e) => some e.Error
  | _ => none

/-- The `Setup` call `ev` was made when the runtime type of every inject-tagged
field value of `ev.obj` was marked constructed. -/
def SetupCall.afterDependencies (w : World) (ev : SetupCall) : Prop :=
  ∀ p ∈ (w.fieldTags (w.typeOf ev.obj)).enum, p.2 = true →
    ev.constructedAt (w.typeOf (w.fieldVal ev.obj p.1)) = true

/-- The runs of the top-level roots, one per root and in root order: each root is
constructed with `current` set to it, from the state the previous root left,
whatever the previous root returned. -/
def rootRuns (w : World) (fuel : Nat) :
    List Object → construct → List (construct × Outcome (Option GoError))
  | [], _ => []
  | obj :: rest, c =>
    recurConstruct w fuel { c with current := obj.Value } obj ::
      rootRuns w fuel rest (recurConstruct w fuel { c with current := obj.Value } obj).1

/-- The error a root run returned (nil for a run that did not return). -/
def rootError (r : construct × Outcome (Option GoError)) : Option GoError :=
  match r.2 with
  | .returned e => e
  | _ => none

/-- The state after the last of the runs, `c` when there is none. -/
def finalState : List (construct × Outcome (Option GoError)) → construct → construct
  | [], c => c
  | r :: rest, _ => finalState rest r.1

/-- The bookkeeping of a run in which no `Setup` has failed: every value whose
`Setup` ran has `Setup` and a type that is marked constructed, every marked
type with `Setup` had `Setup` run on one of its instances, and no instance had
it run twice when the types with `Setup` have a single instance. -/
def construct.setupsAccounted (w : World) (c : construct) : Prop :=
  (∀ r ∈ c.setupCalls, c.constructed (w.typeOf r) = true ∧
      w.implementsSetup (w.typeOf r) = true) ∧
    (∀ t, c.constructed t = true → w.implementsSetup t = true →
      ∃ r ∈ c.setupCalls, w.typeOf r = t) ∧
    (w.singleSetupInstances → c.setupCalls.Nodup)

/-- The instances `a, x1, ..., xn` (`rest = [x1, ..., xn]`) form a dependency path
that closes at `R`: each of them has `Setup`, is a non-nil pointer to a struct
whose tagged fields are exported, and has exactly one tagged field, which
holds the next instance of the path, the one of the last instance holding `R`. -/
def closesAt (w : World) (R : Ref) : Ref → List Ref → Bool
  | a, [] => withConstructor w a && w.reflectable a && decide (taggedValues w a = [R])
  | a, b :: rest =>
    withConstructor w a && w.reflectable a && decide (taggedValues w a = [b]) &&
      closesAt w R b rest

/-- A sequence of `recurConstruct` calls on one resolver: each call comes with its
fuel, the value `current` has been set to, and its object. -/
def callSequence (w : World) : List (Nat × Ref × Object) → construct → construct
  | [], c => c
  | (fuel, cur, obj) :: rest, c =>
    callSequence w rest (recurConstruct w fuel { c with current := cur } obj).1

/-- Two providers of one type without `Setup`: instance 1 and instance 2, both of type 7. -/
def twoOfOneType : World :=
  { dynType := fun _ => 7
    typeString := fun _ => "*T"
    hasSetup := fun _ => false
    fieldTags := fun _ => []
    fieldVal := fun _ _ => none
    Setup := fun _ _ => none }

/-- A provider of type `*A` whose only field is tagged and holds the provider
itself; `hasSetup` tells whether `*A` has the method `Setup`. -/
def selfLoop (hasSetup : Bool) : World :=
  { dynType := fun _ => 0
    typeString := fun _ => "*A"
    hasSetup := fun _ => hasSetup
    fieldTags := fun _ => [true]
    fieldVal := fun _ _ => some 0
    Setup := fun _ _ => none }

/-- Two roots without fields whose `Setup` fails: instance 0 of type 0 with
message `m1`, instance 1 of type 1 with message `m2`; instance 2 of type 2 has
no `Setup`. -/
def twoFailing : World :=
  { dynType := fun n => n
    typeString := fun _ => "*F"
    hasSetup := fun t => t == 0 || t == 1
    fieldTags := fun _ => []
    fieldVal := fun _ _ => none
    Setup := fun _ r =>
      if r = some 0 then some (.errorString "m1") else some (.errorString "m2") }

/-- The heap of `TestWeave` (inject_test.go) after the graph library filled the
tagged fields: instances and types `0` Driver, `1` Farmer, `2` Master,
`3` MyLogger, `4` TillageMachine.  Only `*Driver` has `Setup`; its second field
`plane` carries no tag and is not exported. -/
def testWeave : World :=
  { dynType := fun n => n
    typeString := fun t =>
      match t with
      | some 0 => "*example.Driver"
      | some 1 => "*example.Farmer"
      | some 2 => "*example.Master"
      | some 3 => "*example.MyLogger"
      | _ => "*example.TillageMachine"
    hasSetup := fun t => t == 0
    fieldTags := fun t =>
      match t with
      | some 0 => [true, false]
      | some 1 => [true, true]
      | some 2 => [true, true, true]
      | some 4 => [true]
      | _ => []
    fieldExported := fun t i => !(t == some 0 && i == 1)
    fieldVal := fun r i =>
      match r, i with
      | some 1, 1 => some 4
      | some 2, 1 => some 1
      | some 2, 2 => some 0
      | _, _ => some 3
    Setup := fun _ _ => none }

/-- The candidates of `TestWeave`, in one possible map order. -/
def testWeaveObjects : List Object :=
  [{ Value := some 3, Name := "logger" },
    { Value := some 0, Name := "example.Master.Transport" },
    { Value := some 1, Name := "example.Master.Food" },
    { Value := some 4, Name := "example.TillageMachine.Machine" },
    { Value := some 2, Name := "" }]

/-- Height of the `TestWeave` instances in the dependency order. -/
def testWeaveRank (r : Ref) : Nat :=
  match r with
  | some 0 => 1
  | some 1 => 2
  | some 2 => 3
  | some 4 => 1
  | _ => 0

/-- The dependency map of `TestWeave` with the driver listed under two names. -/
def testWeaveDepMap : List (Ref × List String) :=
  [(some 3, ["logger"]), (some 0, ["example.Master.Transport", "transport"]),
    (some 1, ["example.Master.Food"]), (some 4, ["example.TillageMachine.Machine"]),
    (some 2, [])]

/-- A graph library that accepts the objects and hands them on as they are. -/
def plainGraph : Graph :=
  { Provide := fun _ => none
    Populate := fun _ => none
    Objects := fun deps => deps }

/-- Instances 1 and 2 of one type 7 that has `Setup`; the tagged field of 1
holds 2, the tagged field of 2 holds instance 3 of type 8 without `Setup`. -/
def chainOfOneType : World :=
  { dynType := fun n => if n = 3 then 8 else 7
    typeString := fun t => if t = some 8 then "*U" else "*T"
    hasSetup := fun t => t == 7
    fieldTags := fun t => if t = some 7 then [true] else []
    fieldVal := fun r _ => if r = some 1 then some 2 else some 3
    Setup := fun _ _ => none }

/-- The heap of `chainOfOneType`, except that `Setup` fails on instance 1. -/
def chainSetupFails : World :=
  { chainOfOneType with
    Setup := fun _ r => if r = some 1 then some (.errorString "boom") else none }

/-- Instance 0 of type 0 whose `Setup` fails, and instance 1 of type 1 whose
`Setup` succeeds and whose tagged field holds instance 0. -/
def failingDependency : World :=
  { dynType := fun n => n
    typeString := fun t => if t = some 0 then "*X" else "*Y"
    hasSetup := fun _ => true
    fieldTags := fun t => if t = some 1 then [true] else []
    fieldVal := fun _ _ => some 0
    Setup := fun _ r => if r = some 0 then some (.errorString "boom") else none }

/-- A cycle of length four through instance 0: `0 -> 1 -> 2 -> 3 -> 0`; every
type has `Setup` and one tagged field (the second of two fields). -/
def ringOfFour : World :=
  { dynType := fun n => n
    typeString := fun t =>
      match t with
      | some 0 => "*R"
      | some 1 => "*X1"
      | some 2 => "*X2"
      | _ => "*X3"
    hasSetup := fun _ => true
    fieldTags := fun _ => [false, true]
    fieldVal := fun r i => if i = 1 then r.map (fun n => (n + 1) % 4) else some 9
    Setup := fun _ _ => none }

/-- Root `A` (instance 0) holds `B` (1) in its tagged field, `B` holds `C` (2),
`C` holds `B`; all three types have `Setup`: a cycle that does not pass through
the root `A`. -/
def hiddenCycle : World :=
  { dynType := fun n => n
    typeString := fun t =>
      match t with
      | some 0 => "*A"
      | some 1 => "*B"
      | _ => "*C"
    hasSetup := fun _ => true
    fieldTags := fun _ => [true]
    fieldVal := fun r _ =>
      match r with
      | some 0 => some 1
      | some 1 => some 2
      | _ => some 1
    Setup := fun _ _ => none }

/-- A named provider that is not a pointer to a struct: value 0 of type 0
(`type Port int` with a method `Setup`), without fields. -/
def portProvider : World :=
  { dynType := fun n => n
    typeString := fun _ => "main.Port"
    hasSetup := fun _ => true
    structPointer := fun _ => false
    fieldTags := fun _ => []
    fieldVal := fun _ _ => none
    Setup := fun _ _ => none }

/-- Instance 0 of type 0 has `Setup` and one inject-tagged field, which is
unexported and holds instance 1 of type 1; type 1 has no `Setup` and no field. -/
def unexportedSlot : World :=
  { dynType := fun n => n
    typeString := fun _ => "*S"
    hasSetup := fun t => t == 0
    fieldTags := fun t => if t = some 0 then [true] else []
    fieldExported := fun _ _ => false
    fieldVal := fun _ _ => some 1
    Setup := fun _ _ => none }

/-- The heap of `selfLoop true`, except that the tagged field is unexported. -/
def selfLoopHidden : World :=
  { selfLoop true with fieldExported := fun _ _ => false }

/-- The heap of `portProvider`, except that `Setup` fails. -/
def portSetupFails : World :=
  { portProvider with Setup := fun _ _ => some (.errorString "boom") }

/-! ## Theorems -/

theorem writeErrs_eq_go (rest : List GoError) (i : Nat) (b : String) :
    GoError.Error.writeErrs rest (i + 1) b
      = String.intercalate.go b "; " (rest.map GoError.Error) := by
  induction rest generalizing i b with
  | nil => simp [GoError.Error.writeErrs, String.intercalate.go]
  | cons e rest ih =>
    simp [GoError.Error.writeErrs, String.intercalate.go, ih]

theorem multiError_Error (nn : List GoError) :
    (GoError.multiError nn).Error = "; ".intercalate (nn.map GoError.Error) := by
  cases nn with
  | nil => simp [GoError.Error, GoError.Error.writeErrs, String.intercalate]
  | cons e rest =>
    simp [GoError.Error, GoError.Error.writeErrs, String.intercalate, writeErrs_eq_go]

theorem nonNil_foldl (errs : List (Option GoError)) (acc : List GoError) :
    errs.foldl (fun acc err => match err with
        | some e => acc ++ [e]
        | none => acc) acc = acc ++ errs.filterMap id := by
  induction errs generalizing acc with
  | nil => simp
  | cons e rest ih =>
    cases e with
    | none => simp [ih]
    | some e => simp [ih]

theorem combine_eq (errs : List (Option GoError)) :
    combine errs = match errs.filterMap id with
      | [] => none
      | [e] => some e
      | e1 :: e2 :: rest => some (.multiError (e1 :: e2 :: rest)) := by
  unfold combine
  simp only [nonNil_foldl, List.nil_append]
  by_cases h : errs.length = 0
  · have : errs = [] := List.length_eq_zero.mp h
    subst this
    simp
  · simp only [h, if_false]
    rcases hnn : errs.filterMap id with _ | ⟨e1, _ | ⟨e2, rest⟩⟩ <;> simp

theorem names_foldl (v : Ref) (names : List String) (acc : List Object) :
    names.foldl (fun d name => d ++ [{ Value := v, Name := name }]) acc
      = acc ++ names.map (fun n => { Value := v, Name := n }) := by
  induction names generalizing acc with
  | nil => simp
  | cons n rest ih => simp [ih]

theorem buildObjects_foldl (depMap : List (Ref × List String)) (acc : List Object) :
    depMap.foldl (fun deps entry =>
      let deps1 := if entry.2.length = 0 then deps ++ [{ Value := entry.1, Name := "" }] else deps
      entry.2.foldl (fun d name => d ++ [{ Value := entry.1, Name := name }]) deps1) acc
    = acc ++ depMap.flatMap entriesOf := by
  induction depMap generalizing acc with
  | nil => simp
  | cons e rest ih =>
    rw [List.foldl_cons, ih]
    rcases e with ⟨v, names⟩
    cases names with
    | nil => simp [entriesOf]
    | cons n ns => simp [entriesOf, names_foldl]

theorem entriesOf_length (e : Ref × List String) :
    (entriesOf e).length = max 1 e.2.length := by
  rcases e with ⟨v, names⟩
  cases names with
  | nil => simp [entriesOf]
  | cons n ns => simp [entriesOf]

theorem flatMap_entriesOf_length (depMap : List (Ref × List String)) :
    (depMap.flatMap entriesOf).length = (depMap.map (fun e => max 1 e.2.length)).sum := by
  induction depMap with
  | nil => simp
  | cons e rest ih =>
    simp only [List.flatMap_cons, List.length_append, List.map_cons, List.sum_cons]
    rw [entriesOf_length, ih]

/-- C8: `buildObjects` is total and emits, provider by provider in map order, one
anonymous entry for an empty name list and otherwise one entry per name in list
order, each holding the provider instance; the number of entries is the sum of
`max 1 (number of names)`. -/
theorem buildObjects_entries (depMap : List (Ref × List String)) :
    buildObjects depMap
        = depMap.flatMap (fun e =>
            if e.2 = [] then [({ Value := e.1, Name := "" } : Object)]
            else e.2.map (fun n => { Value := e.1, Name := n }))
      ∧ (buildObjects depMap).length = (depMap.map (fun e => max 1 e.2.length)).sum := by
  have h : buildObjects depMap = depMap.flatMap entriesOf := by
    unfold buildObjects
    rw [buildObjects_foldl]; simp
  exact ⟨h, by rw [h]; exact flatMap_entriesOf_length depMap⟩

theorem recurConstruct_succ (w : World) (fuel : Nat) (c : construct) (obj : Object) :
    recurConstruct w (fuel + 1) c obj =
      if c.constructed (w.typeOf obj.Value) then (c, .returned none)
      else if !withConstructor w obj.Value then (c.markConstructed w obj.Value, .returned none)
      else if !w.pointsToStruct obj.Value then (c, .panicked)
      else
        match fieldLoop w (recurConstruct w fuel) obj (w.fieldTags (w.typeOf obj.Value)).enum c with
        | (c1, .returned none) =>
          match w.Setup c1.setupCalls obj.Value with
          | some err => (c1.logSetup w obj.Value, .returned (some err))
          | none => ((c1.logSetup w obj.Value).markConstructed w obj.Value, .returned none)
        | (c1, out) => (c1, out) := rfl

theorem inspectField_cases (w : World) (c : construct) (obj : Object) (i : Nat) :
    inspectField w c obj i = some .panicked ∨
      (∃ e, inspectField w c obj i = some (.returned (some e))) ∨
      (inspectField w c obj i = none ∧ w.fieldVal obj.Value i ≠ c.current) := by
  unfold inspectField
  split_ifs with h1 h2 h3
  · exact Or.inl rfl
  · exact Or.inl rfl
  · cases hc : c.current with
    | none => exact Or.inl rfl
    | some cur => exact Or.inr (Or.inl ⟨_, rfl⟩)
  · exact Or.inr (Or.inr ⟨rfl, h3⟩)

theorem inspectField_none (w : World) (c : construct) (obj : Object) (i : Nat)
    (h : inspectField w c obj i = none) : w.fieldVal obj.Value i ≠ c.current := by
  rcases inspectField_cases w c obj i with h1 | ⟨e, h1⟩ | ⟨-, h1⟩
  · rw [h] at h1; simp at h1
  · rw [h] at h1; simp at h1
  · exact h1

theorem inspectField_not_nil (w : World) (c : construct) (obj : Object) (i : Nat) :
    inspectField w c obj i ≠ some (.returned none) := by
  intro h
  rcases inspectField_cases w c obj i with h1 | ⟨e, h1⟩ | ⟨h1, -⟩
  · rw [h] at h1; simp at h1
  · rw [h] at h1; simp at h1
  · rw [h] at h1; simp at h1

theorem inspectField_eq_none (w : World) (c : construct) (obj : Object) (i : Nat)
    (h1 : w.fieldExported (w.typeOf obj.Value) i = true)
    (h2 : w.comparePanics (w.fieldVal obj.Value i) c.current = false)
    (h3 : w.fieldVal obj.Value i ≠ c.current) : inspectField w c obj i = none := by
  simp [inspectField, h1, h2, h3]

theorem reflectable_field (w : World) (v : Ref) (p : Nat × Bool)
    (h : w.reflectable v = true) (hp : p ∈ (w.fieldTags (w.typeOf v)).enum)
    (ht : p.2 = true) : w.fieldExported (w.typeOf v) p.1 = true := by
  simp only [World.reflectable, Bool.and_eq_true, List.all_eq_true, Bool.or_eq_true,
    Bool.not_eq_true'] at h
  rcases h.2 p hp with h1 | h1
  · rw [ht] at h1
    exact absurd h1 (by simp)
  · exact h1

theorem reflectable_pointer (w : World) (v : Ref) (h : w.reflectable v = true) :
    w.pointsToStruct v = true := by
  simp only [World.reflectable, Bool.and_eq_true] at h
  exact h.1

theorem fieldLoop_inv (w : World) (I : construct → Prop) (Q : Ref → Prop)
    (rc : construct → Object → construct × Outcome (Option GoError)) (obj : Object)
    (hrc : ∀ c v name, Q v → I c → I (rc c { Value := v, Name := name }).1) :
    ∀ (fields : List (Nat × Bool)) (c : construct),
      (∀ p ∈ fields, p.2 = true → Q (w.fieldVal obj.Value p.1)) → I c →
      I (fieldLoop w rc obj fields c).1 := by
  intro fields
  induction fields with
  | nil => intro c _ hc; simpa [fieldLoop] using hc
  | cons p rest ih =>
    intro c hQ hc
    rcases p with ⟨i, tagged⟩
    have hrest : ∀ p ∈ rest, p.2 = true → Q (w.fieldVal obj.Value p.1) :=
      fun p hp => hQ p (List.mem_cons_of_mem _ hp)
    cases tagged with
    | false => simpa [fieldLoop] using ih c hrest hc
    | true =>
      have hq : Q (w.fieldVal obj.Value i) := hQ (i, true) (List.mem_cons_self _ _) rfl
      cases hi : inspectField w c obj i with
      | some out => simpa [fieldLoop, hi] using hc
      | none =>
        have h1 := hrc c (w.fieldVal obj.Value i) "" hq hc
        rcases hr : rc c { Value := w.fieldVal obj.Value i, Name := "" } with ⟨c1, out⟩
        rw [hr] at h1
        rcases out with (_ | e) | _ | _
        · simpa [fieldLoop, hi, hr] using ih c1 hrest h1
        · simpa [fieldLoop, hi, hr] using h1
        · simpa [fieldLoop, hi, hr] using h1
        · simpa [fieldLoop, hi, hr] using h1

theorem recurConstruct_inv (w : World) (I : construct → Prop) (Q : Ref → Prop)
    (hQ : ∀ a b, Q a → withConstructor w a = true → dependsOn w a b → Q b)
    (hmark : ∀ c v, Q v → I c → I (c.markConstructed w v))
    (hlog : ∀ c v, Q v → I c → I (c.logSetup w v)) :
    ∀ (fuel : Nat) (c : construct) (obj : Object), Q obj.Value → I c →
      I (recurConstruct w fuel c obj).1 := by
  intro fuel
  induction fuel with
  | zero => intro c obj _ hc; simpa [recurConstruct] using hc
  | succ fuel ih =>
    intro c obj hq hc
    rw [recurConstruct_succ]
    by_cases h1 : c.constructed (w.typeOf obj.Value) = true
    · simpa [h1] using hc
    · by_cases h2 : withConstructor w obj.Value = true
      · by_cases h3 : w.pointsToStruct obj.Value = true
        · have hloop := fieldLoop_inv w I Q (recurConstruct w fuel) obj
            (fun c v name hv hc => ih c _ hv hc)
            (w.fieldTags (w.typeOf obj.Value)).enum c
            (fun p hp ht => hQ obj.Value _ hq h2 ⟨p, hp, ht, rfl⟩) hc
          rcases hr : fieldLoop w (recurConstruct w fuel) obj
            (w.fieldTags (w.typeOf obj.Value)).enum c with ⟨c1, out⟩
          rw [hr] at hloop
          rcases out with (_ | e) | _ | _
          · cases hs : w.Setup c1.setupCalls obj.Value with
            | none => simpa [h1, h2, h3, hr, hs] using hmark _ _ hq (hlog _ _ hq hloop)
            | some err => simpa [h1, h2, h3, hr, hs] using hlog _ _ hq hloop
          · simpa [h1, h2, h3, hr] using hloop
          · simpa [h1, h2, h3, hr] using hloop
          · simpa [h1, h2, h3, hr] using hloop
        · simpa [h1, h2, h3] using hc
      · simpa [h1, h2] using hmark c _ hq hc

theorem recurConstruct_mono (w : World) (fuel : Nat) (c : construct) (obj : Object) (t : Ty)
    (h : c.constructed t = true) : (recurConstruct w fuel c obj).1.constructed t = true := by
  refine recurConstruct_inv w (fun c1 => c1.constructed t = true) (fun _ => True)
    (fun _ _ _ _ _ => trivial) ?_ ?_ fuel c obj trivial h
  · intro c v _ hc
    simp [construct.markConstructed, hc]
  · intro c v _ hc
    simpa [construct.logSetup] using hc

theorem recurConstruct_current (w : World) (fuel : Nat) (c : construct) (obj : Object) :
    (recurConstruct w fuel c obj).1.current = c.current := by
  refine recurConstruct_inv w (fun c1 => c1.current = c.current) (fun _ => True)
    (fun _ _ _ _ _ => trivial) ?_ ?_ fuel c obj trivial rfl
  · intro c1 v _ hc
    simpa [construct.markConstructed] using hc
  · intro c1 v _ hc
    simpa [construct.logSetup] using hc

theorem recurConstruct_returned_nil (w : World) (fuel : Nat) (c : construct) (obj : Object)
    (h : (recurConstruct w fuel c obj).2 = .returned none) :
    (recurConstruct w fuel c obj).1.constructed (w.typeOf obj.Value) = true := by
  cases fuel with
  | zero => simp [recurConstruct] at h
  | succ fuel =>
    rw [recurConstruct_succ] at h ⊢
    by_cases h1 : c.constructed (w.typeOf obj.Value) = true
    · simp [h1]
    · by_cases h2 : withConstructor w obj.Value = true
      · by_cases h3 : w.pointsToStruct obj.Value = true
        · rcases hr : fieldLoop w (recurConstruct w fuel) obj
            (w.fieldTags (w.typeOf obj.Value)).enum c with ⟨c1, out⟩
          rcases out with (_ | e) | _ | _
          · cases hs : w.Setup c1.setupCalls obj.Value with
            | none => simp [h1, h2, h3, hr, hs, construct.markConstructed]
            | some err => simp [h1, h2, h3, hr, hs] at h
          · simp [h1, h2, h3, hr] at h
          · simp [h1, h2, h3, hr] at h
          · simp [h1, h2, h3, hr] at h
        · simp [h1, h2, h3] at h
      · simp [h1, h2, construct.markConstructed]

theorem fieldLoop_returned_nil (w : World) (fuel : Nat) (obj : Object) :
    ∀ (fields : List (Nat × Bool)) (c : construct),
      (fieldLoop w (recurConstruct w fuel) obj fields c).2 = .returned none →
      ∀ p ∈ fields, p.2 = true →
        (fieldLoop w (recurConstruct w fuel) obj fields c).1.constructed
          (w.typeOf (w.fieldVal obj.Value p.1)) = true := by
  intro fields
  induction fields with
  | nil => intro c _ p hp; simp at hp
  | cons q rest ih =>
    intro c h p hp hpt
    rcases q with ⟨i, tagged⟩
    have hmono : ∀ (c1 : construct) (t : Ty), c1.constructed t = true →
        (fieldLoop w (recurConstruct w fuel) obj rest c1).1.constructed t = true := by
      intro c1 t ht
      exact fieldLoop_inv w (fun c2 => c2.constructed t = true) (fun _ => True)
        (recurConstruct w fuel) obj
        (fun c2 v name _ hc2 => recurConstruct_mono w fuel c2 _ t hc2) rest c1
        (fun _ _ _ => trivial) ht
    cases tagged with
    | false =>
      simp only [fieldLoop, Bool.not_false, if_true] at h ⊢
      rcases List.mem_cons.mp hp with rfl | hp
      · simp at hpt
      · exact ih c h p hp hpt
    | true =>
      cases hi : inspectField w c obj i with
      | some out =>
        exfalso
        simp only [fieldLoop, Bool.not_true, Bool.false_eq_true, if_false, hi] at h
        exact inspectField_not_nil w c obj i (h ▸ hi)
      | none =>
        rcases hr : recurConstruct w fuel c { Value := w.fieldVal obj.Value i, Name := "" }
          with ⟨c1, out⟩
        rcases out with (_ | e) | _ | _
        · simp only [fieldLoop, Bool.not_true, Bool.false_eq_true, if_false, hi, hr] at h ⊢
          rcases List.mem_cons.mp hp with rfl | hp
          · have hb := recurConstruct_returned_nil w fuel c
              { Value := w.fieldVal obj.Value i, Name := "" } (by rw [hr])
            rw [hr] at hb
            exact hmono c1 _ hb
          · exact ih c1 h p hp hpt
        · simp [fieldLoop, hi, hr] at h
        · simp [fieldLoop, hi, hr] at h
        · simp [fieldLoop, hi, hr] at h

theorem fieldLoop_append (w : World)
    (rc : construct → Object → construct × Outcome (Option GoError)) (obj : Object)
    (l1 l2 : List (Nat × Bool)) (c c1 : construct)
    (h : fieldLoop w rc obj l1 c = (c1, .returned none)) :
    fieldLoop w rc obj (l1 ++ l2) c = fieldLoop w rc obj l2 c1 := by
  induction l1 generalizing c with
  | nil =>
    simp only [fieldLoop, Prod.mk.injEq] at h
    simp [h.1]
  | cons p rest ih =>
    rcases p with ⟨i, tagged⟩
    cases tagged with
    | false =>
      simp only [fieldLoop, Bool.not_false, if_true] at h
      simpa [fieldLoop] using ih c h
    | true =>
      cases hi : inspectField w c obj i with
      | some out =>
        simp only [fieldLoop, Bool.not_true, Bool.false_eq_true, if_false, hi,
          Prod.mk.injEq] at h
        exact absurd (h.2 ▸ hi) (inspectField_not_nil w c obj i)
      | none =>
        rcases hr : rc c { Value := w.fieldVal obj.Value i, Name := "" } with ⟨c2, out⟩
        rcases out with (_ | e) | _ | _
        · simp only [fieldLoop, Bool.not_true, Bool.false_eq_true, if_false, hi, hr] at h
          simpa [fieldLoop, hi, hr] using ih c2 h
        · simp [fieldLoop, hi, hr] at h
        · simp [fieldLoop, hi, hr] at h
        · simp [fieldLoop, hi, hr] at h

theorem fieldLoop_current (w : World) (fuel : Nat) (obj : Object)
    (fields : List (Nat × Bool)) (c : construct) :
    (fieldLoop w (recurConstruct w fuel) obj fields c).1.current = c.current :=
  fieldLoop_inv w (fun c1 => c1.current = c.current) (fun _ => True)
    (recurConstruct w fuel) obj
    (fun c2 _ _ _ hc2 => (recurConstruct_current w fuel c2 _).trans hc2) fields c
    (fun _ _ _ => trivial) rfl

theorem enum_split {α : Type} (l : List α) (i : Nat) (a : α) (h : l[i]? = some a) :
    l.enum = l.enum.take i ++ (i, a) :: l.enum.drop (i + 1) := by
  have hlt : i < l.enum.length := by
    rw [List.enum_length]
    exact (List.getElem?_eq_some.mp h).1
  have hget : l.enum[i] = (i, a) := by
    have := List.getElem?_enum l i
    rw [h] at this
    simpa using (List.getElem?_eq_some.mp this).2
  conv_lhs => rw [← List.take_append_drop i l.enum, List.drop_eq_getElem_cons hlt, hget]

theorem pointsToStruct_ne_none (w : World) (v : Ref) (h : w.pointsToStruct v = true) :
    v ≠ none := by
  rintro rfl
  simp [World.pointsToStruct] at h

theorem comparePanics_pointer (w : World) (a b : Ref) (h : w.pointsToStruct b = true) :
    w.comparePanics a b = false := by
  cases a with
  | none => rfl
  | some x =>
    cases b with
    | none => rfl
    | some y => simp [World.comparePanics, h]

/-- C4 (as amended): a provider without `Setup` is never refused: whatever the
resolver state and whatever the fields hold, `recurConstruct` returns nil without
invoking any `Setup`; when its type was not yet marked constructed the result is
exactly the state with the type marked and the table mapping the type to this
instance; when the type was already marked the state is left as it was. -/
theorem recurConstruct_without_constructor (w w' : World) (fuel : Nat) (c : construct)
    (obj : Object) (h : withConstructor w obj.Value = false)
    (htype : w'.typeOf = w.typeOf) (himpl : w'.implementsSetup = w.implementsSetup) :
    recurConstruct w (fuel + 1) c obj
        = (if c.constructed (w.typeOf obj.Value) = true then c
            else c.markConstructed w obj.Value, .returned none)
      ∧ (recurConstruct w (fuel + 1) c obj).1.setupLog = c.setupLog
      ∧ (c.constructed (w.typeOf obj.Value) = false →
          (recurConstruct w (fuel + 1) c obj).1.initializedDeps (w.typeOf obj.Value)
            = some obj.Value)
      ∧ recurConstruct w' (fuel + 1) c obj = recurConstruct w (fuel + 1) c obj := by
  have h' : withConstructor w' obj.Value = false := by
    simpa [withConstructor, htype, himpl] using h
  have e : ∀ w0 : World, withConstructor w0 obj.Value = false →
      recurConstruct w0 (fuel + 1) c obj
        = (if c.constructed (w0.typeOf obj.Value) = true then c
            else c.markConstructed w0 obj.Value, .returned none) := by
    intro w0 h0
    rw [recurConstruct_succ]
    by_cases h1 : c.constructed (w0.typeOf obj.Value) = true <;> simp [h1, h0]
  refine ⟨e w h, ?_, ?_, ?_⟩
  · rw [e w h]
    by_cases h1 : c.constructed (w.typeOf obj.Value) = true <;>
      simp [h1, construct.markConstructed]
  · intro h1
    rw [e w h]
    simp [h1, construct.markConstructed]
  · rw [e w h, e w' h']
    simp [htype, construct.markConstructed]

theorem recurConstruct_without_constructor_witness :
    withConstructor twoOfOneType (some 2) = false ∧
      recurConstruct twoOfOneType 1 newConstruct { Value := some 2, Name := "" }
        = (if newConstruct.constructed (twoOfOneType.typeOf (some 2)) = true then newConstruct
            else newConstruct.markConstructed twoOfOneType (some 2), .returned none) :=
  ⟨by decide,
    (recurConstruct_without_constructor twoOfOneType twoOfOneType 0 newConstruct
      { Value := some 2, Name := "" } (by decide) rfl rfl).1⟩

/-- C4 fails as stated: after instance 1 of type 7 has been recorded, constructing
instance 2 of the same type (no `Setup`) leaves the table entry of that type at
instance 1. -/
theorem recurConstruct_same_type_keeps_first :
    withConstructor twoOfOneType (some 2) = false ∧
      (recurConstruct twoOfOneType 1
        (recurConstruct twoOfOneType 1 newConstruct { Value := some 1, Name := "" }).1
        { Value := some 2, Name := "" }).1.initializedDeps (twoOfOneType.typeOf (some 2))
          = some (some 1) := by
  decide

/-- C6: `combine` returns nil when no entry is non-nil, the single non-nil entry
itself when there is exactly one, and otherwise the `multiError` of the non-nil
entries in their order, whose message is their messages joined by `"; "`. -/
theorem combine_cases (errs : List (Option GoError)) :
    match errs.filterMap id with
    | [] => combine errs = none
    | [e] => combine errs = some e
    | e1 :: e2 :: rest =>
      combine errs = some (.multiError (e1 :: e2 :: rest)) ∧
        (GoError.multiError (e1 :: e2 :: rest)).Error
          = "; ".intercalate ((e1 :: e2 :: rest).map GoError.Error) := by
  have h := combine_eq errs
  rcases hnn : errs.filterMap id with _ | ⟨e1, _ | ⟨e2, rest⟩⟩
  · simpa [hnn] using h
  · simpa [hnn] using h
  · rw [hnn] at h
    exact ⟨h, multiError_Error _⟩

theorem recurConstruct_inv_setup (w : World) (I : construct → Prop) (Q : Ref → Prop)
    (hQ : ∀ a b, Q a → withConstructor w a = true → dependsOn w a b → Q b)
    (hmark : ∀ c v, Q v → I c → I (c.markConstructed w v))
    (hlog : ∀ c v, Q v → I c → withConstructor w v = true →
      (∀ p ∈ (w.fieldTags (w.typeOf v)).enum, p.2 = true →
        c.constructed (w.typeOf (w.fieldVal v p.1)) = true) → I (c.logSetup w v)) :
    ∀ (fuel : Nat) (c : construct) (obj : Object), Q obj.Value → I c →
      I (recurConstruct w fuel c obj).1 := by
  intro fuel
  induction fuel with
  | zero => intro c obj _ hc; simpa [recurConstruct] using hc
  | succ fuel ih =>
    intro c obj hq hc
    rw [recurConstruct_succ]
    by_cases h1 : c.constructed (w.typeOf obj.Value) = true
    · simpa [h1] using hc
    · by_cases h2 : withConstructor w obj.Value = true
      · by_cases h3 : w.pointsToStruct obj.Value = true
        · have hloop := fieldLoop_inv w I Q (recurConstruct w fuel) obj
            (fun c v name hv hc => ih c _ hv hc)
            (w.fieldTags (w.typeOf obj.Value)).enum c
            (fun p hp ht => hQ obj.Value _ hq h2 ⟨p, hp, ht, rfl⟩) hc
          have hpost := fieldLoop_returned_nil w fuel obj
            (w.fieldTags (w.typeOf obj.Value)).enum c
          rcases hr : fieldLoop w (recurConstruct w fuel) obj
            (w.fieldTags (w.typeOf obj.Value)).enum c with ⟨c1, out⟩
          rw [hr] at hloop hpost
          rcases out with (_ | e) | _ | _
          · have hl := hlog c1 obj.Value hq hloop h2 (hpost rfl)
            cases hs : w.Setup c1.setupCalls obj.Value with
            | none => simpa [h1, h2, h3, hr, hs] using hmark _ _ hq hl
            | some err => simpa [h1, h2, h3, hr, hs] using hl
          · simpa [h1, h2, h3, hr] using hloop
          · simpa [h1, h2, h3, hr] using hloop
          · simpa [h1, h2, h3, hr] using hloop
        · simpa [h1, h2, h3] using hc
      · simpa [h1, h2] using hmark c _ hq hc

theorem populateLoop_inv (w : World) (fuel : Nat) (I : construct → Prop) :
    ∀ (roots : List Object) (c : construct) (errs : List GoError),
      (∀ c1 obj, obj ∈ roots → I c1 →
        I (recurConstruct w fuel { c1 with current := obj.Value } obj).1) →
      I c → I (populateLoop w fuel roots c errs).1 := by
  intro roots
  induction roots with
  | nil => intro c errs _ hc; simpa [populateLoop] using hc
  | cons obj rest ih =>
    intro c errs hstep hc
    have h1 := hstep c obj (List.mem_cons_self _ _) hc
    have hrest : ∀ c1 o, o ∈ rest → I c1 →
        I (recurConstruct w fuel { c1 with current := o.Value } o).1 :=
      fun c1 o ho => hstep c1 o (List.mem_cons_of_mem _ ho)
    rcases hr : recurConstruct w fuel { c with current := obj.Value } obj with ⟨c1, out⟩
    rw [hr] at h1
    rcases out with (_ | e) | _ | _
    · simpa [populateLoop, hr] using ih c1 errs hrest h1
    · simpa [populateLoop, hr] using ih c1 _ hrest h1
    · simpa [populateLoop, hr] using h1
    · simpa [populateLoop, hr] using h1

theorem populate_state (w : World) (fuel : Nat) (c : construct) (objs : List Object) :
    (populate w fuel c objs).1 = (populateLoop w fuel (dedup w objs) c []).1 := by
  unfold populate
  rcases populateLoop w fuel (dedup w objs) c [] with ⟨c1, _ | _ | _⟩ <;> rfl

theorem recurConstruct_log_good (w : World) (fuel : Nat) (c0 c : construct) (obj : Object)
    (h : ∃ new, c.setupLog = c0.setupLog ++ new ∧ ∀ ev ∈ new, ev.afterDependencies w) :
    ∃ new, (recurConstruct w fuel c obj).1.setupLog = c0.setupLog ++ new ∧
      ∀ ev ∈ new, ev.afterDependencies w := by
  refine recurConstruct_inv_setup w
    (fun c1 => ∃ new, c1.setupLog = c0.setupLog ++ new ∧ ∀ ev ∈ new, ev.afterDependencies w)
    (fun _ => True) (fun _ _ _ _ _ => trivial) ?_ ?_ fuel c obj trivial h
  · rintro c1 v - ⟨new, h1, h2⟩
    exact ⟨new, by simpa [construct.markConstructed] using h1, h2⟩
  · rintro c1 v - ⟨new, h1, h2⟩ - hdeps
    refine ⟨new ++ [⟨v, c1.constructed, (w.Setup c1.setupCalls v).isSome⟩], ?_, ?_⟩
    · simp [construct.logSetup, h1]
    · intro ev hev
      rcases List.mem_append.mp hev with hev | hev
      · exact h2 ev hev
      · rw [List.mem_singleton] at hev
        subst hev
        exact hdeps

/-- C2: in every run of `populate` (any fuel, any starting state, also a run that
fails or does not finish), each `Setup` invocation made during the run happens at
a moment when the runtime type of every inject-tagged field value of the object
is marked constructed. -/
theorem populate_setup_after_dependencies (w : World) (fuel : Nat) (c : construct)
    (objs : List Object) :
    ∃ new, (populate w fuel c objs).1.setupLog = c.setupLog ++ new ∧
      ∀ ev ∈ new, ∀ p ∈ (w.fieldTags (w.typeOf ev.obj)).enum, p.2 = true →
        ev.constructedAt (w.typeOf (w.fieldVal ev.obj p.1)) = true := by
  rw [populate_state]
  exact populateLoop_inv w fuel
    (fun c1 => ∃ new, c1.setupLog = c.setupLog ++ new ∧ ∀ ev ∈ new, ev.afterDependencies w)
    (dedup w objs) c []
    (fun c1 obj _ h => recurConstruct_log_good w fuel c _ obj h)
    ⟨[], by simp, by simp⟩

theorem populateLoop_eq_rootRuns (w : World) (fuel : Nat) :
    ∀ (roots : List Object) (c : construct) (errs : List GoError),
      (∀ r ∈ rootRuns w fuel roots c, r.2.isReturned = true) →
      populateLoop w fuel roots c errs
        = (finalState (rootRuns w fuel roots c) c,
            .returned (errs ++ (rootRuns w fuel roots c).filterMap rootError)) := by
  intro roots
  induction roots with
  | nil => intro c errs _; simp [populateLoop, rootRuns, finalState]
  | cons obj rest ih =>
    intro c errs h
    have h0 := h (recurConstruct w fuel { c with current := obj.Value } obj)
      (by simp [rootRuns])
    have hrest : ∀ r ∈ rootRuns w fuel rest
        (recurConstruct w fuel { c with current := obj.Value } obj).1,
        r.2.isReturned = true := fun r hr => h r (by simp [rootRuns, hr])
    have ih1 := ih (recurConstruct w fuel { c with current := obj.Value } obj).1
    rcases hr : recurConstruct w fuel { c with current := obj.Value } obj with ⟨c1, out⟩
    rw [hr] at h0 hrest ih1
    rcases out with (_ | e) | _ | _
    · simp [populateLoop, rootRuns, finalState, hr, ih1 errs hrest, rootError]
    · simp [populateLoop, rootRuns, finalState, hr, ih1 _ hrest, rootError]
    · simp [Outcome.isReturned] at h0
    · simp [Outcome.isReturned] at h0

theorem populateLoop_returned (w : World) (fuel : Nat) :
    ∀ (roots : List Object) (c : construct) (errs res : List GoError),
      (populateLoop w fuel roots c errs).2 = .returned res →
      ∀ r ∈ rootRuns w fuel roots c, r.2.isReturned = true := by
  intro roots
  induction roots with
  | nil => intro c errs res _ r hr; simp [rootRuns] at hr
  | cons obj rest ih =>
    intro c errs res h r hr
    have ih1 := ih (recurConstruct w fuel { c with current := obj.Value } obj).1
    simp only [rootRuns, List.mem_cons] at hr
    rcases hrc : recurConstruct w fuel { c with current := obj.Value } obj with ⟨c1, out⟩
    rw [hrc] at hr ih1
    rcases out with (_ | e) | _ | _
    · simp only [populateLoop, hrc] at h
      rcases hr with rfl | hr
      · rfl
      · exact ih1 _ _ h r hr
    · simp only [populateLoop, hrc] at h
      rcases hr with rfl | hr
      · rfl
      · exact ih1 _ _ h r hr
    · simp [populateLoop, hrc] at h
    · simp [populateLoop, hrc] at h

theorem combine_filterMap (l : List (Option GoError)) :
    combine ((l.filterMap id).map some) = combine l := by
  rw [combine_eq, combine_eq]
  simp [List.filterMap_map]

theorem combine_ne_none (l : List (Option GoError)) :
    combine l ≠ none ↔ ∃ e, some e ∈ l := by
  rw [combine_eq]
  rcases hnn : l.filterMap id with _ | ⟨e1, _ | ⟨e2, rest⟩⟩
  · simp only [ne_eq, not_true_eq_false, false_iff, not_exists]
    intro e he
    have : e ∈ l.filterMap id := List.mem_filterMap.mpr ⟨some e, he, rfl⟩
    rw [hnn] at this
    simp at this
  · have : e1 ∈ l.filterMap id := by rw [hnn]; simp
    obtain ⟨a, ha, hae⟩ := List.mem_filterMap.mp this
    simp only [id] at hae
    simp only [ne_eq, reduceCtorEq, not_false_eq_true, true_iff]
    exact ⟨e1, hae ▸ ha⟩
  · have : e1 ∈ l.filterMap id := by rw [hnn]; simp
    obtain ⟨a, ha, hae⟩ := List.mem_filterMap.mp this
    simp only [id] at hae
    simp only [ne_eq, reduceCtorEq, not_false_eq_true, true_iff]
    exact ⟨e1, hae ▸ ha⟩

theorem populate_eq_rootRuns (w : World) (fuel : Nat) (c : construct) (objs : List Object)
    (hret : ∀ r ∈ rootRuns w fuel (dedup w objs) c, r.2.isReturned = true) :
    populate w fuel c objs
      = (finalState (rootRuns w fuel (dedup w objs) c) c,
          .returned ((finalState (rootRuns w fuel (dedup w objs) c) c).initializedDeps,
            combine ((rootRuns w fuel (dedup w objs) c).map rootError))) := by
  unfold populate
  rw [populateLoop_eq_rootRuns w fuel _ c [] hret]
  simp only [List.nil_append]
  have := combine_filterMap ((rootRuns w fuel (dedup w objs) c).map rootError)
  rw [List.filterMap_map] at this
  simp only [Function.comp_def, id] at this
  rw [this]

theorem rootRuns_length (w : World) (fuel : Nat) (roots : List Object) (c : construct) :
    (rootRuns w fuel roots c).length = roots.length := by
  induction roots generalizing c with
  | nil => rfl
  | cons obj rest ih => simp [rootRuns, ih]

/-- C7: `populate` runs every deduplicated root, each from the state the previous
one left, whether or not an earlier root failed; when they all return, the
returned error is `combine` of the per-root errors in root order, and when
exactly two roots fail, with errors `e1` then `e2`, its message is the message
of `e1`, then `"; "`, then the message of `e2`. -/
theorem populate_combines_root_errors (w : World) (fuel : Nat) (c : construct)
    (objs : List Object)
    (hret : ∀ r ∈ rootRuns w fuel (dedup w objs) c, r.2.isReturned = true) :
    (rootRuns w fuel (dedup w objs) c).length = (dedup w objs).length ∧
      populate w fuel c objs
        = (finalState (rootRuns w fuel (dedup w objs) c) c,
            .returned ((finalState (rootRuns w fuel (dedup w objs) c) c).initializedDeps,
              combine ((rootRuns w fuel (dedup w objs) c).map rootError))) ∧
      ∀ e1 e2, ((rootRuns w fuel (dedup w objs) c).map rootError).filterMap id = [e1, e2] →
        ∃ e, combine ((rootRuns w fuel (dedup w objs) c).map rootError) = some e ∧
          e.Error = e1.Error ++ "; " ++ e2.Error := by
  refine ⟨rootRuns_length _ _ _ _, populate_eq_rootRuns w fuel c objs hret, ?_⟩
  intro e1 e2 h
  refine ⟨.multiError [e1, e2], ?_, ?_⟩
  · rw [combine_eq, h]
  · simp [GoError.Error, GoError.Error.writeErrs]

theorem populate_combines_root_errors_witness :
    ∃ e, combine ((rootRuns twoFailing 1
          (dedup twoFailing [{ Value := some 0, Name := "" }, { Value := some 2, Name := "" },
            { Value := some 1, Name := "" }]) newConstruct).map rootError) = some e ∧
      e.Error = (GoError.errorString "m1").Error ++ "; " ++ (GoError.errorString "m2").Error :=
  (populate_combines_root_errors twoFailing 1 newConstruct
    [{ Value := some 0, Name := "" }, { Value := some 2, Name := "" }, { Value := some 1, Name := "" }]
    (by decide)).2.2 _ _ rfl

theorem populate_returned (w : World) (fuel : Nat) (c : construct) (objs : List Object)
    (tbl : Ty → Option Ref) (err : Option GoError)
    (h : (populate w fuel c objs).2 = .returned (tbl, err)) :
    (∀ r ∈ rootRuns w fuel (dedup w objs) c, r.2.isReturned = true) ∧
      tbl = (populate w fuel c objs).1.initializedDeps ∧
      err = combine ((rootRuns w fuel (dedup w objs) c).map rootError) := by
  have hret : ∀ r ∈ rootRuns w fuel (dedup w objs) c, r.2.isReturned = true := by
    unfold populate at h
    rcases hl : populateLoop w fuel (dedup w objs) c [] with ⟨c1, errs | _ | _⟩
    · exact populateLoop_returned w fuel _ c [] errs (by rw [hl])
    · simp [hl] at h
    · simp [hl] at h
  rw [populate_eq_rootRuns w fuel c objs hret] at h ⊢
  simp only [Outcome.returned.injEq, Prod.mk.injEq] at h
  exact ⟨hret, h.1.symm, h.2.symm⟩

theorem recurConstruct_new_entries (w : World) (fuel : Nat) (c0 c : construct) (obj : Object)
    (h : ∀ t, c.constructed t = true → c0.constructed t = false →
      ∃ r, c.initializedDeps t = some r ∧ w.typeOf r = t) :
    ∀ t, (recurConstruct w fuel c obj).1.constructed t = true → c0.constructed t = false →
      ∃ r, (recurConstruct w fuel c obj).1.initializedDeps t = some r ∧ w.typeOf r = t := by
  refine recurConstruct_inv w
    (fun c1 => ∀ t, c1.constructed t = true → c0.constructed t = false →
      ∃ r, c1.initializedDeps t = some r ∧ w.typeOf r = t)
    (fun _ => True) (fun _ _ _ _ _ => trivial) ?_ ?_ fuel c obj trivial h
  · intro c1 v _ hc1 t ht h0
    by_cases hv : t = w.typeOf v
    · exact ⟨v, by simp [construct.markConstructed, hv], hv.symm⟩
    · simp only [construct.markConstructed, hv, if_false] at ht ⊢
      exact hc1 t ht h0
  · intro c1 v _ hc1
    simpa [construct.logSetup] using hc1

theorem populate_new_entries (w : World) (fuel : Nat) (c : construct) (objs : List Object) :
    ∀ t, (populate w fuel c objs).1.constructed t = true → c.constructed t = false →
      ∃ r, (populate w fuel c objs).1.initializedDeps t = some r ∧ w.typeOf r = t := by
  rw [populate_state]
  exact populateLoop_inv w fuel
    (fun c1 => ∀ t, c1.constructed t = true → c.constructed t = false →
      ∃ r, c1.initializedDeps t = some r ∧ w.typeOf r = t)
    (dedup w objs) c []
    (fun c1 obj _ hc1 => recurConstruct_new_entries w fuel c _ obj hc1)
    (fun t ht h0 => by simp [ht] at h0)

theorem exists_uniform_fuel {α : Type} (P : α → Nat → Prop) (l : List α)
    (h : ∀ a ∈ l, ∃ N, ∀ n, N ≤ n → P a n) : ∃ N, ∀ n, N ≤ n → ∀ a ∈ l, P a n := by
  induction l with
  | nil => exact ⟨0, fun _ _ a ha => by simp at ha⟩
  | cons x rest ih =>
    obtain ⟨N1, h1⟩ := h x (List.mem_cons_self _ _)
    obtain ⟨N2, h2⟩ := ih (fun a ha => h a (List.mem_cons_of_mem _ ha))
    refine ⟨max N1 N2, fun n hn a ha => ?_⟩
    rcases List.mem_cons.mp ha with rfl | ha
    · exact h1 n (le_trans (le_max_left _ _) hn)
    · exact h2 n (le_trans (le_max_right _ _) hn) a ha

theorem acyclic_of_rank (w : World) (V : List Ref) (rank : Ref → Nat)
    (hclosed : ∀ a ∈ V, ∀ b, dependsOn w a b → b ∈ V)
    (hrank : ∀ a ∈ V, ∀ b, dependsOn w a b → rank b < rank a) :
    ∀ a ∈ V, ¬ Relation.TransGen (dependsOn w) a a := by
  have key : ∀ a b, Relation.TransGen (dependsOn w) a b → a ∈ V → b ∈ V ∧ rank b < rank a := by
    intro a b h
    induction h with
    | single hab => exact fun ha => ⟨hclosed a ha _ hab, hrank a ha _ hab⟩
    | tail _ hbc ih =>
      intro ha
      obtain ⟨hb, hlt⟩ := ih ha
      exact ⟨hclosed _ hb _ hbc, lt_trans (hrank _ hb _ hbc) hlt⟩
  intro a ha h
  exact lt_irrefl _ (key a a h ha).2

theorem dedupLoop_mem (w : World) (objs : List Object) :
    ∀ (bucket : Ty → Bool) (result : List Object) (o : Object),
      o ∈ dedupLoop w objs bucket result → o ∈ result ∨ o ∈ objs := by
  induction objs with
  | nil => intro bucket result o h; exact Or.inl (by simpa [dedupLoop] using h)
  | cons x rest ih =>
    intro bucket result o h
    by_cases hb : bucket (w.typeOf x.Value) = true
    · simp only [dedupLoop, hb, if_true] at h
      rcases ih _ _ _ h with h | h
      · exact Or.inl h
      · exact Or.inr (List.mem_cons_of_mem _ h)
    · simp only [dedupLoop, hb, if_false] at h
      rcases ih _ _ _ h with h | h
      · rcases List.mem_append.mp h with h | h
        · exact Or.inl h
        · exact Or.inr (by simp at h; simp [h])
      · exact Or.inr (List.mem_cons_of_mem _ h)

theorem dedupLoop_result (w : World) (objs : List Object) :
    ∀ (bucket : Ty → Bool) (result : List Object) (o : Object),
      o ∈ result → o ∈ dedupLoop w objs bucket result := by
  induction objs with
  | nil => intro bucket result o h; simpa [dedupLoop] using h
  | cons x rest ih =>
    intro bucket result o h
    by_cases hb : bucket (w.typeOf x.Value) = true
    · simpa [dedupLoop, hb] using ih _ _ _ h
    · simpa [dedupLoop, hb] using ih _ _ o (List.mem_append_left _ h)

theorem dedupLoop_covers (w : World) (objs : List Object) :
    ∀ (bucket : Ty → Bool) (result : List Object),
      (∀ t, bucket t = true → ∃ o ∈ result, w.typeOf o.Value = t) →
      ∀ o ∈ objs, ∃ o1 ∈ dedupLoop w objs bucket result,
        w.typeOf o1.Value = w.typeOf o.Value := by
  induction objs with
  | nil => intro bucket result _ o ho; simp at ho
  | cons x rest ih =>
    intro bucket result hb o ho
    by_cases hx : bucket (w.typeOf x.Value) = true
    · simp only [dedupLoop, hx, if_true]
      rcases List.mem_cons.mp ho with rfl | ho
      · obtain ⟨o1, ho1, ht⟩ := hb _ hx
        exact ⟨o1, dedupLoop_result w rest _ _ _ ho1, ht⟩
      · exact ih _ _ hb o ho
    · simp only [dedupLoop, hx, if_false]
      have hb1 : ∀ t, (if t = w.typeOf x.Value then true else bucket t) = true →
          ∃ o ∈ result ++ [x], w.typeOf o.Value = t := by
        intro t ht
        by_cases htx : t = w.typeOf x.Value
        · exact ⟨x, by simp, htx.symm⟩
        · simp only [htx, if_false] at ht
          obtain ⟨o1, ho1, h1⟩ := hb t ht
          exact ⟨o1, List.mem_append_left _ ho1, h1⟩
      rcases List.mem_cons.mp ho with rfl | ho
      · exact ⟨o, dedupLoop_result w rest _ _ _ (by simp), rfl⟩
      · exact ih _ _ hb1 o ho

theorem dedup_subset (w : World) (objs : List Object) (o : Object) (h : o ∈ dedup w objs) :
    o ∈ objs := by
  rcases dedupLoop_mem w objs _ _ o h with h | h
  · simp at h
  · exact h

theorem dedup_covers (w : World) (objs : List Object) (o : Object) (h : o ∈ objs) :
    ∃ o1 ∈ dedup w objs, w.typeOf o1.Value = w.typeOf o.Value :=
  dedupLoop_covers w objs _ _ (fun t ht => by simp at ht) o h

theorem finalState_mono (w : World) (fuel : Nat) (t : Ty) :
    ∀ (roots : List Object) (c : construct), c.constructed t = true →
      (finalState (rootRuns w fuel roots c) c).constructed t = true := by
  intro roots
  induction roots with
  | nil => intro c h; simpa [rootRuns, finalState] using h
  | cons obj rest ih =>
    intro c h
    simp only [rootRuns, finalState]
    exact ih _ (recurConstruct_mono w fuel _ obj t h)

theorem finalState_eq_populate (w : World) (fuel : Nat) (c : construct) (objs : List Object)
    (hret : ∀ r ∈ rootRuns w fuel (dedup w objs) c, r.2.isReturned = true) :
    (populate w fuel c objs).1 = finalState (rootRuns w fuel (dedup w objs) c) c := by
  rw [populate_eq_rootRuns w fuel c objs hret]

theorem rootRuns_all_nil (w : World) (fuel : Nat)
    (ok : Ref → Prop)
    (hok : ∀ (c : construct) (obj : Object), ok obj.Value →
      (recurConstruct w fuel { c with current := obj.Value } obj).2 = .returned none) :
    ∀ (roots : List Object) (c : construct), (∀ o ∈ roots, ok o.Value) →
      (∀ r ∈ rootRuns w fuel roots c, r.2 = .returned none) ∧
        ∀ o ∈ roots,
          (finalState (rootRuns w fuel roots c) c).constructed (w.typeOf o.Value) = true := by
  intro roots
  induction roots with
  | nil => intro c _; simp [rootRuns]
  | cons obj rest ih =>
    intro c hroots
    have h0 := hok c obj (hroots obj (List.mem_cons_self _ _))
    obtain ⟨h1, h2⟩ := ih (recurConstruct w fuel { c with current := obj.Value } obj).1
      (fun o ho => hroots o (List.mem_cons_of_mem _ ho))
    constructor
    · intro r hr
      simp only [rootRuns, List.mem_cons] at hr
      rcases hr with rfl | hr
      · exact h0
      · exact h1 r hr
    · intro o ho
      simp only [rootRuns, finalState]
      rcases List.mem_cons.mp ho with rfl | ho
      · exact finalState_mono w fuel _ rest _ (recurConstruct_returned_nil w fuel _ _ h0)
      · exact h2 o ho

theorem populate_entries_among (w : World) (fuel : Nat) (c : construct) (objs : List Object)
    (V : List Ref) (hV : ∀ o ∈ objs, o.Value ∈ V)
    (hclosed : ∀ a ∈ V, ∀ b, dependsOn w a b → b ∈ V)
    (hc : ∀ t r, c.initializedDeps t = some r → w.typeOf r = t ∧ r ∈ V) :
    ∀ t r, (populate w fuel c objs).1.initializedDeps t = some r → w.typeOf r = t ∧ r ∈ V := by
  rw [populate_state]
  refine populateLoop_inv w fuel
    (fun c1 => ∀ t r, c1.initializedDeps t = some r → w.typeOf r = t ∧ r ∈ V)
    (dedup w objs) c [] ?_ hc
  intro c1 obj hobj hc1
  refine recurConstruct_inv w
    (fun c2 => ∀ t r, c2.initializedDeps t = some r → w.typeOf r = t ∧ r ∈ V)
    (fun a => a ∈ V) (fun a b ha _ hab => hclosed a ha b hab) ?_ ?_ fuel _ obj
    (hV obj (dedup_subset w objs obj hobj)) hc1
  · intro c2 v hv hc2 t r htr
    by_cases ht : t = w.typeOf v
    · simp only [construct.markConstructed, ht, if_true, Option.some.injEq] at htr
      subst htr
      exact ⟨ht.symm, hv⟩
    · simp only [construct.markConstructed, ht, if_false] at htr
      exact hc2 t r htr
  · intro c2 v _ hc2
    simpa [construct.logSetup] using hc2

theorem dedupLoop_sublist (w : World) (objs : List Object) :
    ∀ (bucket : Ty → Bool) (result : List Object),
      (dedupLoop w objs bucket result).Sublist (result ++ objs) := by
  induction objs with
  | nil => intro bucket result; simp [dedupLoop]
  | cons x rest ih =>
    intro bucket result
    by_cases hb : bucket (w.typeOf x.Value) = true
    · simp only [dedupLoop, hb, if_true]
      exact (ih bucket result).trans
        (List.Sublist.append (List.Sublist.refl _) (List.sublist_cons_self _ _))
    · simp only [dedupLoop, hb, if_false]
      simpa using ih (fun t => if t = w.typeOf x.Value then true else bucket t) (result ++ [x])

theorem dedupLoop_nodup (w : World) (objs : List Object) :
    ∀ (bucket : Ty → Bool) (result : List Object),
      (result.map (fun o => w.typeOf o.Value)).Nodup →
      (∀ t, bucket t = true ↔ t ∈ result.map (fun o => w.typeOf o.Value)) →
      ((dedupLoop w objs bucket result).map (fun o => w.typeOf o.Value)).Nodup := by
  induction objs with
  | nil => intro bucket result h _; simpa [dedupLoop] using h
  | cons x rest ih =>
    intro bucket result hnd hb
    by_cases hx : bucket (w.typeOf x.Value) = true
    · simp only [dedupLoop, hx, if_true]
      exact ih bucket result hnd hb
    · simp only [dedupLoop, hx, if_false]
      have hnot : w.typeOf x.Value ∉ result.map (fun o => w.typeOf o.Value) :=
        fun h => hx ((hb _).mpr h)
      refine ih _ _ ?_ ?_
      · rw [List.map_append, List.nodup_append]
        refine ⟨hnd, by simp, ?_⟩
        intro t ht hs
        simp only [List.map_cons, List.map_nil, List.mem_singleton] at hs
        exact hnot (hs ▸ ht)
      · intro t
        by_cases htx : t = w.typeOf x.Value
        · simp [htx]
        · simp only [htx, if_false, List.map_append, List.map_cons, List.map_nil,
            List.mem_append, List.mem_singleton, or_false]
          exact hb t

theorem dedupLoop_first (w : World) (objs : List Object) :
    ∀ (bucket : Ty → Bool) (result : List Object) (o : Object),
      o ∈ dedupLoop w objs bucket result →
      o ∈ result ∨ (bucket (w.typeOf o.Value) = false ∧
        objs.find? (fun o1 => decide (w.typeOf o1.Value = w.typeOf o.Value)) = some o) := by
  induction objs with
  | nil => intro bucket result o h; exact Or.inl (by simpa [dedupLoop] using h)
  | cons x rest ih =>
    intro bucket result o h
    by_cases hx : bucket (w.typeOf x.Value) = true
    · simp only [dedupLoop, hx, if_true] at h
      rcases ih _ _ _ h with h | ⟨h1, h2⟩
      · exact Or.inl h
      · refine Or.inr ⟨h1, ?_⟩
        have hne : ¬ w.typeOf x.Value = w.typeOf o.Value := by
          intro heq
          rw [heq, h1] at hx
          exact Bool.false_ne_true hx
        rw [List.find?_cons_of_neg _ (by simpa using hne)]
        exact h2
    · simp only [dedupLoop, hx, if_false] at h
      rcases ih _ _ _ h with h | ⟨h1, h2⟩
      · rcases List.mem_append.mp h with h | h
        · exact Or.inl h
        · rw [List.mem_singleton] at h
          subst h
          exact Or.inr ⟨by simpa using hx, List.find?_cons_of_pos _ (by simp)⟩
      · have hne : ¬ w.typeOf o.Value = w.typeOf x.Value := by
          intro heq
          simp [heq] at h1
        refine Or.inr ⟨by simpa [hne] using h1, ?_⟩
        rw [List.find?_cons_of_neg _ (by simpa using fun h => hne h.symm)]
        exact h2

theorem dedupLoop_drop_seen (w : World) (b : Object) (l : List Object) :
    ∀ (bucket : Ty → Bool) (result : List Object), bucket (w.typeOf b.Value) = true →
      dedupLoop w (l ++ [b]) bucket result = dedupLoop w l bucket result := by
  induction l with
  | nil => intro bucket result hb; simp [dedupLoop, hb]
  | cons x rest ih =>
    intro bucket result hb
    by_cases hx : bucket (w.typeOf x.Value) = true
    · simpa [dedupLoop, hx] using ih bucket result hb
    · simpa [dedupLoop, hx] using ih _ (result ++ [x]) (by simp [hb])

/-- C11: `dedup` returns a subsequence of its input (input order is kept) in which
no two entries have the same runtime type, every runtime type of the input
occurs, and every entry kept is the first entry of its type in the input: a
later entry of a type already seen is dropped, whatever instance it holds. -/
theorem dedup_keeps_first_of_each_type (w : World) (objs : List Object) :
    (dedup w objs).Sublist objs ∧
      ((dedup w objs).map (fun o => w.typeOf o.Value)).Nodup ∧
      (∀ o ∈ objs, ∃ o1 ∈ dedup w objs, w.typeOf o1.Value = w.typeOf o.Value) ∧
      (∀ o ∈ dedup w objs,
        objs.find? (fun o1 => decide (w.typeOf o1.Value = w.typeOf o.Value)) = some o) ∧
      ∀ (a b : Object) (mid : List Object), w.typeOf a.Value = w.typeOf b.Value →
        dedup w (a :: (mid ++ [b])) = dedup w (a :: mid) := by
  refine ⟨?_, ?_, dedup_covers w objs, ?_, ?_⟩
  · simpa [dedup] using dedupLoop_sublist w objs (fun _ => false) []
  · exact dedupLoop_nodup w objs _ _ (by simp) (by simp)
  · intro o ho
    rcases dedupLoop_first w objs _ _ o ho with h | h
    · simp at h
    · exact h.2
  · intro a b mid hab
    simp only [dedup, dedupLoop, Bool.false_eq_true, if_false, List.nil_append]
    exact dedupLoop_drop_seen w b mid _ _ (by simp [hab])

theorem recurConstruct_wf (w : World) (V : List Ref)
    (hclosed : ∀ a ∈ V, ∀ b, dependsOn w a b → b ∈ V)
    (hacyc : ∀ a ∈ V, ¬ Relation.TransGen (dependsOn w) a a)
    (Q : Ref → Prop) (Pre : construct → Prop) (Good : Outcome (Option GoError) → Prop)
    (hQ : ∀ a b, a ∈ V → Q a → dependsOn w a b → Q b)
    (hPre : ∀ c c1 : construct, c1.current = c.current → Pre c → Pre c1)
    (hnil : Good (.returned none))
    (hpanic : ∀ a, a ∈ V → Q a → withConstructor w a = true →
      w.pointsToStruct a = false → Good .panicked)
    (hinspect : ∀ (c : construct) (a : Ref) (name : String) (i : Nat)
      (out : Outcome (Option GoError)), Pre c → a ∈ V → Q a → withConstructor w a = true →
      (i, true) ∈ (w.fieldTags (w.typeOf a)).enum →
      inspectField w c { Value := a, Name := name } i = some out → Good out)
    (hsetup : ∀ (a : Ref) (hist : List Ref) (err : GoError), a ∈ V → Q a →
      w.Setup hist a = some err → Good (.returned (some err))) :
    ∀ a ∈ V, ∃ N, ∀ n, N ≤ n → ∀ (c : construct) (name : String), Pre c → Q a →
      Good (recurConstruct w n c { Value := a, Name := name }).2 := by
  let r : { a // a ∈ V } → { a // a ∈ V } → Prop :=
    fun x y => Relation.TransGen (dependsOn w) y.1 x.1
  haveI : IsTrans _ r := ⟨fun _ _ _ hab hbc => Relation.TransGen.trans hbc hab⟩
  haveI : IsIrrefl _ r := ⟨fun a h => hacyc a.1 a.2 h⟩
  have wf : WellFounded r := Finite.wellFounded_of_trans_of_irrefl r
  intro a ha
  refine wf.induction
    (C := fun x => ∃ N, ∀ n, N ≤ n → ∀ (c : construct) (name : String), Pre c → Q x.1 →
      Good (recurConstruct w n c { Value := x.1, Name := name }).2) ⟨a, ha⟩ ?_
  rintro ⟨a, ha⟩ ih
  have hfields : ∀ p ∈ (w.fieldTags (w.typeOf a)).enum.filter (fun p => p.2),
      ∃ N, ∀ n, N ≤ n → ∀ (c : construct) (name : String), Pre c →
        Q (w.fieldVal a p.1) →
        Good (recurConstruct w n c { Value := w.fieldVal a p.1, Name := name }).2 := by
    intro p hp
    rw [List.mem_filter] at hp
    have hdep : dependsOn w a (w.fieldVal a p.1) := ⟨p, hp.1, hp.2, rfl⟩
    exact ih ⟨w.fieldVal a p.1, hclosed a ha _ hdep⟩ (Relation.TransGen.single hdep)
  obtain ⟨N, hN⟩ := exists_uniform_fuel _ _ hfields
  refine ⟨N + 1, ?_⟩
  intro n hn c name hpre hq
  obtain ⟨m, rfl⟩ : ∃ m, n = m + 1 := ⟨n - 1, by omega⟩
  have hm : N ≤ m := by omega
  rw [recurConstruct_succ]
  by_cases h1 : c.constructed (w.typeOf a) = true
  · simpa [h1] using hnil
  · by_cases h2 : withConstructor w a = true
    · by_cases h3 : w.pointsToStruct a = true
      · have hloop : ∀ (fields : List (Nat × Bool)) (c1 : construct),
            (∀ p ∈ fields, p ∈ (w.fieldTags (w.typeOf a)).enum) → Pre c1 →
            Good (fieldLoop w (recurConstruct w m) { Value := a, Name := name } fields c1).2
              := by
          intro fields
          induction fields with
          | nil => intro c1 _ _; simpa [fieldLoop] using hnil
          | cons p rest ihf =>
            intro c1 hsub hc1
            rcases p with ⟨i, tagged⟩
            have hrest : ∀ p ∈ rest, p ∈ (w.fieldTags (w.typeOf a)).enum :=
              fun p hp => hsub p (List.mem_cons_of_mem _ hp)
            cases tagged with
            | false => simpa [fieldLoop] using ihf c1 hrest hc1
            | true =>
              have hmem : (i, true) ∈ (w.fieldTags (w.typeOf a)).enum :=
                hsub _ (List.mem_cons_self _ _)
              have hdep : dependsOn w a (w.fieldVal a i) := ⟨(i, true), hmem, rfl, rfl⟩
              cases hi : inspectField w c1 { Value := a, Name := name } i with
              | some out =>
                simpa [fieldLoop, hi] using hinspect c1 a name i out hc1 ha hq h2 hmem hi
              | none =>
                have hsub1 := hN m hm (i, true) (List.mem_filter.mpr ⟨hmem, rfl⟩) c1 "" hc1
                  (hQ a _ ha hq hdep)
                have hcur1 := recurConstruct_current w m c1
                  { Value := w.fieldVal a i, Name := "" }
                rcases hr : recurConstruct w m c1 { Value := w.fieldVal a i, Name := "" }
                  with ⟨c2, out⟩
                rw [hr] at hsub1 hcur1
                rcases out with (_ | e) | _ | _
                · simpa [fieldLoop, hi, hr] using ihf c2 hrest (hPre c1 c2 hcur1 hc1)
                · simpa [fieldLoop, hi, hr] using hsub1
                · simpa [fieldLoop, hi, hr] using hsub1
                · simpa [fieldLoop, hi, hr] using hsub1
        have hl := hloop (w.fieldTags (w.typeOf a)).enum c (fun _ hp => hp) hpre
        rcases hr : fieldLoop w (recurConstruct w m) { Value := a, Name := name }
          (w.fieldTags (w.typeOf a)).enum c with ⟨c1, out⟩
        rw [hr] at hl
        rcases out with (_ | e) | _ | _
        · cases hs : w.Setup c1.setupCalls a with
          | none => simpa [h1, h2, h3, hr, hs] using hnil
          | some err => simpa [h1, h2, h3, hr, hs] using hsetup a _ err ha hq hs
        · simpa [h1, h2, h3, hr] using hl
        · simpa [h1, h2, h3, hr] using hl
        · simpa [h1, h2, h3, hr] using hl
      · simpa [h1, h2, h3] using hpanic a ha hq h2 (by simpa using h3)
    · simpa [h1, h2] using hnil

theorem inspectField_finished (w : World) (c : construct) (obj : Object) (i : Nat)
    (out : Outcome (Option GoError)) (h : inspectField w c obj i = some out) :
    out.isFinished = true := by
  rcases inspectField_cases w c obj i with h1 | ⟨e, h1⟩ | ⟨h1, -⟩
  · rw [h] at h1
    cases Option.some.inj h1
    rfl
  · rw [h] at h1
    cases Option.some.inj h1
    rfl
  · rw [h] at h1; simp at h1

theorem inspectField_returned (w : World) (c : construct) (obj : Object) (i : Nat)
    (out : Outcome (Option GoError)) (h : inspectField w c obj i = some out)
    (h1 : w.fieldExported (w.typeOf obj.Value) i = true)
    (h2 : w.comparePanics (w.fieldVal obj.Value i) c.current = false)
    (h3 : c.current ≠ none) : out.isReturned = true := by
  unfold inspectField at h
  by_cases h4 : w.fieldVal obj.Value i = c.current
  · cases hc : c.current with
    | none => exact absurd hc h3
    | some cur =>
      rw [h4] at h2
      rw [hc] at h2
      simp only [h1, h4, hc, h2] at h
      simp only [Bool.not_true, Bool.false_eq_true, if_false, if_true,
        Option.some.injEq] at h
      rw [← h]
      rfl
  · simp [h1, h2, h4] at h

theorem recurConstruct_finishes (w : World) (V : List Ref)
    (hclosed : ∀ a ∈ V, ∀ b, dependsOn w a b → b ∈ V)
    (hacyc : ∀ a ∈ V, ¬ Relation.TransGen (dependsOn w) a a) :
    ∀ a ∈ V, ∃ N, ∀ n, N ≤ n → ∀ (c : construct) (name : String),
      (recurConstruct w n c { Value := a, Name := name }).2.isFinished = true := by
  intro a ha
  obtain ⟨N, hN⟩ := recurConstruct_wf w V hclosed hacyc (fun _ => True) (fun _ => True)
    (fun out => out.isFinished = true) (fun _ _ _ _ _ => trivial) (fun _ _ _ _ => trivial)
    rfl (fun _ _ _ _ _ => rfl)
    (fun c a name i out _ _ _ _ _ hi => inspectField_finished w c _ i out hi)
    (fun _ _ _ _ _ _ => rfl) a ha
  exact ⟨N, fun n hn c name => hN n hn c name trivial trivial⟩

theorem recurConstruct_returns (w : World) (V : List Ref)
    (hclosed : ∀ a ∈ V, ∀ b, dependsOn w a b → b ∈ V)
    (hacyc : ∀ a ∈ V, ¬ Relation.TransGen (dependsOn w) a a)
    (hrefl : ∀ a ∈ V, withConstructor w a = true → w.reflectable a = true) :
    ∀ a ∈ V, ∃ N, ∀ n, N ≤ n → ∀ (c : construct) (name : String),
      w.pointsToStruct c.current = true →
      (recurConstruct w n c { Value := a, Name := name }).2.isReturned = true := by
  intro a ha
  obtain ⟨N, hN⟩ := recurConstruct_wf w V hclosed hacyc (fun _ => True)
    (fun c => w.pointsToStruct c.current = true) (fun out => out.isReturned = true)
    (fun _ _ _ _ _ => trivial) (fun c c1 h1 h => by simpa only [h1] using h) rfl
    (fun a ha _ hc hp => by
      have := hrefl a ha hc
      simp [World.reflectable, hp] at this)
    (fun c a name i out hc ha _ hctor hi hout => by
      exact inspectField_returned w c _ i out hout
        (reflectable_field w a (i, true) (hrefl a ha hctor) hi rfl)
        (comparePanics_pointer w _ c.current hc) (pointsToStruct_ne_none w c.current hc))
    (fun _ _ _ _ _ _ => rfl) a ha
  exact ⟨N, fun n hn c name hc => hN n hn c name hc trivial⟩

theorem recurConstruct_terminates (w : World) (V : List Ref) (R : Ref)
    (hclosed : ∀ a ∈ V, ∀ b, dependsOn w a b → b ∈ V)
    (hacyc : ∀ a ∈ V, ¬ Relation.TransGen (dependsOn w) a a)
    (hsetup : ∀ hist, ∀ a ∈ V, w.Setup hist a = none)
    (hR : R ∈ V)
    (hptr : w.pointsToStruct R = true)
    (hrefl : ∀ a ∈ V, withConstructor w a = true → w.reflectable a = true) :
    ∀ a ∈ V, ∃ N, ∀ n, N ≤ n → ∀ (c : construct) (name : String), c.current = R →
      Relation.ReflTransGen (dependsOn w) R a →
      (recurConstruct w n c { Value := a, Name := name }).2 = .returned none := by
  intro a ha
  obtain ⟨N, hN⟩ := recurConstruct_wf w V hclosed hacyc
    (fun a => Relation.ReflTransGen (dependsOn w) R a)
    (fun c => c.current = R) (fun out => out = .returned none)
    (fun a b _ hq hab => hq.tail hab) (fun c c1 h1 h => h1.trans h) rfl
    (fun a ha _ hc hp => by
      have := hrefl a ha hc
      simp [World.reflectable, hp] at this)
    (fun c a name i out hc ha hq hctor hi hout => by
      have hf := reflectable_field w a (i, true) (hrefl a ha hctor) hi rfl
      have hne : w.fieldVal a i ≠ c.current := by
        rw [hc]
        intro heq
        exact hacyc R hR (Relation.TransGen.tail' hq ⟨(i, true), hi, rfl, heq⟩)
      have := inspectField_eq_none w c { Value := a, Name := name } i hf
        (by rw [hc]; exact comparePanics_pointer w _ R hptr) hne
      rw [this] at hout
      simp at hout)
    (fun a hist err ha _ hs => by
      rw [hsetup hist a ha] at hs
      simp at hs) a ha
  exact ⟨N, fun n hn c name hc hq => hN n hn c name hc hq⟩

theorem fieldLoop_pending (w : World)
    (rc : construct → Object → construct × Outcome (Option GoError)) (obj : Object)
    (S : List Ref)
    (hctor : ∀ s ∈ obj.Value :: S, withConstructor w s = true)
    (hnext : ∀ s ∈ S, ∃ b, dependsOn w s b ∧ b ∈ obj.Value :: S)
    (hrc : ∀ (c : construct) (v : Ref) (name : String) (S1 : List Ref),
      (∀ s ∈ S1, withConstructor w s = true) →
      (∀ s ∈ S1, c.constructed (w.typeOf s) = false) →
      (∀ s ∈ S1, ∃ b, dependsOn w s b ∧ (b ∈ S1 ∨ b = v)) →
      (∀ s ∈ S1, (rc c { Value := v, Name := name }).1.constructed (w.typeOf s) = false) ∧
        (v ∈ S1 → (rc c { Value := v, Name := name }).2 ≠ .returned none)) :
    ∀ (fields : List (Nat × Bool)) (c : construct),
      (∀ p ∈ fields, p ∈ (w.fieldTags (w.typeOf obj.Value)).enum) →
      (∀ s ∈ obj.Value :: S, c.constructed (w.typeOf s) = false) →
      (∀ s ∈ obj.Value :: S,
          (fieldLoop w rc obj fields c).1.constructed (w.typeOf s) = false) ∧
        ((∃ p ∈ fields, p.2 = true ∧ w.fieldVal obj.Value p.1 ∈ obj.Value :: S) →
          (fieldLoop w rc obj fields c).2 ≠ .returned none) := by
  intro fields
  induction fields with
  | nil =>
    intro c _ hc
    refine ⟨by simpa [fieldLoop] using hc, ?_⟩
    rintro ⟨p, hp, -⟩
    simp at hp
  | cons q rest ih =>
    intro c hsub hc
    rcases q with ⟨i, tagged⟩
    have hrest : ∀ p ∈ rest, p ∈ (w.fieldTags (w.typeOf obj.Value)).enum :=
      fun p hp => hsub p (List.mem_cons_of_mem _ hp)
    cases tagged with
    | false =>
      obtain ⟨h1, h2⟩ := ih c hrest hc
      refine ⟨by simpa [fieldLoop] using h1, ?_⟩
      rintro ⟨p, hp, hpt, hpS⟩
      rcases List.mem_cons.mp hp with rfl | hp
      · simp at hpt
      · simpa [fieldLoop] using h2 ⟨p, hp, hpt, hpS⟩
    | true =>
      cases hi : inspectField w c obj i with
      | some out =>
        refine ⟨by simpa [fieldLoop, hi] using hc, ?_⟩
        intro _
        simp only [fieldLoop, Bool.not_true, Bool.false_eq_true, if_false, hi]
        intro hout
        exact inspectField_not_nil w c obj i (hout ▸ hi)
      | none =>
        have hdep : dependsOn w obj.Value (w.fieldVal obj.Value i) :=
          ⟨(i, true), hsub _ (List.mem_cons_self _ _), rfl, rfl⟩
        have hsubframe := hrc c (w.fieldVal obj.Value i) "" (obj.Value :: S) hctor hc
          (by
            intro s hs
            rcases List.mem_cons.mp hs with rfl | hs
            · exact ⟨_, hdep, Or.inr rfl⟩
            · obtain ⟨b, hb1, hb2⟩ := hnext s hs
              exact ⟨b, hb1, Or.inl hb2⟩)
        rcases hr : rc c { Value := w.fieldVal obj.Value i, Name := "" } with ⟨c1, out⟩
        rw [hr] at hsubframe
        obtain ⟨hs1, hs2⟩ := hsubframe
        rcases out with (_ | e) | _ | _
        · obtain ⟨h1, h2⟩ := ih c1 hrest hs1
          refine ⟨by simpa [fieldLoop, hi, hr] using h1, ?_⟩
          rintro ⟨p, hp, hpt, hpS⟩
          rcases List.mem_cons.mp hp with rfl | hp
          · exact absurd rfl (hs2 hpS)
          · simpa [fieldLoop, hi, hr] using h2 ⟨p, hp, hpt, hpS⟩
        · refine ⟨by simpa [fieldLoop, hi, hr] using hs1, ?_⟩
          intro _
          simp [fieldLoop, hi, hr]
        · refine ⟨by simpa [fieldLoop, hi, hr] using hs1, ?_⟩
          intro _
          simp [fieldLoop, hi, hr]
        · refine ⟨by simpa [fieldLoop, hi, hr] using hs1, ?_⟩
          intro _
          simp [fieldLoop, hi, hr]

theorem recurConstruct_pending (w : World) (hone : w.singleSetupInstances) :
    ∀ (fuel : Nat) (c : construct) (v : Ref) (name : String) (S : List Ref),
      (∀ s ∈ S, withConstructor w s = true) →
      (∀ s ∈ S, c.constructed (w.typeOf s) = false) →
      (∀ s ∈ S, ∃ b, dependsOn w s b ∧ (b ∈ S ∨ b = v)) →
      (∀ s ∈ S, (recurConstruct w fuel c { Value := v, Name := name }).1.constructed
          (w.typeOf s) = false) ∧
        (v ∈ S → (recurConstruct w fuel c { Value := v, Name := name }).2
          ≠ .returned none) := by
  intro fuel
  induction fuel with
  | zero =>
    intro c v name S _ hc _
    exact ⟨by simpa [recurConstruct] using hc, fun _ => by simp [recurConstruct]⟩
  | succ fuel ih =>
    intro c v name S hctor hc hnext
    rw [recurConstruct_succ]
    by_cases h1 : c.constructed (w.typeOf v) = true
    · refine ⟨by simpa [h1] using hc, fun hv => ?_⟩
      have := hc v hv
      simp [h1] at this
    · have hmark : v ∉ S → ∀ (c1 : construct),
          (∀ s ∈ S, c1.constructed (w.typeOf s) = false) →
          ∀ s ∈ S, (c1.markConstructed w v).constructed (w.typeOf s) = false := by
        intro hv c1 hc1 s hs
        have hne : w.typeOf s ≠ w.typeOf v := fun h => hv (hone s v (hctor s hs) h ▸ hs)
        simpa [construct.markConstructed, hne] using hc1 s hs
      by_cases h2 : withConstructor w v = true
      · by_cases h3 : w.pointsToStruct v = true
        · have hloop := fieldLoop_pending w (recurConstruct w fuel)
            { Value := v, Name := name } S
            (by
              intro s hs
              rcases List.mem_cons.mp hs with rfl | hs
              · exact h2
              · exact hctor s hs)
            (by
              intro s hs
              obtain ⟨b, hb1, hb2⟩ := hnext s hs
              refine ⟨b, hb1, ?_⟩
              rcases hb2 with hb2 | rfl
              · exact List.mem_cons_of_mem _ hb2
              · exact List.mem_cons_self _ _)
            (fun c1 v1 name1 S1 => ih c1 v1 name1 S1)
            (w.fieldTags (w.typeOf v)).enum c (fun _ hp => hp)
            (by
              intro s hs
              rcases List.mem_cons.mp hs with rfl | hs
              · simpa using h1
              · exact hc s hs)
          rcases hr : fieldLoop w (recurConstruct w fuel) { Value := v, Name := name }
            (w.fieldTags (w.typeOf v)).enum c with ⟨c1, out⟩
          rw [hr] at hloop
          obtain ⟨hl1, hl2⟩ := hloop
          have hS1 : ∀ s ∈ S, c1.constructed (w.typeOf s) = false :=
            fun s hs => hl1 s (List.mem_cons_of_mem _ hs)
          rcases out with (_ | e) | _ | _
          · have hv : v ∉ S := by
              intro hv
              obtain ⟨b, ⟨p, hp, hpt, hpb⟩, hb2⟩ := hnext v hv
              refine hl2 ⟨p, hp, hpt, ?_⟩ rfl
              rw [hpb]
              rcases hb2 with hb2 | rfl
              · exact List.mem_cons_of_mem _ hb2
              · exact List.mem_cons_self _ _
            cases hs : w.Setup c1.setupCalls v with
            | none =>
              refine ⟨?_, fun h => absurd h hv⟩
              simpa [h1, h2, h3, hr, hs] using hmark hv (c1.logSetup w v)
                (by simpa [construct.logSetup] using hS1)
            | some err =>
              refine ⟨?_, fun h => absurd h hv⟩
              simpa [h1, h2, h3, hr, hs, construct.logSetup] using hS1
          · exact ⟨by simpa [h1, h2, h3, hr] using hS1, fun _ => by simp [h1, h2, h3, hr]⟩
          · exact ⟨by simpa [h1, h2, h3, hr] using hS1, fun _ => by simp [h1, h2, h3, hr]⟩
          · exact ⟨by simpa [h1, h2, h3, hr] using hS1, fun _ => by simp [h1, h2, h3, hr]⟩
        · exact ⟨by simpa [h1, h2, h3] using hc, fun _ => by simp [h1, h2, h3]⟩
      · have hv : v ∉ S := fun hv => h2 (hctor v hv)
        exact ⟨by simpa [h1, h2] using hmark hv c hc, fun h => absurd h hv⟩

/-- When the types with `Setup` have a single instance, a loop over tagged
fields of `obj` leaves the type of `obj` unmarked. -/
theorem fieldLoop_keeps_pending_of_mem (w : World) (hone : w.singleSetupInstances)
    (fuel : Nat) (c : construct) (obj : Object) (fields : List (Nat × Bool))
    (hsub : ∀ p ∈ fields, p ∈ (w.fieldTags (w.typeOf obj.Value)).enum)
    (h1 : c.constructed (w.typeOf obj.Value) = false)
    (h2 : withConstructor w obj.Value = true) :
    (fieldLoop w (recurConstruct w fuel) obj fields c).1.constructed (w.typeOf obj.Value)
      = false := by
  have h := fieldLoop_pending w (recurConstruct w fuel) obj []
    (by simpa using h2) (by simp)
    (fun c1 v1 name1 S1 => recurConstruct_pending w hone fuel c1 v1 name1 S1)
    fields c hsub (by simpa using h1)
  exact h.1 obj.Value (List.mem_cons_self _ _)

theorem fieldLoop_keeps_pending (w : World) (hone : w.singleSetupInstances)
    (fuel : Nat) (c : construct) (obj : Object)
    (h1 : c.constructed (w.typeOf obj.Value) = false)
    (h2 : withConstructor w obj.Value = true) :
    (fieldLoop w (recurConstruct w fuel) obj (w.fieldTags (w.typeOf obj.Value)).enum
      c).1.constructed (w.typeOf obj.Value) = false :=
  fieldLoop_keeps_pending_of_mem w hone fuel c obj _ (fun _ hp => hp) h1 h2

theorem fieldLoop_nil_inv (w : World) (I : construct → Prop)
    (rc : construct → Object → construct × Outcome (Option GoError)) (obj : Object)
    (hrc : ∀ c v name, I c → (rc c { Value := v, Name := name }).2 = .returned none →
      I (rc c { Value := v, Name := name }).1) :
    ∀ (fields : List (Nat × Bool)) (c : construct), I c →
      (fieldLoop w rc obj fields c).2 = .returned none →
      I (fieldLoop w rc obj fields c).1 := by
  intro fields
  induction fields with
  | nil => intro c hc _; simpa [fieldLoop] using hc
  | cons p rest ih =>
    intro c hc h
    rcases p with ⟨i, tagged⟩
    cases tagged with
    | false =>
      simp only [fieldLoop, Bool.not_false, if_true] at h ⊢
      exact ih c hc h
    | true =>
      cases hi : inspectField w c obj i with
      | some out => simpa [fieldLoop, hi] using hc
      | none =>
        have h1 := hrc c (w.fieldVal obj.Value i) "" hc
        rcases hr : rc c { Value := w.fieldVal obj.Value i, Name := "" } with ⟨c1, out⟩
        rw [hr] at h1
        rcases out with (_ | e) | _ | _
        · simp only [fieldLoop, Bool.not_true, Bool.false_eq_true, if_false, hi, hr] at h ⊢
          exact ih c1 (h1 rfl) h
        · simp [fieldLoop, hi, hr] at h
        · simp [fieldLoop, hi, hr] at h
        · simp [fieldLoop, hi, hr] at h

theorem recurConstruct_nil_inv (w : World) (I : construct → Prop)
    (hplain : ∀ c v, I c → withConstructor w v = false → I (c.markConstructed w v))
    (hdone : ∀ c v, I c → withConstructor w v = true →
      (w.singleSetupInstances → c.constructed (w.typeOf v) = false) →
      I ((c.logSetup w v).markConstructed w v)) :
    ∀ (fuel : Nat) (c : construct) (obj : Object), I c →
      (recurConstruct w fuel c obj).2 = .returned none →
      I (recurConstruct w fuel c obj).1 := by
  intro fuel
  induction fuel with
  | zero => intro c obj _ h; simp [recurConstruct] at h
  | succ fuel ih =>
    intro c obj hc h
    rw [recurConstruct_succ] at h ⊢
    by_cases h1 : c.constructed (w.typeOf obj.Value) = true
    · simpa [h1] using hc
    · by_cases h2 : withConstructor w obj.Value = true
      · by_cases h3 : w.pointsToStruct obj.Value = true
        · have hloop := fieldLoop_nil_inv w I (recurConstruct w fuel) obj
            (fun c1 v name hc1 hn => ih c1 _ hc1 hn)
            (w.fieldTags (w.typeOf obj.Value)).enum c hc
          have hpend := fun hone =>
            fieldLoop_keeps_pending w hone fuel c obj (by simpa using h1) h2
          rcases hr : fieldLoop w (recurConstruct w fuel) obj
            (w.fieldTags (w.typeOf obj.Value)).enum c with ⟨c1, out⟩
          rw [hr] at hloop hpend
          rcases out with (_ | e) | _ | _
          · cases hs : w.Setup c1.setupCalls obj.Value with
            | none => simpa [h1, h2, h3, hr, hs] using hdone c1 obj.Value (hloop rfl) h2 hpend
            | some err => simp [h1, h2, h3, hr, hs] at h
          · simp [h1, h2, h3, hr] at h
          · simp [h1, h2, h3, hr] at h
          · simp [h1, h2, h3, hr] at h
        · simp [h1, h2, h3] at h
      · simpa [h1, h2] using hplain c _ hc (by simpa using h2)

theorem recurConstruct_inv_calls (w : World) (I : construct → Prop)
    (hmark : ∀ c v, I c → withConstructor w v = false → I (c.markConstructed w v))
    (hfail : ∀ c v err, I c → withConstructor w v = true →
      w.Setup c.setupCalls v = some err →
      (w.singleSetupInstances → c.constructed (w.typeOf v) = false) →
      I (c.logSetup w v))
    (hdone : ∀ c v, I c → withConstructor w v = true → w.Setup c.setupCalls v = none →
      (w.singleSetupInstances → c.constructed (w.typeOf v) = false) →
      I ((c.logSetup w v).markConstructed w v)) :
    ∀ (fuel : Nat) (c : construct) (obj : Object), I c →
      I (recurConstruct w fuel c obj).1 := by
  intro fuel
  induction fuel with
  | zero => intro c obj hc; simpa [recurConstruct] using hc
  | succ fuel ih =>
    intro c obj hc
    rw [recurConstruct_succ]
    by_cases h1 : c.constructed (w.typeOf obj.Value) = true
    · simpa [h1] using hc
    · by_cases h2 : withConstructor w obj.Value = true
      · by_cases h3 : w.pointsToStruct obj.Value = true
        · have hloop := fieldLoop_inv w I (fun _ => True) (recurConstruct w fuel) obj
            (fun c1 _ _ _ hc1 => ih c1 _ hc1)
            (w.fieldTags (w.typeOf obj.Value)).enum c (fun _ _ _ => trivial) hc
          have hpend := fun hone =>
            fieldLoop_keeps_pending w hone fuel c obj (by simpa using h1) h2
          rcases hr : fieldLoop w (recurConstruct w fuel) obj
            (w.fieldTags (w.typeOf obj.Value)).enum c with ⟨c1, out⟩
          rw [hr] at hloop hpend
          rcases out with (_ | e) | _ | _
          · cases hs : w.Setup c1.setupCalls obj.Value with
            | none =>
              simpa [h1, h2, h3, hr, hs] using hdone c1 obj.Value hloop h2 hs hpend
            | some err =>
              simpa [h1, h2, h3, hr, hs] using hfail c1 obj.Value err hloop h2 hs hpend
          · simpa [h1, h2, h3, hr] using hloop
          · simpa [h1, h2, h3, hr] using hloop
          · simpa [h1, h2, h3, hr] using hloop
        · simpa [h1, h2, h3] using hc
      · simpa [h1, h2] using hmark c _ hc (by simpa using h2)

theorem rootRuns_nil_inv (w : World) (fuel : Nat) (I : construct → Prop)
    (hcur : ∀ (c : construct) (x : Ref), I c → I { c with current := x })
    (hstep : ∀ (c : construct) (obj : Object), I c →
      (recurConstruct w fuel c obj).2 = .returned none → I (recurConstruct w fuel c obj).1) :
    ∀ (roots : List Object) (c : construct), I c →
      (∀ r ∈ rootRuns w fuel roots c, r.2 = .returned none) →
      I (finalState (rootRuns w fuel roots c) c) ∧
        ∀ o ∈ roots,
          (finalState (rootRuns w fuel roots c) c).constructed (w.typeOf o.Value) = true := by
  intro roots
  induction roots with
  | nil => intro c hc _; exact ⟨by simpa [rootRuns, finalState] using hc, by simp⟩
  | cons obj rest ih =>
    intro c hc h
    have h0 : (recurConstruct w fuel { c with current := obj.Value } obj).2
        = .returned none := h _ (by simp [rootRuns])
    obtain ⟨h1, h2⟩ := ih (recurConstruct w fuel { c with current := obj.Value } obj).1
      (hstep _ obj (hcur c _ hc) h0) (fun r hr => h r (by simp [rootRuns, hr]))
    refine ⟨by simpa [rootRuns, finalState] using h1, ?_⟩
    intro o ho
    simp only [rootRuns, finalState]
    rcases List.mem_cons.mp ho with rfl | ho
    · exact finalState_mono w fuel _ rest _ (recurConstruct_returned_nil w fuel _ _ h0)
    · exact h2 o ho

theorem setupCalls_logSetup (w : World) (c : construct) (v : Ref) :
    ((c.logSetup w v).markConstructed w v).setupCalls = c.setupCalls ++ [v] ∧
      (c.logSetup w v).setupCalls = c.setupCalls ++ [v] := by
  simp [construct.setupCalls, construct.markConstructed, construct.logSetup]

theorem setupsAccounted_step (w : World) (fuel : Nat) (c : construct) (obj : Object)
    (hc : c.setupsAccounted w) (h : (recurConstruct w fuel c obj).2 = .returned none) :
    (recurConstruct w fuel c obj).1.setupsAccounted w := by
  refine recurConstruct_nil_inv w (fun c1 => c1.setupsAccounted w) ?_ ?_ fuel c obj hc h
  · rintro c1 v ⟨ha, hb, hn⟩ hv
    refine ⟨?_, ?_, hn⟩
    · intro r hr
      obtain ⟨h1, h2⟩ := ha r hr
      refine ⟨?_, h2⟩
      by_cases ht : w.typeOf r = w.typeOf v <;> simp [construct.markConstructed, ht, h1]
    · intro t ht hs
      by_cases htv : t = w.typeOf v
      · subst htv
        simp [withConstructor, hs] at hv
      · simp only [construct.markConstructed, htv, if_false] at ht
        exact hb t ht hs
  · rintro c1 v ⟨ha, hb, hn⟩ hv hpend
    have hcalls := (setupCalls_logSetup w c1 v).1
    refine ⟨?_, ?_, ?_⟩
    · intro r hr
      rw [hcalls] at hr
      rcases List.mem_append.mp hr with hr | hr
      · obtain ⟨h1, h2⟩ := ha r hr
        refine ⟨?_, h2⟩
        by_cases ht : w.typeOf r = w.typeOf v <;>
          simp [construct.markConstructed, construct.logSetup, ht, h1]
      · rw [List.mem_singleton] at hr
        subst hr
        refine ⟨by simp [construct.markConstructed], ?_⟩
        simpa [withConstructor] using hv
    · intro t ht hs
      rw [hcalls]
      by_cases htv : t = w.typeOf v
      · exact ⟨v, by simp, htv.symm⟩
      · simp only [construct.markConstructed, construct.logSetup, htv, if_false] at ht
        obtain ⟨r, hr, hrt⟩ := hb t ht hs
        exact ⟨r, List.mem_append_left _ hr, hrt⟩
    · intro hone
      rw [hcalls]
      refine List.Nodup.append (hn hone) (List.nodup_singleton v) ?_
      rw [List.disjoint_singleton]
      intro hmem
      have := (ha v hmem).1
      rw [hpend hone] at this
      exact Bool.false_ne_true this

theorem populate_nil_runs (w : World) (fuel : Nat) (c : construct) (objs : List Object)
    (tbl : Ty → Option Ref)
    (h : (populate w fuel c objs).2 = .returned (tbl, none)) :
    (∀ r ∈ rootRuns w fuel (dedup w objs) c, r.2.isReturned = true) ∧
      ∀ r ∈ rootRuns w fuel (dedup w objs) c, r.2 = .returned none := by
  obtain ⟨hret, -, herr⟩ := populate_returned w fuel c objs tbl none h
  refine ⟨hret, ?_⟩
  intro r hr
  have h1 := hret r hr
  have h2 : rootError r = none := by
    by_contra hne
    obtain ⟨e, he⟩ := Option.ne_none_iff_exists'.mp hne
    exact (combine_ne_none _).mpr ⟨e, List.mem_map.mpr ⟨r, hr, he⟩⟩ herr.symm
  rcases r with ⟨c1, out⟩
  cases out with
  | returned v => simp only [rootError] at h2; rw [h2]
  | panicked => simp [Outcome.isReturned] at h1
  | outOfFuel => simp [Outcome.isReturned] at h1

theorem populate_nil_accounted (w : World) (fuel : Nat) (objs : List Object)
    (tbl : Ty → Option Ref)
    (h : (populate w fuel newConstruct objs).2 = .returned (tbl, none)) :
    (populate w fuel newConstruct objs).1.setupsAccounted w ∧
      ∀ o ∈ objs, (populate w fuel newConstruct objs).1.constructed (w.typeOf o.Value) = true := by
  obtain ⟨hret, hnil⟩ := populate_nil_runs w fuel newConstruct objs tbl h
  obtain ⟨h1, h2⟩ := rootRuns_nil_inv w fuel (fun c => c.setupsAccounted w)
    (fun c x hc => hc) (fun c obj hc hn => setupsAccounted_step w fuel c obj hc hn)
    (dedup w objs) newConstruct
    ⟨by simp [newConstruct, construct.setupCalls], by simp [newConstruct],
      fun _ => by simp [newConstruct, construct.setupCalls]⟩ hnil
  rw [finalState_eq_populate w fuel newConstruct objs hret]
  refine ⟨h1, fun o ho => ?_⟩
  obtain ⟨o1, ho1, ht⟩ := dedup_covers w objs o ho
  rw [← ht]
  exact h2 o1 ho1

theorem count_entriesOf_le (x : Ref) (e : Ref × List String) :
    ∀ depMap : List (Ref × List String), e ∈ depMap →
      ((entriesOf e).map Object.Value).count x
        ≤ ((depMap.flatMap entriesOf).map Object.Value).count x := by
  intro depMap
  induction depMap with
  | nil => intro h; simp at h
  | cons d rest ih =>
    intro h
    simp only [List.flatMap_cons, List.map_append, List.count_append]
    rcases List.mem_cons.mp h with rfl | h
    · omega
    · have := ih h
      omega

theorem count_entriesOf_self (x : Ref) (names : List String) (h : names ≠ []) :
    ((entriesOf (x, names)).map Object.Value).count x = names.length := by
  simp only [entriesOf, h, if_false, List.map_map]
  rw [List.count_eq_length.mpr]
  · simp
  · intro a ha
    obtain ⟨n, -, rfl⟩ := List.mem_map.mp ha
    rfl

theorem buildObjects_eq_flatMap (depMap : List (Ref × List String)) :
    buildObjects depMap = depMap.flatMap entriesOf := by
  unfold buildObjects
  rw [buildObjects_foldl]
  simp

theorem count_le_one_of_nodup {α : Type} [BEq α] [LawfulBEq α] (l : List α) (h : l.Nodup)
    (a : α) : l.count a ≤ 1 := by
  induction l with
  | nil => simp
  | cons x xs ih =>
    rw [List.nodup_cons] at h
    rw [List.count_cons]
    by_cases hx : (x == a) = true
    · have hxa : x = a := eq_of_beq hx
      have h0 : xs.count a = 0 := List.count_eq_zero.mpr (hxa ▸ h.1)
      simp [hx, h0]
    · have := ih h.2
      simp only [hx, Bool.false_eq_true, if_false]
      omega

theorem count_eq_one_of_nodup {α : Type} [BEq α] [LawfulBEq α] (l : List α) (h : l.Nodup)
    (a : α) (ha : a ∈ l) : l.count a = 1 := by
  have h1 := count_le_one_of_nodup l h a
  have h2 : 0 < l.count a := List.count_pos_iff.mpr ha
  omega

theorem count_entries_absent (x : Ref) :
    ∀ depMap : List (Ref × List String), x ∉ depMap.map Prod.fst →
      ((depMap.flatMap entriesOf).map Object.Value).count x = 0 := by
  intro depMap
  induction depMap with
  | nil => intro _; simp
  | cons d rest ih =>
    intro h
    simp only [List.map_cons, List.mem_cons, not_or] at h
    simp only [List.flatMap_cons, List.map_append, List.count_append, ih h.2, add_zero]
    rw [List.count_eq_zero]
    intro hx
    obtain ⟨o, ho, hox⟩ := List.mem_map.mp hx
    rcases d with ⟨v, names⟩
    unfold entriesOf at ho
    split at ho
    · simp only [List.mem_singleton] at ho
      subst ho
      exact h.1 hox.symm
    · obtain ⟨n, -, rfl⟩ := List.mem_map.mp ho
      exact h.1 hox.symm

theorem count_entries_exact (x : Ref) (names : List String) (hne : names ≠ []) :
    ∀ depMap : List (Ref × List String), (x, names) ∈ depMap →
      (depMap.map Prod.fst).Nodup →
      ((depMap.flatMap entriesOf).map Object.Value).count x = names.length := by
  intro depMap
  induction depMap with
  | nil => intro h; simp at h
  | cons d rest ih =>
    intro h hnd
    simp only [List.map_cons, List.nodup_cons] at hnd
    simp only [List.flatMap_cons, List.map_append, List.count_append]
    rcases List.mem_cons.mp h with rfl | h
    · rw [count_entriesOf_self x names hne, count_entries_absent x rest hnd.1]
      simp
    · have hx : x ∈ rest.map Prod.fst := List.mem_map.mpr ⟨(x, names), h, rfl⟩
      have hd : x ∉ [d].map Prod.fst := by
        simp only [List.map_cons, List.map_nil, List.mem_singleton]
        intro hxd
        exact hnd.1 (hxd ▸ hx)
      have h0 := count_entries_absent x [d] hd
      simp only [List.flatMap_cons, List.flatMap_nil, List.append_nil] at h0
      rw [h0, ih h hnd.2]
      simp

theorem withConstructor_iff (w : World) (v : Ref) :
    withConstructor w v = true ↔ w.implementsSetup (w.typeOf v) = true := by
  simp [withConstructor]

theorem testWeave_single : testWeave.singleSetupInstances := by
  intro a b _ h
  cases a <;> cases b <;> simp_all [World.typeOf, testWeave]

/-- C3 (as amended): in every run of `populate` on a fresh resolver that returns
no error, `Setup` is invoked only on instances whose type has it, at least once
for every candidate type that has it, and exactly once for every such type when
every type that has `Setup` has a single instance. -/
theorem populate_setup_once (w : World) (fuel : Nat) (objs : List Object)
    (tbl : Ty → Option Ref)
    (h : (populate w fuel newConstruct objs).2 = .returned (tbl, none)) :
    (∀ r ∈ (populate w fuel newConstruct objs).1.setupCalls,
        w.implementsSetup (w.typeOf r) = true) ∧
      (∀ o ∈ objs, w.implementsSetup (w.typeOf o.Value) = true →
        1 ≤ ((populate w fuel newConstruct objs).1.setupCalls.map w.typeOf).count
          (w.typeOf o.Value)) ∧
      (w.singleSetupInstances →
        ∀ o ∈ objs, w.implementsSetup (w.typeOf o.Value) = true →
          ((populate w fuel newConstruct objs).1.setupCalls.map w.typeOf).count
            (w.typeOf o.Value) = 1) := by
  obtain ⟨⟨ha, hb, hn⟩, hcons⟩ := populate_nil_accounted w fuel objs tbl h
  have hmem : ∀ o ∈ objs, w.implementsSetup (w.typeOf o.Value) = true →
      w.typeOf o.Value ∈ (populate w fuel newConstruct objs).1.setupCalls.map w.typeOf := by
    intro o ho hs
    obtain ⟨r, hr, hrt⟩ := hb _ (hcons o ho) hs
    exact List.mem_map.mpr ⟨r, hr, hrt⟩
  refine ⟨fun r hr => (ha r hr).2, ?_, ?_⟩
  · intro o ho hs
    exact List.count_pos_iff.mpr (hmem o ho hs)
  · intro hone o ho hs
    refine count_eq_one_of_nodup _ (List.Nodup.map_on ?_ (hn hone)) _ (hmem o ho hs)
    intro a ha1 b _ hab
    exact hone a b ((withConstructor_iff w a).mpr (ha a ha1).2) hab

theorem populate_setup_once_witness :
    ((populate testWeave 3 newConstruct testWeaveObjects).1.setupCalls.map
      testWeave.typeOf).count (testWeave.typeOf (some 0)) = 1 :=
  (populate_setup_once testWeave 3 testWeaveObjects _ rfl).2.2 testWeave_single
    { Value := some 0, Name := "example.Master.Transport" } (by decide) (by decide)

/-- C3 fails as stated: with two instances of one type that has `Setup`, the
first holding the second in its tagged field, `populate` returns no error and
has invoked `Setup` for that type twice. -/
theorem populate_same_type_setup_twice :
    (populate chainOfOneType 3 newConstruct
        [{ Value := some 1, Name := "a" }, { Value := some 2, Name := "b" },
          { Value := some 3, Name := "" }]).2.isNoError = true ∧
      ((populate chainOfOneType 3 newConstruct
        [{ Value := some 1, Name := "a" }, { Value := some 2, Name := "b" },
          { Value := some 3, Name := "" }]).1.setupCalls.map chainOfOneType.typeOf).count
            (some 7) = 2 := by
  decide

/-- C9 (as amended): if an instance whose type has `Setup` is listed in the
dependency map under two or more names, `buildObjects` emits at least one
candidate per name for it, and exactly one per name when the providers of the
map are pairwise distinct (as the keys of a map are); and when every type that
has `Setup` has a single instance and `populate` on the candidates (fresh
resolver) returns no error, `Setup` has been invoked on that instance exactly
once. -/
theorem buildObjects_populate_setup_once (w : World) (fuel : Nat)
    (depMap : List (Ref × List String)) (x : Ref) (names : List String)
    (tbl : Ty → Option Ref)
    (hmem : (x, names) ∈ depMap) (hnames : 2 ≤ names.length)
    (hctor : withConstructor w x = true) (hone : w.singleSetupInstances)
    (h : (populate w fuel newConstruct (buildObjects depMap)).2 = .returned (tbl, none)) :
    names.length ≤ ((buildObjects depMap).map Object.Value).count x ∧
      ((depMap.map Prod.fst).Nodup →
        ((buildObjects depMap).map Object.Value).count x = names.length) ∧
      (populate w fuel newConstruct (buildObjects depMap)).1.setupCalls.count x = 1 := by
  have hne : names ≠ [] := by
    intro h0
    simp [h0] at hnames
  have hcount : names.length ≤ ((buildObjects depMap).map Object.Value).count x := by
    rw [buildObjects_eq_flatMap]
    have h1 := count_entriesOf_le x (x, names) depMap hmem
    rw [count_entriesOf_self x names hne] at h1
    exact h1
  refine ⟨hcount, ?_, ?_⟩
  · intro hnd
    rw [buildObjects_eq_flatMap]
    exact count_entries_exact x names hne depMap hmem hnd
  · obtain ⟨⟨-, hb, hn⟩, hcons⟩ := populate_nil_accounted w fuel (buildObjects depMap) tbl h
    have hx : x ∈ (buildObjects depMap).map Object.Value :=
      List.count_pos_iff.mp (by omega)
    obtain ⟨o, ho, rfl⟩ := List.mem_map.mp hx
    obtain ⟨r, hr, hrt⟩ := hb _ (hcons o ho) ((withConstructor_iff w _).mp hctor)
    rw [(hone _ _ hctor hrt.symm).symm] at hr
    exact count_eq_one_of_nodup _ (hn hone) _ hr

theorem buildObjects_populate_setup_once_witness :
    ((buildObjects testWeaveDepMap).map Object.Value).count (some 0) = 2 ∧
      (populate testWeave 3 newConstruct (buildObjects testWeaveDepMap)).1.setupCalls.count
        (some 0) = 1 :=
  ⟨(buildObjects_populate_setup_once testWeave 3 testWeaveDepMap (some 0)
      ["example.Master.Transport", "transport"] _ (by decide) (by decide) (by decide)
      testWeave_single rfl).2.1 (by decide),
    (buildObjects_populate_setup_once testWeave 3 testWeaveDepMap (some 0)
      ["example.Master.Transport", "transport"] _ (by decide) (by decide) (by decide)
      testWeave_single rfl).2.2⟩

/-- C9 fails as stated.  (1) Instance 0 is listed under two names and its `Setup`
fails; it is invoked once when 0 is the root and once more when root 1, which
holds 0 in a tagged field, is constructed.  (2) Instance 1 is listed under two
names after instance 2 of the same type: `dedup` drops both entries of 1 and
`populate` returns no error without invoking `Setup` on 1. -/
theorem buildObjects_populate_setup_twice :
    (withConstructor failingDependency (some 0) = true ∧
      (populate failingDependency 3 newConstruct
        (buildObjects [(some 0, ["a", "b"]), (some 1, [])])).2.isReturned = true ∧
      (populate failingDependency 3 newConstruct
        (buildObjects [(some 0, ["a", "b"]), (some 1, [])])).1.setupCalls.count
          (some 0) = 2) ∧
    (withConstructor chainOfOneType (some 1) = true ∧
      (populate chainOfOneType 3 newConstruct
        (buildObjects [(some 2, []), (some 1, ["a", "b"]), (some 3, [])])).2.isNoError
          = true ∧
      (populate chainOfOneType 3 newConstruct
        (buildObjects [(some 2, []), (some 1, ["a", "b"]), (some 3, [])])).1.setupCalls.count
          (some 1) = 0) := by
  decide

theorem succeeded_logSetup_fail (w : World) (c : construct) (v : Ref) (err : GoError)
    (hs : w.Setup c.setupCalls v = some err) (l : List SetupCall) :
    ((l ++ [(⟨v, c.constructed, (w.Setup c.setupCalls v).isSome⟩ : SetupCall)]).filter
      (fun ev => !ev.failed)).map SetupCall.obj
      = (l.filter (fun ev => !ev.failed)).map SetupCall.obj := by
  simp [List.filter_append, hs]

theorem succeeded_logSetup_done (w : World) (c : construct) (v : Ref)
    (hs : w.Setup c.setupCalls v = none) (l : List SetupCall) :
    ((l ++ [(⟨v, c.constructed, (w.Setup c.setupCalls v).isSome⟩ : SetupCall)]).filter
      (fun ev => !ev.failed)).map SetupCall.obj
      = (l.filter (fun ev => !ev.failed)).map SetupCall.obj ++ [v] := by
  simp [List.filter_append, hs]

/-- The part of the log written since the state `c0`: the calls were made on
values with `Setup` whose type was not marked at that moment; the values on
which `Setup` succeeded are pairwise different and their types are marked. -/
theorem recurConstruct_log_fresh (w : World) (hone : w.singleSetupInstances)
    (fuel : Nat) (c0 c : construct) (obj : Object)
    (h : ∃ new, c.setupLog = c0.setupLog ++ new ∧
      (∀ ev ∈ new, ev.constructedAt (w.typeOf ev.obj) = false) ∧
      ((new.filter (fun ev => !ev.failed)).map SetupCall.obj).Nodup ∧
      ∀ r ∈ (new.filter (fun ev => !ev.failed)).map SetupCall.obj,
        withConstructor w r = true ∧ c.constructed (w.typeOf r) = true) :
    ∃ new, (recurConstruct w fuel c obj).1.setupLog = c0.setupLog ++ new ∧
      (∀ ev ∈ new, ev.constructedAt (w.typeOf ev.obj) = false) ∧
      ((new.filter (fun ev => !ev.failed)).map SetupCall.obj).Nodup ∧
      ∀ r ∈ (new.filter (fun ev => !ev.failed)).map SetupCall.obj,
        withConstructor w r = true ∧
          (recurConstruct w fuel c obj).1.constructed (w.typeOf r) = true := by
  refine recurConstruct_inv_calls w
    (fun c1 => ∃ new, c1.setupLog = c0.setupLog ++ new ∧
      (∀ ev ∈ new, ev.constructedAt (w.typeOf ev.obj) = false) ∧
      ((new.filter (fun ev => !ev.failed)).map SetupCall.obj).Nodup ∧
      ∀ r ∈ (new.filter (fun ev => !ev.failed)).map SetupCall.obj,
        withConstructor w r = true ∧ c1.constructed (w.typeOf r) = true)
    ?_ ?_ ?_ fuel c obj h
  · rintro c1 v ⟨new, h1, h2, h3, h4⟩ -
    refine ⟨new, by simpa [construct.markConstructed] using h1, h2, h3, ?_⟩
    intro r hr
    refine ⟨(h4 r hr).1, ?_⟩
    by_cases ht : w.typeOf r = w.typeOf v <;>
      simp [construct.markConstructed, ht, (h4 r hr).2]
  · rintro c1 v err ⟨new, h1, h2, h3, h4⟩ - hs hpend
    refine ⟨new ++ [⟨v, c1.constructed, (w.Setup c1.setupCalls v).isSome⟩], ?_, ?_, ?_, ?_⟩
    · simp [construct.logSetup, h1]
    · intro ev hev
      rcases List.mem_append.mp hev with hev | hev
      · exact h2 ev hev
      · rw [List.mem_singleton] at hev
        subst hev
        exact hpend hone
    · rw [succeeded_logSetup_fail w c1 v err hs]
      exact h3
    · rw [succeeded_logSetup_fail w c1 v err hs]
      intro r hr
      exact ⟨(h4 r hr).1, by simpa [construct.logSetup] using (h4 r hr).2⟩
  · rintro c1 v ⟨new, h1, h2, h3, h4⟩ hv hs hpend
    refine ⟨new ++ [⟨v, c1.constructed, (w.Setup c1.setupCalls v).isSome⟩], ?_, ?_, ?_, ?_⟩
    · simp [construct.logSetup, construct.markConstructed, h1]
    · intro ev hev
      rcases List.mem_append.mp hev with hev | hev
      · exact h2 ev hev
      · rw [List.mem_singleton] at hev
        subst hev
        exact hpend hone
    · rw [succeeded_logSetup_done w c1 v hs]
      refine List.Nodup.append h3 (List.nodup_singleton v) ?_
      rw [List.disjoint_singleton]
      intro hmem
      have := (h4 v hmem).2
      rw [hpend hone] at this
      exact Bool.false_ne_true this
    · rw [succeeded_logSetup_done w c1 v hs]
      intro r hr
      rcases List.mem_append.mp hr with hr | hr
      · refine ⟨(h4 r hr).1, ?_⟩
        by_cases ht : w.typeOf r = w.typeOf v <;>
          simp [construct.markConstructed, construct.logSetup, ht, (h4 r hr).2]
      · rw [List.mem_singleton] at hr
        subst hr
        exact ⟨hv, by simp [construct.markConstructed]⟩

/-- C14 (as amended): when every type that has `Setup` has a single instance,
in every run of `populate` (also one that returns an error, panics or does
not finish) no `Setup` is invoked on an instance whose type is at that moment
marked constructed, and the `Setup` of each runtime type succeeds at most
once; in a run on a fresh resolver that returns no error the `Setup` of each
runtime type is invoked at most once. -/
theorem populate_no_reinitialization (w : World) (fuel : Nat) (c : construct)
    (objs : List Object) (hone : w.singleSetupInstances) :
    (∃ new, (populate w fuel c objs).1.setupLog = c.setupLog ++ new ∧
        (∀ ev ∈ new, ev.constructedAt (w.typeOf ev.obj) = false) ∧
        ∀ t, (((new.filter (fun ev => !ev.failed)).map SetupCall.obj).map w.typeOf).count t
          ≤ 1) ∧
      ∀ tbl, (populate w fuel newConstruct objs).2 = .returned (tbl, none) →
        ∀ t, ((populate w fuel newConstruct objs).1.setupCalls.map w.typeOf).count t ≤ 1 := by
  constructor
  · have key : ∃ new, (populate w fuel c objs).1.setupLog = c.setupLog ++ new ∧
        (∀ ev ∈ new, ev.constructedAt (w.typeOf ev.obj) = false) ∧
        ((new.filter (fun ev => !ev.failed)).map SetupCall.obj).Nodup ∧
        ∀ r ∈ (new.filter (fun ev => !ev.failed)).map SetupCall.obj,
          withConstructor w r = true ∧
            (populate w fuel c objs).1.constructed (w.typeOf r) = true := by
      rw [populate_state]
      exact populateLoop_inv w fuel
        (fun c1 => ∃ new, c1.setupLog = c.setupLog ++ new ∧
          (∀ ev ∈ new, ev.constructedAt (w.typeOf ev.obj) = false) ∧
          ((new.filter (fun ev => !ev.failed)).map SetupCall.obj).Nodup ∧
          ∀ r ∈ (new.filter (fun ev => !ev.failed)).map SetupCall.obj,
            withConstructor w r = true ∧ c1.constructed (w.typeOf r) = true)
        (dedup w objs) c []
        (fun c1 obj _ h =>
          recurConstruct_log_fresh w hone fuel c { c1 with current := obj.Value } obj h)
        ⟨[], by simp, by simp, by simp, by simp⟩
    obtain ⟨new, h1, h2, h3, h4⟩ := key
    refine ⟨new, h1, h2, fun t => count_le_one_of_nodup _ (List.Nodup.map_on ?_ h3) t⟩
    intro a ha b _ hab
    exact hone a b (h4 a ha).1 hab
  · intro tbl h t
    obtain ⟨⟨ha, -, hn⟩, -⟩ := populate_nil_accounted w fuel objs tbl h
    refine count_le_one_of_nodup _ (List.Nodup.map_on ?_ (hn hone)) t
    intro a ha1 b _ hab
    exact hone a b ((withConstructor_iff w a).mpr (ha a ha1).2) hab

theorem populate_no_reinitialization_witness :
    ((populate testWeave 3 newConstruct testWeaveObjects).1.setupCalls.map
      testWeave.typeOf).count (testWeave.typeOf (some 0)) ≤ 1 :=
  (populate_no_reinitialization testWeave 3 newConstruct testWeaveObjects
    testWeave_single).2 _ rfl (testWeave.typeOf (some 0))

/-- C14 fails as stated.  (1) `Setup` of instance 0 fails when 0 is constructed
as a root, and it is invoked a second time when root 1, which holds 0 in a
tagged field, is constructed.  (2) With two instances of one type that has
`Setup`, the first holding the second in its tagged field, `Setup` succeeds
on both: twice for the one type. -/
theorem populate_failed_setup_retried :
    ((populate failingDependency 3 newConstruct
        [{ Value := some 0, Name := "" }, { Value := some 1, Name := "" }]).2.isReturned
          = true ∧
      ((populate failingDependency 3 newConstruct
        [{ Value := some 0, Name := "" }, { Value := some 1, Name := "" }]).1.setupCalls.map
          failingDependency.typeOf).count (failingDependency.typeOf (some 0)) = 2) ∧
    ((populate chainOfOneType 3 newConstruct
        [{ Value := some 1, Name := "" }, { Value := some 3, Name := "" }]).2.isNoError
          = true ∧
      ((populate chainOfOneType 3 newConstruct
        [{ Value := some 1, Name := "" }, { Value := some 3, Name := "" }]).1.succeededSetups.map
          chainOfOneType.typeOf).count (some 7) = 2) := by
  decide

theorem rootRuns_zip_constructed (w : World) (fuel : Nat) :
    ∀ (roots : List Object) (c : construct),
      ∀ p ∈ roots.zip (rootRuns w fuel roots c), p.2.2 = .returned none →
        (finalState (rootRuns w fuel roots c) c).constructed (w.typeOf p.1.Value) = true := by
  intro roots
  induction roots with
  | nil => intro c p hp; simp [rootRuns] at hp
  | cons obj rest ih =>
    intro c p hp hnil
    simp only [rootRuns, List.zip_cons_cons, List.mem_cons] at hp
    simp only [rootRuns, finalState]
    rcases hp with rfl | hp
    · exact finalState_mono w fuel _ rest _ (recurConstruct_returned_nil w fuel _ _ hnil)
    · exact ih _ p hp hnil

theorem recurConstruct_entries (w : World) (fuel : Nat) (c : construct) (obj : Object)
    (h : ∀ t, c.constructed t = true → ∃ r, c.initializedDeps t = some r ∧ w.typeOf r = t) :
    ∀ t, (recurConstruct w fuel c obj).1.constructed t = true →
      ∃ r, (recurConstruct w fuel c obj).1.initializedDeps t = some r ∧ w.typeOf r = t := by
  have := recurConstruct_new_entries w fuel newConstruct c obj (fun t ht _ => h t ht)
  exact fun t ht => this t ht rfl

theorem populate_entries (w : World) (fuel : Nat) (c : construct) (objs : List Object)
    (h : ∀ t, c.constructed t = true → ∃ r, c.initializedDeps t = some r ∧ w.typeOf r = t) :
    ∀ t, (populate w fuel c objs).1.constructed t = true →
      ∃ r, (populate w fuel c objs).1.initializedDeps t = some r ∧ w.typeOf r = t := by
  rw [populate_state]
  exact populateLoop_inv w fuel
    (fun c1 => ∀ t, c1.constructed t = true →
      ∃ r, c1.initializedDeps t = some r ∧ w.typeOf r = t)
    (dedup w objs) c []
    (fun c1 obj _ hc1 => recurConstruct_entries w fuel { c1 with current := obj.Value } obj hc1) h

theorem recurConstruct_succeeded_entries (w : World) (fuel : Nat) (c0 c : construct)
    (obj : Object)
    (h : ∃ new, c.setupLog = c0.setupLog ++ new ∧ ∀ ev ∈ new, ev.failed = false →
      ∃ r, c.initializedDeps (w.typeOf ev.obj) = some r ∧ w.typeOf r = w.typeOf ev.obj) :
    ∃ new, (recurConstruct w fuel c obj).1.setupLog = c0.setupLog ++ new ∧
      ∀ ev ∈ new, ev.failed = false →
        ∃ r, (recurConstruct w fuel c obj).1.initializedDeps (w.typeOf ev.obj) = some r ∧
          w.typeOf r = w.typeOf ev.obj := by
  refine recurConstruct_inv_calls w
    (fun c1 => ∃ new, c1.setupLog = c0.setupLog ++ new ∧ ∀ ev ∈ new, ev.failed = false →
      ∃ r, c1.initializedDeps (w.typeOf ev.obj) = some r ∧ w.typeOf r = w.typeOf ev.obj)
    ?_ ?_ ?_ fuel c obj h
  · rintro c1 v ⟨new, h1, h2⟩ -
    refine ⟨new, by simpa [construct.markConstructed] using h1, ?_⟩
    intro ev hev hf
    by_cases ht : w.typeOf ev.obj = w.typeOf v
    · exact ⟨v, by simp [construct.markConstructed, ht], ht.symm⟩
    · simpa [construct.markConstructed, ht] using h2 ev hev hf
  · rintro c1 v err ⟨new, h1, h2⟩ - hs -
    refine ⟨new ++ [⟨v, c1.constructed, (w.Setup c1.setupCalls v).isSome⟩], ?_, ?_⟩
    · simp [construct.logSetup, h1]
    · intro ev hev hf
      rcases List.mem_append.mp hev with hev | hev
      · simpa [construct.logSetup] using h2 ev hev hf
      · rw [List.mem_singleton] at hev
        subst hev
        simp [hs] at hf
  · rintro c1 v ⟨new, h1, h2⟩ - hs -
    refine ⟨new ++ [⟨v, c1.constructed, (w.Setup c1.setupCalls v).isSome⟩], ?_, ?_⟩
    · simp [construct.logSetup, construct.markConstructed, h1]
    · intro ev hev hf
      by_cases ht : w.typeOf ev.obj = w.typeOf v
      · exact ⟨v, by simp [construct.markConstructed, ht], ht.symm⟩
      · rcases List.mem_append.mp hev with hev | hev
        · simpa [construct.markConstructed, construct.logSetup, ht] using h2 ev hev hf
        · rw [List.mem_singleton] at hev
          subst hev
          exact absurd rfl ht

/-- C10: let the table of the starting state have an entry of its type for
every type marked constructed (as in `newConstruct`).  When `populate` returns,
its error is non-nil exactly when the run of at least one top-level root
returned an error; and, error or not, the returned table has an entry, an
instance of that type, for the type of every root whose run returned nil, for
the type of every instance on which `Setup` was invoked during the run and
returned nil, and for every type marked constructed. -/
theorem populate_error_iff_root_failed (w : World) (fuel : Nat) (c : construct)
    (objs : List Object) (tbl : Ty → Option Ref) (err : Option GoError)
    (hc : ∀ t, c.constructed t = true → ∃ r, c.initializedDeps t = some r ∧ w.typeOf r = t)
    (h : (populate w fuel c objs).2 = .returned (tbl, err)) :
    (err ≠ none ↔
        ∃ r ∈ rootRuns w fuel (dedup w objs) c, ∃ e, r.2 = .returned (some e)) ∧
      (∀ p ∈ (dedup w objs).zip (rootRuns w fuel (dedup w objs) c),
        p.2.2 = .returned none →
        ∃ r, tbl (w.typeOf p.1.Value) = some r ∧ w.typeOf r = w.typeOf p.1.Value) ∧
      (∃ new, (populate w fuel c objs).1.setupLog = c.setupLog ++ new ∧
        ∀ ev ∈ new, ev.failed = false →
          ∃ r, tbl (w.typeOf ev.obj) = some r ∧ w.typeOf r = w.typeOf ev.obj) ∧
      ∀ t, (populate w fuel c objs).1.constructed t = true →
        ∃ r, tbl t = some r ∧ w.typeOf r = t := by
  obtain ⟨hret, htbl, herr⟩ := populate_returned w fuel c objs tbl err h
  have hall := populate_entries w fuel c objs hc
  refine ⟨?_, ?_, ?_, ?_⟩
  · rw [herr, combine_ne_none]
    constructor
    · rintro ⟨e, he⟩
      obtain ⟨r, hr, hre⟩ := List.mem_map.mp he
      refine ⟨r, hr, e, ?_⟩
      rcases r with ⟨c1, out⟩
      cases out with
      | returned v => simp only [rootError] at hre; rw [hre]
      | panicked => simp [rootError] at hre
      | outOfFuel => simp [rootError] at hre
    · rintro ⟨r, hr, e, hre⟩
      exact ⟨e, List.mem_map.mpr ⟨r, hr, by simp [rootError, hre]⟩⟩
  · intro p hp hnil
    rw [htbl]
    apply hall
    rw [finalState_eq_populate w fuel c objs hret]
    exact rootRuns_zip_constructed w fuel _ c p hp hnil
  · rw [htbl, populate_state]
    exact populateLoop_inv w fuel
      (fun c1 => ∃ new, c1.setupLog = c.setupLog ++ new ∧ ∀ ev ∈ new, ev.failed = false →
        ∃ r, c1.initializedDeps (w.typeOf ev.obj) = some r ∧ w.typeOf r = w.typeOf ev.obj)
      (dedup w objs) c []
      (fun c1 obj _ hc1 => recurConstruct_succeeded_entries w fuel c { c1 with current := obj.Value } obj hc1)
      ⟨[], by simp, by simp⟩
  · rw [htbl]
    exact hall

theorem populate_error_iff_root_failed_witness :
    (some (GoError.errorString "m1") ≠ none ↔
        ∃ r ∈ rootRuns twoFailing 1
            (dedup twoFailing [{ Value := some 2, Name := "" }, { Value := some 0, Name := "" }])
            newConstruct,
          ∃ e, r.2 = .returned (some e)) ∧
      ∀ p ∈ (dedup twoFailing
            [{ Value := some 2, Name := "" }, { Value := some 0, Name := "" }]).zip
          (rootRuns twoFailing 1
            (dedup twoFailing [{ Value := some 2, Name := "" }, { Value := some 0, Name := "" }])
            newConstruct),
        p.2.2 = .returned none →
        ∃ r, (populate twoFailing 1 newConstruct
            [{ Value := some 2, Name := "" }, { Value := some 0, Name := "" }]).1.initializedDeps
              (twoFailing.typeOf p.1.Value) = some r ∧
          twoFailing.typeOf r = twoFailing.typeOf p.1.Value :=
  ⟨(populate_error_iff_root_failed twoFailing 1 newConstruct
      [{ Value := some 2, Name := "" }, { Value := some 0, Name := "" }] _ _
      (fun t ht => by simp [newConstruct] at ht) rfl).1,
    (populate_error_iff_root_failed twoFailing 1 newConstruct
      [{ Value := some 2, Name := "" }, { Value := some 0, Name := "" }] _ _
      (fun t ht => by simp [newConstruct] at ht) rfl).2.1⟩

theorem recurConstruct_table_frame (w : World) (fuel : Nat) (c0 c : construct) (obj : Object)
    (h : ∀ t, c.constructed t = false → c.initializedDeps t = c0.initializedDeps t) :
    ∀ t, (recurConstruct w fuel c obj).1.constructed t = false →
      (recurConstruct w fuel c obj).1.initializedDeps t = c0.initializedDeps t := by
  refine recurConstruct_inv w
    (fun c1 => ∀ t, c1.constructed t = false → c1.initializedDeps t = c0.initializedDeps t)
    (fun _ => True) (fun _ _ _ _ _ => trivial) ?_ ?_ fuel c obj trivial h
  · intro c1 v _ hc1 t ht
    by_cases hv : t = w.typeOf v
    · simp [construct.markConstructed, hv] at ht
    · simp only [construct.markConstructed, hv, if_false] at ht ⊢
      exact hc1 t ht
  · intro c1 v _ hc1
    simpa [construct.logSetup] using hc1

theorem fieldLoop_table_frame (w : World) (fuel : Nat) (c : construct) (obj : Object)
    (fields : List (Nat × Bool)) :
    ∀ t, (fieldLoop w (recurConstruct w fuel) obj fields c).1.constructed t = false →
      (fieldLoop w (recurConstruct w fuel) obj fields c).1.initializedDeps t
        = c.initializedDeps t :=
  fieldLoop_inv w
    (fun c1 => ∀ t, c1.constructed t = false → c1.initializedDeps t = c.initializedDeps t)
    (fun _ => True) (recurConstruct w fuel) obj
    (fun c2 _ _ _ hc2 => recurConstruct_table_frame w fuel c c2 _ hc2) fields c
    (fun _ _ _ => trivial) (fun _ _ => rfl)

/-- C12 (as amended): let the object be a pointer to a struct that implements
`Setup`, its type not yet marked constructed.  (1) If the loop over its tagged
fields ran to its end and `Setup` returns the error `e`, `recurConstruct`
returns exactly `e`, and the failing call writes nothing: the constructed map
and the table are as the construction of the dependencies left them; when
every type that has `Setup` has a single instance, the object's type is then
not marked constructed and its table entry is as before the call.  (2) If the
fields before the tagged field `i` were constructed, the inspection of field
`i` neither panics nor reports a loop, and the construction of field `i`
returns the error `e`, `recurConstruct` returns `e` in the state that
construction left: the object's own `Setup` is not invoked and the fields
after `i` play no part. -/
theorem recurConstruct_error_paths (w : World) (fuel : Nat) (c c1 : construct) (obj : Object)
    (e : GoError) (hctor : withConstructor w obj.Value = true)
    (hptr : w.pointsToStruct obj.Value = true)
    (hnot : c.constructed (w.typeOf obj.Value) = false) :
    (fieldLoop w (recurConstruct w fuel) obj (w.fieldTags (w.typeOf obj.Value)).enum c
          = (c1, .returned none) →
        w.Setup c1.setupCalls obj.Value = some e →
        recurConstruct w (fuel + 1) c obj = (c1.logSetup w obj.Value, .returned (some e)) ∧
          (c1.logSetup w obj.Value).constructed = c1.constructed ∧
          (c1.logSetup w obj.Value).initializedDeps = c1.initializedDeps ∧
          (w.singleSetupInstances →
            (c1.logSetup w obj.Value).constructed (w.typeOf obj.Value) = false ∧
              (c1.logSetup w obj.Value).initializedDeps (w.typeOf obj.Value)
                = c.initializedDeps (w.typeOf obj.Value))) ∧
      ∀ (i : Nat) (c2 : construct),
        (w.fieldTags (w.typeOf obj.Value))[i]? = some true →
        fieldLoop w (recurConstruct w fuel) obj
          ((w.fieldTags (w.typeOf obj.Value)).enum.take i) c = (c1, .returned none) →
        inspectField w c1 obj i = none →
        recurConstruct w fuel c1 { Value := w.fieldVal obj.Value i, Name := "" }
          = (c2, .returned (some e)) →
        recurConstruct w (fuel + 1) c obj = (c2, .returned (some e)) ∧
          (∀ rest, fieldLoop w (recurConstruct w fuel) obj
            ((w.fieldTags (w.typeOf obj.Value)).enum.take i ++ (i, true) :: rest) c
              = (c2, .returned (some e))) := by
  constructor
  · intro hloop hsetup
    refine ⟨?_, rfl, rfl, ?_⟩
    · rw [recurConstruct_succ]
      simp [hnot, hctor, hptr, hloop, hsetup]
    · intro hone
      have hp := fieldLoop_keeps_pending w hone fuel c obj hnot hctor
      have hf := fieldLoop_table_frame w fuel c obj (w.fieldTags (w.typeOf obj.Value)).enum
        (w.typeOf obj.Value)
      rw [hloop] at hp hf
      exact ⟨by simpa [construct.logSetup] using hp,
        by simpa [construct.logSetup] using hf hp⟩
  · intro i c2 htag hpre hins hsub
    have hrest : ∀ rest, fieldLoop w (recurConstruct w fuel) obj
        ((w.fieldTags (w.typeOf obj.Value)).enum.take i ++ (i, true) :: rest) c
          = (c2, .returned (some e)) := by
      intro rest
      rw [fieldLoop_append w _ obj _ _ c c1 hpre]
      simp [fieldLoop, hins, hsub]
    refine ⟨?_, hrest⟩
    rw [recurConstruct_succ, enum_split _ i true htag, hrest]
    simp [hnot, hctor, hptr]

theorem recurConstruct_error_paths_witness :
    recurConstruct failingDependency 2 { newConstruct with current := some 1 }
        { Value := some 1, Name := "" }
      = (({ newConstruct with current := some 1 } : construct).logSetup failingDependency
          (some 0), .returned (some (.errorString "boom"))) :=
  ((recurConstruct_error_paths failingDependency 1 { newConstruct with current := some 1 }
    { newConstruct with current := some 1 } { Value := some 1, Name := "" }
    (.errorString "boom") (by decide) (by decide) (by decide)).2 0 _ (by decide) rfl
      rfl rfl).1

/-- C12 fails as stated.  (1) Instance 1 of type 7 holds instance 2 of the same
type in its tagged field; the dependencies are constructed, `Setup` of 1 fails,
and after the call type 7 is marked constructed and in the table (with
instance 2).  (2) The value `port` of a type `Port int` whose `Setup` fails has
no tagged dependency; `recurConstruct` does not return the error of `Setup`
but panics at `Elem().NumField()`. -/
theorem recurConstruct_failed_setup_type_marked :
    (({ newConstruct with current := some 1 } : construct).constructed
        (chainSetupFails.typeOf (some 1)) = false ∧
      (fieldLoop chainSetupFails (recurConstruct chainSetupFails 2)
        { Value := some 1, Name := "" }
        (chainSetupFails.fieldTags (chainSetupFails.typeOf (some 1))).enum
        { newConstruct with current := some 1 }).2.isReturnedNil = true ∧
      (recurConstruct chainSetupFails 3 { newConstruct with current := some 1 }
        { Value := some 1, Name := "" }).2.errorMessage = some "boom" ∧
      (recurConstruct chainSetupFails 3 { newConstruct with current := some 1 }
        { Value := some 1, Name := "" }).1.constructed (chainSetupFails.typeOf (some 1))
          = true ∧
      (recurConstruct chainSetupFails 3 { newConstruct with current := some 1 }
        { Value := some 1, Name := "" }).1.initializedDeps (chainSetupFails.typeOf (some 1))
          = some (some 2)) ∧
    (withConstructor portSetupFails (some 0) = true ∧
      (portSetupFails.Setup [] (some 0)).isSome = true ∧
      (recurConstruct portSetupFails 1 { newConstruct with current := some 0 }
        { Value := some 0, Name := "port" }).2.isPanicked = true) := by
  decide

theorem fieldLoop_inv_checked (w : World) (I : construct → Prop)
    (rc : construct → Object → construct × Outcome (Option GoError)) (obj : Object)
    (hrc : ∀ c v name, v ≠ c.current → I c → I (rc c { Value := v, Name := name }).1) :
    ∀ (fields : List (Nat × Bool)) (c : construct), I c →
      I (fieldLoop w rc obj fields c).1 := by
  intro fields
  induction fields with
  | nil => intro c hc; simpa [fieldLoop] using hc
  | cons p rest ih =>
    intro c hc
    rcases p with ⟨i, tagged⟩
    cases tagged with
    | false => simpa [fieldLoop] using ih c hc
    | true =>
      cases hi : inspectField w c obj i with
      | some out => simpa [fieldLoop, hi] using hc
      | none =>
        have h1 := hrc c (w.fieldVal obj.Value i) "" (inspectField_none w c obj i hi) hc
        rcases hr : rc c { Value := w.fieldVal obj.Value i, Name := "" } with ⟨c1, out⟩
        rw [hr] at h1
        rcases out with (_ | e) | _ | _
        · simpa [fieldLoop, hi, hr] using ih c1 h1
        · simpa [fieldLoop, hi, hr] using h1
        · simpa [fieldLoop, hi, hr] using h1
        · simpa [fieldLoop, hi, hr] using h1

/-- An invariant of the recursion below a root: `recurConstruct` is entered only
on values that differ from `current`, since the field check stops the walk at
a field that holds `current`. -/
theorem recurConstruct_inv_checked (w : World) (I : construct → Prop)
    (hmark : ∀ c v, v ≠ c.current → I c → I (c.markConstructed w v))
    (hlog : ∀ c v, v ≠ c.current → I c → I (c.logSetup w v)) :
    ∀ (fuel : Nat) (c : construct) (obj : Object), obj.Value ≠ c.current → I c →
      I (recurConstruct w fuel c obj).1 := by
  intro fuel
  induction fuel with
  | zero => intro c obj _ hc; simpa [recurConstruct] using hc
  | succ fuel ih =>
    intro c obj hq hc
    rw [recurConstruct_succ]
    by_cases h1 : c.constructed (w.typeOf obj.Value) = true
    · simpa [h1] using hc
    · by_cases h2 : withConstructor w obj.Value = true
      · by_cases h3 : w.pointsToStruct obj.Value = true
        · have hloop := fieldLoop_inv_checked w I (recurConstruct w fuel) obj
            (fun c v name hv hc => ih c _ hv hc)
            (w.fieldTags (w.typeOf obj.Value)).enum c hc
          have hcur := fieldLoop_current w fuel obj (w.fieldTags (w.typeOf obj.Value)).enum c
          rcases hr : fieldLoop w (recurConstruct w fuel) obj
            (w.fieldTags (w.typeOf obj.Value)).enum c with ⟨c1, out⟩
          rw [hr] at hloop hcur
          have hq1 : obj.Value ≠ c1.current := by
            simp only at hcur
            rw [hcur]
            exact hq
          rcases out with (_ | e) | _ | _
          · cases hs : w.Setup c1.setupCalls obj.Value with
            | none =>
              simpa [h1, h2, h3, hr, hs] using
                hmark _ _ (by simpa [construct.logSetup] using hq1) (hlog _ _ hq1 hloop)
            | some err => simpa [h1, h2, h3, hr, hs] using hlog _ _ hq1 hloop
          · simpa [h1, h2, h3, hr] using hloop
          · simpa [h1, h2, h3, hr] using hloop
          · simpa [h1, h2, h3, hr] using hloop
        · simpa [h1, h2, h3] using hc
      · simpa [h1, h2] using hmark c _ hq hc

/-- C5 (as amended): let `A` be a pointer to a struct that implements `Setup`,
be the current top-level root, have a type not yet marked constructed, and
hold itself in its `i`-th field, which is tagged and exported; if the loop over
the fields before `i` runs to its end (leaving state `c1`), then `recurConstruct` returns the error
`Dep loop: curr[T], obj[T]`, `T` the type name of `A`, in state `c1`; `Setup`
is not invoked on `A` during the call; and, when every type that has `Setup`
has a single instance, the type of `A` is not marked constructed. -/
theorem recurConstruct_self_reference (w : World) (fuel : Nat) (c c1 : construct)
    (obj : Object) (i : Nat)
    (hctor : withConstructor w obj.Value = true)
    (hnot : c.constructed (w.typeOf obj.Value) = false)
    (hcur : c.current = obj.Value)
    (hptr : w.pointsToStruct obj.Value = true)
    (htag : (w.fieldTags (w.typeOf obj.Value))[i]? = some true)
    (hexp : w.fieldExported (w.typeOf obj.Value) i = true)
    (hself : w.fieldVal obj.Value i = obj.Value)
    (hpre : fieldLoop w (recurConstruct w fuel) obj
      ((w.fieldTags (w.typeOf obj.Value)).enum.take i) c = (c1, .returned none)) :
    recurConstruct w (fuel + 1) c obj
        = (c1, .returned (some (.errorString
            ("Dep loop: curr[" ++ w.typeString (w.typeOf obj.Value) ++ "], obj["
              ++ w.typeString (w.typeOf obj.Value) ++ "]")))) ∧
      (∃ new, (recurConstruct w (fuel + 1) c obj).1.setupCalls = c.setupCalls ++ new ∧
        obj.Value ∉ new) ∧
      (w.singleSetupInstances →
        (recurConstruct w (fuel + 1) c obj).1.constructed (w.typeOf obj.Value) = false) := by
  have hc1 : c1.current = obj.Value := by
    have := fieldLoop_current w fuel obj ((w.fieldTags (w.typeOf obj.Value)).enum.take i) c
    rw [hpre] at this
    exact this.trans hcur
  obtain ⟨n, hn⟩ : ∃ n, obj.Value = some n := by
    cases hv : obj.Value with
    | none => simp [withConstructor, World.typeOf, World.implementsSetup, hv] at hctor
    | some n => exact ⟨n, rfl⟩
  have hmain : recurConstruct w (fuel + 1) c obj
      = (c1, .returned (some (.errorString
          ("Dep loop: curr[" ++ w.typeString (w.typeOf obj.Value) ++ "], obj["
            ++ w.typeString (w.typeOf obj.Value) ++ "]")))) := by
    rw [recurConstruct_succ, enum_split _ i true htag,
      fieldLoop_append w _ obj _ _ c c1 hpre]
    have hins : inspectField w c1 obj i = some (.returned (some (depLoopError
        (w.typeString (w.typeOf obj.Value)) (w.typeString (w.typeOf obj.Value))))) := by
      have hcmp := comparePanics_pointer w obj.Value obj.Value hptr
      simp only [inspectField, hself, hc1, hexp, hcmp]
      simp [hn]
    simp [hnot, hctor, hptr, fieldLoop, hins, depLoopError]
  refine ⟨hmain, ?_, ?_⟩
  · rw [hmain]
    have h := fieldLoop_inv_checked w
      (fun c2 => c2.current = obj.Value ∧
        ∃ new, c2.setupCalls = c.setupCalls ++ new ∧ obj.Value ∉ new)
      (recurConstruct w fuel) obj
      (fun c2 v name hv hc2 => recurConstruct_inv_checked w
        (fun c3 => c3.current = obj.Value ∧
          ∃ new, c3.setupCalls = c.setupCalls ++ new ∧ obj.Value ∉ new)
        (fun c3 v3 _ h3 => by simpa [construct.markConstructed, construct.setupCalls] using h3)
        (fun c3 v3 hv3 h3 => by
          obtain ⟨h3c, new, h3n, h3m⟩ := h3
          refine ⟨by simpa [construct.logSetup] using h3c, new ++ [v3], ?_, ?_⟩
          · rw [(setupCalls_logSetup w c3 v3).2, h3n, List.append_assoc]
          · rw [h3c] at hv3
            simpa [h3m] using fun h => hv3 h.symm)
        fuel c2 _ hv hc2)
      ((w.fieldTags (w.typeOf obj.Value)).enum.take i) c ⟨hcur, [], by simp, by simp⟩
    rw [hpre] at h
    exact h.2
  · intro hone
    rw [hmain]
    have h := fieldLoop_keeps_pending_of_mem w hone fuel c obj
      ((w.fieldTags (w.typeOf obj.Value)).enum.take i)
      (fun p hp => List.mem_of_mem_take hp) hnot hctor
    rw [hpre] at h
    exact h

theorem recurConstruct_self_reference_witness :
    recurConstruct (selfLoop true) 1 { newConstruct with current := some 0 }
        { Value := some 0, Name := "" }
      = ({ newConstruct with current := some 0 },
          .returned (some (.errorString "Dep loop: curr[*A], obj[*A]"))) :=
  (recurConstruct_self_reference (selfLoop true) 0 { newConstruct with current := some 0 }
    { newConstruct with current := some 0 } { Value := some 0, Name := "" } 0
    (by decide) (by decide) rfl (by decide) (by decide) (by decide)
    (by decide) rfl).1

/-- C5 fails as stated: a root without `Setup` that holds itself in a tagged field
is constructed without any error; and a root with `Setup` that holds itself in
a tagged field that is unexported makes `recurConstruct` panic at
`Interface()`. -/
theorem self_reference_without_setup_no_error :
    ((selfLoop false).fieldTags ((selfLoop false).typeOf (some 0)) = [true] ∧
      (selfLoop false).fieldVal (some 0) 0 = some 0 ∧
      (recurConstruct (selfLoop false) 1 { newConstruct with current := some 0 }
        { Value := some 0, Name := "" }).2.isReturnedNil = true) ∧
    (selfLoopHidden.fieldTags (selfLoopHidden.typeOf (some 0)) = [true] ∧
      selfLoopHidden.fieldVal (some 0) 0 = some 0 ∧
      withConstructor selfLoopHidden (some 0) = true ∧
      (recurConstruct selfLoopHidden 1 { newConstruct with current := some 0 }
        { Value := some 0, Name := "" }).2.isPanicked = true) := by
  decide

/-- A root of a closed, acyclic candidate set whose `Setup` calls succeed and
whose providers with `Setup` can be walked by reflection is constructed with
nil, given enough fuel. -/
theorem recurConstruct_root_nil (w : World) (V : List Ref)
    (hclosed : ∀ a ∈ V, ∀ b, dependsOn w a b → b ∈ V)
    (hacyc : ∀ a ∈ V, ¬ Relation.TransGen (dependsOn w) a a)
    (hsetup : ∀ hist, ∀ a ∈ V, w.Setup hist a = none)
    (hrefl : ∀ a ∈ V, withConstructor w a = true → w.reflectable a = true) :
    ∀ R ∈ V, ∃ N, ∀ n, N ≤ n → ∀ (c : construct) (name : String), c.current = R →
      (recurConstruct w n c { Value := R, Name := name }).2 = .returned none := by
  intro R hR
  by_cases hctor : withConstructor w R = true
  · obtain ⟨N, hN⟩ := recurConstruct_terminates w V R hclosed hacyc hsetup hR
      (reflectable_pointer w R (hrefl R hR hctor)) hrefl R hR
    exact ⟨N, fun n hn c name hc => hN n hn c name hc Relation.ReflTransGen.refl⟩
  · refine ⟨1, fun n hn c name _ => ?_⟩
    obtain ⟨m, rfl⟩ : ∃ m, n = m + 1 := ⟨n - 1, by omega⟩
    rw [recurConstruct_succ]
    by_cases h1 : c.constructed (w.typeOf R) = true
    · simp [h1]
    · simp [h1, hctor]

/-- C1 (as amended): if every inject-tagged field of a candidate holds a candidate
instance, no candidate depends (through tagged fields) on itself, `Setup` of
every candidate succeeds, and every candidate that has `Setup` is a non-nil
pointer to a struct whose inject-tagged fields are exported, then with enough
fuel `populate` on a fresh resolver returns no error and a table whose keys are
exactly the runtime types of the candidates, each key mapped to a candidate
instance of that type; and `Weave` returns that table and no error when the
graph library reports no error and hands these candidates over. -/
theorem populate_acyclic_succeeds (w : World) (objs : List Object)
    (hclosed : ∀ o ∈ objs, ∀ p ∈ (w.fieldTags (w.typeOf o.Value)).enum, p.2 = true →
      w.fieldVal o.Value p.1 ∈ objs.map Object.Value)
    (hacyc : ∀ o ∈ objs, ¬ Relation.TransGen (dependsOn w) o.Value o.Value)
    (hsetup : ∀ hist, ∀ o ∈ objs, w.Setup hist o.Value = none)
    (hrefl : ∀ o ∈ objs, withConstructor w o.Value = true → w.reflectable o.Value = true) :
    ∃ N, ∀ fuel, N ≤ fuel → ∃ tbl,
      (populate w fuel newConstruct objs).2 = .returned (tbl, none) ∧
      (∀ t, (tbl t).isSome = true ↔ ∃ o ∈ objs, w.typeOf o.Value = t) ∧
      (∀ t r, tbl t = some r → w.typeOf r = t ∧ ∃ o ∈ objs, o.Value = r) ∧
      ∀ (g : Graph) (depMap : List (Ref × List String)),
        g.Provide (buildObjects depMap) = none → g.Populate (buildObjects depMap) = none →
        g.Objects (buildObjects depMap) = objs →
        Weave g w fuel depMap = .returned (some tbl, none) := by
  have hV : ∀ o ∈ objs, o.Value ∈ objs.map Object.Value :=
    fun o ho => List.mem_map.mpr ⟨o, ho, rfl⟩
  have hclosedV : ∀ a ∈ objs.map Object.Value, ∀ b, dependsOn w a b →
      b ∈ objs.map Object.Value := by
    rintro a ha b ⟨p, hp, hpt, rfl⟩
    obtain ⟨o, ho, rfl⟩ := List.mem_map.mp ha
    exact hclosed o ho p hp hpt
  have hacycV : ∀ a ∈ objs.map Object.Value, ¬ Relation.TransGen (dependsOn w) a a := by
    intro a ha
    obtain ⟨o, ho, rfl⟩ := List.mem_map.mp ha
    exact hacyc o ho
  have hsetupV : ∀ hist, ∀ a ∈ objs.map Object.Value, w.Setup hist a = none := by
    intro hist a ha
    obtain ⟨o, ho, rfl⟩ := List.mem_map.mp ha
    exact hsetup hist o ho
  have hreflV : ∀ a ∈ objs.map Object.Value, withConstructor w a = true →
      w.reflectable a = true := by
    intro a ha
    obtain ⟨o, ho, rfl⟩ := List.mem_map.mp ha
    exact hrefl o ho
  obtain ⟨N, hN⟩ := exists_uniform_fuel _ _
    (recurConstruct_root_nil w (objs.map Object.Value) hclosedV hacycV hsetupV hreflV)
  refine ⟨N, fun fuel hfuel => ?_⟩
  have hok : ∀ (c : construct) (obj : Object), obj.Value ∈ objs.map Object.Value →
      (recurConstruct w fuel { c with current := obj.Value } obj).2 = .returned none :=
    fun c obj hobj => hN fuel hfuel obj.Value hobj { c with current := obj.Value }
      obj.Name rfl
  obtain ⟨hnil, hcons⟩ := rootRuns_all_nil w fuel (fun a => a ∈ objs.map Object.Value) hok
    (dedup w objs) newConstruct (fun o ho => hV o (dedup_subset w objs o ho))
  have hret : ∀ r ∈ rootRuns w fuel (dedup w objs) newConstruct, r.2.isReturned = true := by
    intro r hr
    rw [hnil r hr]
    rfl
  have hpop := populate_eq_rootRuns w fuel newConstruct objs hret
  have hfin := finalState_eq_populate w fuel newConstruct objs hret
  have hcomb : combine ((rootRuns w fuel (dedup w objs) newConstruct).map rootError) = none := by
    by_contra hne
    obtain ⟨e, he⟩ := (combine_ne_none _).mp hne
    obtain ⟨r, hr, hre⟩ := List.mem_map.mp he
    simp [rootError, hnil r hr] at hre
  have hres : (populate w fuel newConstruct objs).2
      = .returned ((populate w fuel newConstruct objs).1.initializedDeps, none) := by
    rw [hpop, hcomb]
  refine ⟨(populate w fuel newConstruct objs).1.initializedDeps, hres, ?_, ?_, ?_⟩
  · intro t
    constructor
    · intro ht
      obtain ⟨r, hr⟩ := Option.isSome_iff_exists.mp ht
      obtain ⟨h1, h2⟩ := populate_entries_among w fuel newConstruct objs _ hV hclosedV
        (fun t r h => by simp [newConstruct] at h) t r hr
      obtain ⟨o, ho, rfl⟩ := List.mem_map.mp h2
      exact ⟨o, ho, h1⟩
    · rintro ⟨o, ho, rfl⟩
      obtain ⟨o1, ho1, ht⟩ := dedup_covers w objs o ho
      have hc := hcons o1 ho1
      rw [← hfin, ht] at hc
      obtain ⟨r, hr, -⟩ := populate_new_entries w fuel newConstruct objs _ hc rfl
      rw [hr]
      rfl
  · intro t r hr
    obtain ⟨h1, h2⟩ := populate_entries_among w fuel newConstruct objs _ hV hclosedV
      (fun t r h => by simp [newConstruct] at h) t r hr
    obtain ⟨o, ho, rfl⟩ := List.mem_map.mp h2
    exact ⟨h1, o, ho, rfl⟩
  · intro g depMap hp hq ho
    simp only [Weave, run, hp, hq, ho, hres]

theorem populate_acyclic_succeeds_witness :
    ∃ N, ∀ fuel, N ≤ fuel → ∃ tbl,
      (populate testWeave fuel newConstruct testWeaveObjects).2 = .returned (tbl, none) ∧
      (∀ t, (tbl t).isSome = true ↔ ∃ o ∈ testWeaveObjects, testWeave.typeOf o.Value = t) ∧
      (∀ t r, tbl t = some r →
        testWeave.typeOf r = t ∧ ∃ o ∈ testWeaveObjects, o.Value = r) ∧
      ∀ (g : Graph) (depMap : List (Ref × List String)),
        g.Provide (buildObjects depMap) = none → g.Populate (buildObjects depMap) = none →
        g.Objects (buildObjects depMap) = testWeaveObjects →
        Weave g testWeave fuel depMap = .returned (some tbl, none) :=
  populate_acyclic_succeeds testWeave testWeaveObjects (by decide)
    (fun o ho => acyclic_of_rank testWeave (testWeaveObjects.map Object.Value) testWeaveRank
      (by
        rintro a ha b ⟨p, hp, hpt, rfl⟩
        revert p
        revert a
        decide)
      (by
        rintro a ha b ⟨p, hp, hpt, rfl⟩
        revert p
        revert a
        decide)
      o.Value (List.mem_map.mpr ⟨o, ho, rfl⟩))
    (fun _ _ _ => rfl) (by decide)

/-- C1 fails as stated.  (1) The only candidate is the named value `port` of a
type `Port int` that has `Setup`: it has no field, so its tagged fields hold
candidates and nothing depends on itself, and `Setup` succeeds; `populate`
panics at `Elem().NumField()`, and so does `Weave`.  (2) A pointer to a
struct with `Setup` whose tagged field is unexported and holds the second
candidate: `populate` panics at `Interface()`. -/
theorem populate_panics_on_unreflectable_provider :
    ((∀ o ∈ [({ Value := some 0, Name := "port" } : Object)],
        ∀ p ∈ (portProvider.fieldTags (portProvider.typeOf o.Value)).enum, p.2 = true →
          portProvider.fieldVal o.Value p.1
            ∈ [({ Value := some 0, Name := "port" } : Object)].map Object.Value) ∧
      (∀ o ∈ [({ Value := some 0, Name := "port" } : Object)],
        ¬ Relation.TransGen (dependsOn portProvider) o.Value o.Value) ∧
      (∀ hist, ∀ o ∈ [({ Value := some 0, Name := "port" } : Object)],
        portProvider.Setup hist o.Value = none) ∧
      (∀ fuel, (populate portProvider (fuel + 1) newConstruct
        [{ Value := some 0, Name := "port" }]).2 = .panicked) ∧
      ∀ fuel, Weave plainGraph portProvider (fuel + 1) [(some 0, ["port"])] = .panicked) ∧
    ((∀ o ∈ [({ Value := some 0, Name := "" } : Object), { Value := some 1, Name := "" }],
        ∀ p ∈ (unexportedSlot.fieldTags (unexportedSlot.typeOf o.Value)).enum, p.2 = true →
          unexportedSlot.fieldVal o.Value p.1
            ∈ [({ Value := some 0, Name := "" } : Object),
                { Value := some 1, Name := "" }].map Object.Value) ∧
      (∀ o ∈ [({ Value := some 0, Name := "" } : Object), { Value := some 1, Name := "" }],
        ¬ Relation.TransGen (dependsOn unexportedSlot) o.Value o.Value) ∧
      (∀ hist, ∀ o ∈ [({ Value := some 0, Name := "" } : Object),
          { Value := some 1, Name := "" }], unexportedSlot.Setup hist o.Value = none) ∧
      ∀ fuel, (populate unexportedSlot (fuel + 1) newConstruct
        [{ Value := some 0, Name := "" }, { Value := some 1, Name := "" }]).2 = .panicked) := by
  refine ⟨⟨by decide, ?_, fun _ _ _ => rfl, fun _ => rfl, fun _ => rfl⟩,
    ⟨by decide, ?_, fun _ _ _ => rfl, fun _ => rfl⟩⟩
  · intro o ho
    exact acyclic_of_rank portProvider [some 0] (fun _ => 0)
      (by
        rintro a ha b ⟨p, hp, hpt, rfl⟩
        revert p
        revert a
        decide)
      (by
        rintro a ha b ⟨p, hp, hpt, rfl⟩
        revert p
        revert a
        decide)
      o.Value (List.mem_map.mpr ⟨o, ho, rfl⟩)
  · intro o ho
    exact acyclic_of_rank unexportedSlot [some 0, some 1]
      (fun r => if r = some 0 then 1 else 0)
      (by
        rintro a ha b ⟨p, hp, hpt, rfl⟩
        revert p
        revert a
        decide)
      (by
        rintro a ha b ⟨p, hp, hpt, rfl⟩
        revert p
        revert a
        decide)
      o.Value (List.mem_map.mpr ⟨o, ho, rfl⟩)

theorem rootRuns_returned (w : World) (fuel : Nat) :
    ∀ (roots : List Object) (c : construct),
      (∀ o ∈ roots, ∀ c1 : construct, c1.current = o.Value →
        (recurConstruct w fuel c1 o).2.isReturned = true) →
      ∀ r ∈ rootRuns w fuel roots c, r.2.isReturned = true := by
  intro roots
  induction roots with
  | nil => intro c _ r hr; simp [rootRuns] at hr
  | cons obj rest ih =>
    intro c h r hr
    simp only [rootRuns, List.mem_cons] at hr
    rcases hr with rfl | hr
    · exact h obj (List.mem_cons_self _ _) _ rfl
    · exact ih _ (fun o ho => h o (List.mem_cons_of_mem _ ho)) r hr

theorem populateLoop_finished (w : World) (fuel : Nat) :
    ∀ (roots : List Object) (c : construct) (errs : List GoError),
      (∀ o ∈ roots, ∀ c1 : construct, (recurConstruct w fuel c1 o).2.isFinished = true) →
      (populateLoop w fuel roots c errs).2.isFinished = true := by
  intro roots
  induction roots with
  | nil => intro c errs _; rfl
  | cons obj rest ih =>
    intro c errs h
    have h0 := h obj (List.mem_cons_self _ _) { c with current := obj.Value }
    have hrest : ∀ o ∈ rest, ∀ c1 : construct,
        (recurConstruct w fuel c1 o).2.isFinished = true :=
      fun o ho => h o (List.mem_cons_of_mem _ ho)
    rcases hr : recurConstruct w fuel { c with current := obj.Value } obj with ⟨c1, out⟩
    rw [hr] at h0
    rcases out with (_ | e) | _ | _
    · simpa [populateLoop, hr] using ih c1 errs hrest
    · simpa [populateLoop, hr] using ih c1 (errs ++ [e]) hrest
    · simp [populateLoop, hr, Outcome.isFinished]
    · simp [Outcome.isFinished] at h0

theorem populate_finished (w : World) (fuel : Nat) (c : construct) (objs : List Object)
    (h : ∀ o ∈ objs, ∀ c1 : construct, (recurConstruct w fuel c1 o).2.isFinished = true) :
    (populate w fuel c objs).2.isFinished = true := by
  have hl := populateLoop_finished w fuel (dedup w objs) c []
    (fun o ho => h o (dedup_subset w objs o ho))
  unfold populate
  rcases hr : populateLoop w fuel (dedup w objs) c [] with ⟨c1, errs | _ | _⟩
  · rfl
  · rfl
  · rw [hr] at hl
    simp [Outcome.isFinished] at hl

theorem isReturned_iff {α : Type} (out : Outcome α) :
    out.isReturned = true ↔ ∃ v, out = .returned v := by
  cases out with
  | returned v => simp [Outcome.isReturned]
  | panicked => simp [Outcome.isReturned]
  | outOfFuel => simp [Outcome.isReturned]

/-- C16 (as amended): if every inject-tagged field of a candidate holds a
candidate and no candidate depends on itself through tagged fields, then there
is an amount of fuel from which on `recurConstruct` on every candidate and
`populate` on the candidates come to an end, from every resolver state: they
return or they panic.  If moreover every candidate that has `Setup` is a
non-nil pointer to a struct whose inject-tagged fields are exported, then
`recurConstruct` on a candidate returns nil or an error whenever `current` is
a non-nil pointer to a struct or the candidate itself, and `populate` returns
the table together with nil or with an error. -/
theorem acyclic_construction_terminates (w : World) (objs : List Object)
    (hclosed : ∀ o ∈ objs, ∀ p ∈ (w.fieldTags (w.typeOf o.Value)).enum, p.2 = true →
      w.fieldVal o.Value p.1 ∈ objs.map Object.Value)
    (hacyc : ∀ o ∈ objs, ¬ Relation.TransGen (dependsOn w) o.Value o.Value) :
    ∃ N, ∀ fuel, N ≤ fuel → ∀ c : construct,
      (∀ o ∈ objs, (recurConstruct w fuel c o).2.isFinished = true) ∧
        (populate w fuel c objs).2.isFinished = true ∧
        ((∀ o ∈ objs, withConstructor w o.Value = true → w.reflectable o.Value = true) →
          (∀ o ∈ objs, w.pointsToStruct c.current = true ∨ c.current = o.Value →
            ∃ err, (recurConstruct w fuel c o).2 = .returned err) ∧
          ∃ tbl err, (populate w fuel c objs).2 = .returned (tbl, err)) := by
  have hclosedV : ∀ a ∈ objs.map Object.Value, ∀ b, dependsOn w a b →
      b ∈ objs.map Object.Value := by
    rintro a ha b ⟨p, hp, hpt, rfl⟩
    obtain ⟨o, ho, rfl⟩ := List.mem_map.mp ha
    exact hclosed o ho p hp hpt
  have hacycV : ∀ a ∈ objs.map Object.Value, ¬ Relation.TransGen (dependsOn w) a a := by
    intro a ha
    obtain ⟨o, ho, rfl⟩ := List.mem_map.mp ha
    exact hacyc o ho
  obtain ⟨N1, hN1⟩ := exists_uniform_fuel _ _
    (recurConstruct_finishes w (objs.map Object.Value) hclosedV hacycV)
  have hfin : ∀ fuel, N1 ≤ fuel → ∀ o ∈ objs, ∀ c1 : construct,
      (recurConstruct w fuel c1 o).2.isFinished = true :=
    fun fuel hfuel o ho c1 =>
      hN1 fuel hfuel o.Value (List.mem_map.mpr ⟨o, ho, rfl⟩) c1 o.Name
  by_cases hrefl : ∀ o ∈ objs, withConstructor w o.Value = true → w.reflectable o.Value = true
  · have hreflV : ∀ a ∈ objs.map Object.Value, withConstructor w a = true →
        w.reflectable a = true := by
      intro a ha
      obtain ⟨o, ho, rfl⟩ := List.mem_map.mp ha
      exact hrefl o ho
    obtain ⟨N2, hN2⟩ := exists_uniform_fuel _ _
      (recurConstruct_returns w (objs.map Object.Value) hclosedV hacycV hreflV)
    refine ⟨max 1 (max N1 N2), fun fuel hfuel c => ?_⟩
    have hf1 : N1 ≤ fuel := le_trans (le_trans (le_max_left _ _) (le_max_right _ _)) hfuel
    have hf2 : N2 ≤ fuel := le_trans (le_trans (le_max_right _ _) (le_max_right _ _)) hfuel
    have hf0 : 1 ≤ fuel := le_trans (le_max_left _ _) hfuel
    have hret : ∀ o ∈ objs, ∀ c1 : construct,
        w.pointsToStruct c1.current = true ∨ c1.current = o.Value →
        (recurConstruct w fuel c1 o).2.isReturned = true := by
      intro o ho c1 hc1
      by_cases hctor : withConstructor w o.Value = true
      · have hp : w.pointsToStruct c1.current = true := by
          rcases hc1 with hc1 | hc1
          · exact hc1
          · rw [hc1]
            have := hrefl o ho hctor
            simp only [World.reflectable, Bool.and_eq_true] at this
            exact this.1
        exact hN2 fuel hf2 o.Value (List.mem_map.mpr ⟨o, ho, rfl⟩) c1 o.Name hp
      · obtain ⟨m, rfl⟩ : ∃ m, fuel = m + 1 := ⟨fuel - 1, by omega⟩
        rw [recurConstruct_succ]
        by_cases h1 : c1.constructed (w.typeOf o.Value) = true
        · simp [h1, Outcome.isReturned]
        · simp [h1, hctor, Outcome.isReturned]
    refine ⟨fun o ho => hfin fuel hf1 o ho c, populate_finished w fuel c objs (hfin fuel hf1),
      fun _ => ⟨fun o ho hc => (isReturned_iff _).mp (hret o ho c hc), ?_⟩⟩
    have hruns := rootRuns_returned w fuel (dedup w objs) c
      (fun o ho c1 hc1 => hret o (dedup_subset w objs o ho) c1 (Or.inr hc1))
    rw [populate_eq_rootRuns w fuel c objs hruns]
    exact ⟨_, _, rfl⟩
  · exact ⟨N1, fun fuel hfuel c => ⟨fun o ho => hfin fuel hfuel o ho c,
      populate_finished w fuel c objs (hfin fuel hfuel), fun h => absurd h hrefl⟩⟩

theorem acyclic_construction_terminates_witness :
    ∃ N, ∀ fuel, N ≤ fuel → ∀ c : construct,
      (∀ o ∈ [({ Value := some 1, Name := "" } : Object), { Value := some 0, Name := "" }],
          (recurConstruct failingDependency fuel c o).2.isFinished = true) ∧
        (populate failingDependency fuel c
          [{ Value := some 1, Name := "" }, { Value := some 0, Name := "" }]).2.isFinished
            = true ∧
        ((∀ o ∈ [({ Value := some 1, Name := "" } : Object), { Value := some 0, Name := "" }],
            withConstructor failingDependency o.Value = true →
              failingDependency.reflectable o.Value = true) →
          (∀ o ∈ [({ Value := some 1, Name := "" } : Object), { Value := some 0, Name := "" }],
            failingDependency.pointsToStruct c.current = true ∨ c.current = o.Value →
              ∃ err, (recurConstruct failingDependency fuel c o).2 = .returned err) ∧
          ∃ tbl err, (populate failingDependency fuel c
            [{ Value := some 1, Name := "" }, { Value := some 0, Name := "" }]).2
              = .returned (tbl, err)) :=
  acyclic_construction_terminates failingDependency
    [{ Value := some 1, Name := "" }, { Value := some 0, Name := "" }] (by decide)
    (fun o ho => acyclic_of_rank failingDependency [some 1, some 0]
      (fun r => if r = some 1 then 1 else 0)
      (by
        rintro a ha b ⟨p, hp, hpt, rfl⟩
        revert p
        revert a
        decide)
      (by
        rintro a ha b ⟨p, hp, hpt, rfl⟩
        revert p
        revert a
        decide)
      o.Value (List.mem_map.mpr ⟨o, ho, rfl⟩))

/-- C16 fails as stated.  (1) The named value `port` of a type `Port int` with
`Setup` has no field, so the tagged-field relation is acyclic; `recurConstruct`
and `populate` do not return on it: they panic at `Elem().NumField()`.
(2) A pointer to a struct with `Setup` whose tagged field is unexported and
holds the second candidate: `recurConstruct` and `populate` panic at
`Interface()`. -/
theorem construction_panics_on_unreflectable_provider :
    ((∀ o ∈ [({ Value := some 0, Name := "port" } : Object)],
        ∀ p ∈ (portProvider.fieldTags (portProvider.typeOf o.Value)).enum, p.2 = true →
          portProvider.fieldVal o.Value p.1
            ∈ [({ Value := some 0, Name := "port" } : Object)].map Object.Value) ∧
      (∀ o ∈ [({ Value := some 0, Name := "port" } : Object)],
        ¬ Relation.TransGen (dependsOn portProvider) o.Value o.Value) ∧
      (∀ fuel, (recurConstruct portProvider (fuel + 1) { newConstruct with current := some 0 }
        { Value := some 0, Name := "port" }).2 = .panicked) ∧
      ∀ fuel, (populate portProvider (fuel + 1) newConstruct
        [{ Value := some 0, Name := "port" }]).2.isReturned = false) ∧
    ((∀ o ∈ [({ Value := some 0, Name := "" } : Object), { Value := some 1, Name := "" }],
        ∀ p ∈ (unexportedSlot.fieldTags (unexportedSlot.typeOf o.Value)).enum, p.2 = true →
          unexportedSlot.fieldVal o.Value p.1
            ∈ [({ Value := some 0, Name := "" } : Object),
                { Value := some 1, Name := "" }].map Object.Value) ∧
      (∀ o ∈ [({ Value := some 0, Name := "" } : Object), { Value := some 1, Name := "" }],
        ¬ Relation.TransGen (dependsOn unexportedSlot) o.Value o.Value) ∧
      (∀ fuel, (recurConstruct unexportedSlot (fuel + 1)
        { newConstruct with current := some 0 } { Value := some 0, Name := "" }).2
          = .panicked) ∧
      ∀ fuel, (populate unexportedSlot (fuel + 1) newConstruct
        [{ Value := some 0, Name := "" }, { Value := some 1, Name := "" }]).2.isReturned
          = false) := by
  refine ⟨⟨by decide, ?_, fun _ => rfl, fun _ => rfl⟩,
    ⟨by decide, ?_, fun _ => rfl, fun _ => rfl⟩⟩
  · intro o ho
    exact acyclic_of_rank portProvider [some 0] (fun _ => 0)
      (by
        rintro a ha b ⟨p, hp, hpt, rfl⟩
        revert p
        revert a
        decide)
      (by
        rintro a ha b ⟨p, hp, hpt, rfl⟩
        revert p
        revert a
        decide)
      o.Value (List.mem_map.mpr ⟨o, ho, rfl⟩)
  · intro o ho
    exact acyclic_of_rank unexportedSlot [some 0, some 1]
      (fun r => if r = some 0 then 1 else 0)
      (by
        rintro a ha b ⟨p, hp, hpt, rfl⟩
        revert p
        revert a
        decide)
      (by
        rintro a ha b ⟨p, hp, hpt, rfl⟩
        revert p
        revert a
        decide)
      o.Value (List.mem_map.mpr ⟨o, ho, rfl⟩)

theorem fieldLoop_untagged (w : World)
    (rc : construct → Object → construct × Outcome (Option GoError)) (obj : Object)
    (l : List (Nat × Bool)) (c : construct) (h : l.filter (fun p => p.2) = []) :
    fieldLoop w rc obj l c = (c, .returned none) := by
  induction l with
  | nil => rfl
  | cons p rest ih =>
    rcases p with ⟨i, tagged⟩
    cases tagged with
    | false =>
      simp only [List.filter_cons, Bool.false_eq_true, if_false] at h
      simpa [fieldLoop] using ih h
    | true => simp [List.filter_cons] at h

theorem inspectField_pointer (w : World) (c : construct) (obj : Object) (i : Nat)
    (hexp : w.fieldExported (w.typeOf obj.Value) i = true)
    (hptr : w.pointsToStruct c.current = true) :
    inspectField w c obj i =
      if w.fieldVal obj.Value i = c.current then
        some (.returned (some (depLoopError (w.typeString (w.typeOf c.current))
          (w.typeString (w.typeOf obj.Value)))))
      else none := by
  have hcmp := comparePanics_pointer w (w.fieldVal obj.Value i) c.current hptr
  have hne := pointsToStruct_ne_none w c.current hptr
  unfold inspectField
  cases hc : c.current with
  | none => exact absurd hc hne
  | some cur =>
    rw [hc] at hcmp
    simp [hexp, hcmp]

theorem fieldLoop_single (w : World)
    (rc : construct → Object → construct × Outcome (Option GoError)) (obj : Object)
    (l : List (Nat × Bool)) (c : construct) (v : Ref)
    (hexp : ∀ p ∈ l, p.2 = true → w.fieldExported (w.typeOf obj.Value) p.1 = true)
    (hptr : w.pointsToStruct c.current = true)
    (h : (l.filter (fun p => p.2)).map (fun p => w.fieldVal obj.Value p.1) = [v]) :
    fieldLoop w rc obj l c =
      if v = c.current then
        (c, .returned (some (depLoopError (w.typeString (w.typeOf c.current))
          (w.typeString (w.typeOf obj.Value)))))
      else rc c { Value := v, Name := "" } := by
  induction l with
  | nil => simp at h
  | cons p rest ih =>
    rcases p with ⟨i, tagged⟩
    have hrest : ∀ p ∈ rest, p.2 = true → w.fieldExported (w.typeOf obj.Value) p.1 = true :=
      fun p hp => hexp p (List.mem_cons_of_mem _ hp)
    cases tagged with
    | false =>
      simp only [List.filter_cons, Bool.false_eq_true, if_false] at h
      simpa [fieldLoop] using ih hrest h
    | true =>
      simp only [List.filter_cons, if_true, List.map_cons, List.cons.injEq,
        List.map_eq_nil_iff] at h
      obtain ⟨hv, hnil⟩ := h
      have hi := inspectField_pointer w c obj i (hexp (i, true) (List.mem_cons_self _ _) rfl)
        hptr
      rw [hv] at hi
      by_cases hcur : v = c.current
      · simp [fieldLoop, hi, hcur]
      · rcases hr : rc c { Value := v, Name := "" } with ⟨c1, out⟩
        rcases out with (_ | e) | _ | _
        · simp [fieldLoop, hi, hv, hcur, hr, fieldLoop_untagged w rc obj rest c1 hnil]
        · simp [fieldLoop, hi, hv, hcur, hr]
        · simp [fieldLoop, hi, hv, hcur, hr]
        · simp [fieldLoop, hi, hv, hcur, hr]

theorem recurConstruct_closing_path (w : World) (R : Ref) (c : construct)
    (hcur : c.current = R) (hptr : w.pointsToStruct R = true) :
    ∀ (rest : List Ref) (a : Ref) (name : String) (fuel : Nat),
      closesAt w R a rest = true → R ∉ rest →
      (∀ x ∈ a :: rest, c.constructed (w.typeOf x) = false) →
      rest.length + 1 ≤ fuel →
      recurConstruct w fuel c { Value := a, Name := name }
        = (c, .returned (some (depLoopError (w.typeString (w.typeOf R))
            (w.typeString (w.typeOf ((a :: rest).getLast (List.cons_ne_nil a rest))))))) := by
  have hptrc : w.pointsToStruct c.current = true := by rw [hcur]; exact hptr
  intro rest
  induction rest with
  | nil =>
    intro a name fuel hpath _ hun hfuel
    obtain ⟨m, rfl⟩ : ∃ m, fuel = m + 1 := ⟨fuel - 1, by simp at hfuel; omega⟩
    simp only [closesAt, Bool.and_eq_true, decide_eq_true_eq] at hpath
    obtain ⟨⟨hctor, hrefl⟩, hval⟩ := hpath
    have ha := hun a (List.mem_cons_self _ _)
    rw [recurConstruct_succ, fieldLoop_single w (recurConstruct w m) { Value := a, Name := name }
      (w.fieldTags (w.typeOf a)).enum c R
      (fun p hp ht => reflectable_field w a p hrefl hp ht) hptrc hval]
    simp [ha, hctor, reflectable_pointer w a hrefl, hcur]
  | cons b rest ih =>
    intro a name fuel hpath hR hun hfuel
    obtain ⟨m, rfl⟩ : ∃ m, fuel = m + 1 := ⟨fuel - 1, by simp at hfuel; omega⟩
    simp only [closesAt, Bool.and_eq_true, decide_eq_true_eq] at hpath
    obtain ⟨⟨⟨hctor, hrefl⟩, hval⟩, hnext⟩ := hpath
    have ha := hun a (List.mem_cons_self _ _)
    have hb : ¬ b = c.current := by
      rw [hcur]
      intro h
      exact hR (by simp [h])
    have hsub := ih b "" m hnext (fun h => hR (List.mem_cons_of_mem _ h))
      (fun x hx => hun x (List.mem_cons_of_mem _ hx)) (by simp at hfuel ⊢; omega)
    rw [recurConstruct_succ, fieldLoop_single w (recurConstruct w m) { Value := a, Name := name }
      (w.fieldTags (w.typeOf a)).enum c b
      (fun p hp ht => reflectable_field w a p hrefl hp ht) hptrc hval]
    simp [ha, hctor, reflectable_pointer w a hrefl, hb, hsub, List.getLast_cons]

theorem closesAt_pointer (w : World) (R a : Ref) (rest : List Ref)
    (h : closesAt w R a rest = true) : w.pointsToStruct a = true := by
  cases rest with
  | nil =>
    simp only [closesAt, Bool.and_eq_true, decide_eq_true_eq] at h
    exact reflectable_pointer w a h.1.2
  | cons b rest =>
    simp only [closesAt, Bool.and_eq_true, decide_eq_true_eq] at h
    exact reflectable_pointer w a h.1.1.2

/-- C13: let `R, x1, ..., xn` be instances that implement `Setup`, are pointers to
structs and have exactly one inject-tagged field each, holding the next
instance, the one of the last instance holding `R`; let `R` differ from the
others, be the current top-level root, and none of the types be marked
constructed.  Then `recurConstruct` on `R`, with fuel for the `n + 1` nested
calls, returns the error
`Dep loop: curr[type of R], obj[type of the last instance]` and leaves the
resolver state as it was: no `Setup` is invoked and no type is marked. -/
theorem recurConstruct_cycle_through_root (w : World) (R : Ref) (xs : List Ref)
    (c : construct) (name : String) (fuel : Nat)
    (hpath : closesAt w R R xs = true) (hR : R ∉ xs) (hcur : c.current = R)
    (hun : ∀ x ∈ R :: xs, c.constructed (w.typeOf x) = false)
    (hfuel : xs.length + 1 ≤ fuel) :
    recurConstruct w fuel c { Value := R, Name := name }
      = (c, .returned (some (.errorString
          ("Dep loop: curr[" ++ w.typeString (w.typeOf R) ++ "], obj["
            ++ w.typeString (w.typeOf ((R :: xs).getLast (List.cons_ne_nil R xs)))
            ++ "]")))) :=
  recurConstruct_closing_path w R c hcur (closesAt_pointer w R R xs hpath) xs R name fuel
    hpath hR hun hfuel

theorem recurConstruct_cycle_through_root_witness :
    recurConstruct ringOfFour 4 { newConstruct with current := some 0 }
        { Value := some 0, Name := "" }
      = ({ newConstruct with current := some 0 },
          .returned (some (.errorString "Dep loop: curr[*R], obj[*X3]"))) :=
  recurConstruct_cycle_through_root ringOfFour (some 0) [some 1, some 2, some 3]
    { newConstruct with current := some 0 } "" 4 (by decide) (by decide) rfl (by decide)
    (by decide)

/-- C15: whatever the object, the resolver state and the fuel, and whether the
call returns nil, returns an error, panics or does not finish, a type that is
marked constructed before a `recurConstruct` call is marked constructed after
it, and if it had a table entry before the call it has one after it. -/
theorem recurConstruct_constructed_terminal (w : World) (fuel : Nat) (c : construct)
    (obj : Object) (t : Ty) (h : c.constructed t = true) :
    (recurConstruct w fuel c obj).1.constructed t = true ∧
      ((c.initializedDeps t).isSome = true →
        ((recurConstruct w fuel c obj).1.initializedDeps t).isSome = true) := by
  refine ⟨recurConstruct_mono w fuel c obj t h, ?_⟩
  refine recurConstruct_inv w
    (fun c1 => (c.initializedDeps t).isSome = true → (c1.initializedDeps t).isSome = true)
    (fun _ => True) (fun _ _ _ _ _ => trivial) ?_ ?_ fuel c obj trivial (fun h => h)
  · intro c1 v _ hc1 h0
    by_cases hv : t = w.typeOf v
    · simp [construct.markConstructed, hv]
    · simpa [construct.markConstructed, hv] using hc1 h0
  · intro c1 v _ hc1
    simpa [construct.logSetup] using hc1

theorem recurConstruct_constructed_terminal_witness :
    (recurConstruct twoFailing 1
        (recurConstruct twoFailing 1 newConstruct { Value := some 2, Name := "" }).1
        { Value := some 0, Name := "" }).1.constructed (some 2) = true ∧
      (((recurConstruct twoFailing 1 newConstruct
          { Value := some 2, Name := "" }).1.initializedDeps (some 2)).isSome = true →
        ((recurConstruct twoFailing 1
          (recurConstruct twoFailing 1 newConstruct { Value := some 2, Name := "" }).1
          { Value := some 0, Name := "" }).1.initializedDeps (some 2)).isSome = true) :=
  recurConstruct_constructed_terminal twoFailing 1
    (recurConstruct twoFailing 1 newConstruct { Value := some 2, Name := "" }).1
    { Value := some 0, Name := "" } (some 2) (by decide)


theorem hiddenCycle_inner (fuel : Nat) :
    ∀ (c : construct) (v : Ref) (name : String), v = some 1 ∨ v = some 2 →
      c.current = some 0 → c.constructed (some 1) = false → c.constructed (some 2) = false →
      recurConstruct hiddenCycle fuel c { Value := v, Name := name } = (c, .outOfFuel) := by
  induction fuel with
  | zero => intro c v name _ _ _ _; rfl
  | succ fuel ih =>
    intro c v name hv hcur h1 h2
    rw [recurConstruct_succ]
    rcases hv with rfl | rfl
    · have hsub := ih c (some 2) "" (Or.inr rfl) hcur h1 h2
      simp [hiddenCycle, withConstructor, World.typeOf, World.implementsSetup, World.pointsToStruct, World.comparePanics, inspectField, List.enum, List.enumFrom, fieldLoop, h1, hcur] at hsub ⊢
      simp [hsub]
    · have hsub := ih c (some 1) "" (Or.inl rfl) hcur h1 h2
      simp [hiddenCycle, withConstructor, World.typeOf, World.implementsSetup, World.pointsToStruct, World.comparePanics, inspectField, List.enum, List.enumFrom, fieldLoop, h2, hcur] at hsub ⊢
      simp [hsub]

/-- C17: in the graph `hiddenCycle` (root `A` holds `B`, `B` holds `C`, `C` holds
`B`, all with `Setup`) the construction of the first root `A` exhausts every
amount of fuel: it never returns, neither nil nor the loop error, it invokes no
`Setup` and marks no type; and so `populate` with `A` first never returns. -/
theorem hiddenCycle_never_returns (fuel : Nat) :
    recurConstruct hiddenCycle fuel { newConstruct with current := some 0 }
        { Value := some 0, Name := "" }
      = ({ newConstruct with current := some 0 }, .outOfFuel) ∧
      (populate hiddenCycle fuel newConstruct
        [{ Value := some 0, Name := "" }, { Value := some 1, Name := "" },
          { Value := some 2, Name := "" }]).2 = .outOfFuel := by
  have hroot : recurConstruct hiddenCycle fuel { newConstruct with current := some 0 }
      { Value := some 0, Name := "" } = ({ newConstruct with current := some 0 }, .outOfFuel) := by
    cases fuel with
    | zero => rfl
    | succ fuel =>
      have hsub := hiddenCycle_inner fuel { newConstruct with current := some 0 } (some 1) ""
        (Or.inl rfl) rfl rfl rfl
      rw [recurConstruct_succ]
      simp [hiddenCycle, withConstructor, World.typeOf, World.implementsSetup, World.pointsToStruct, World.comparePanics, inspectField, List.enum, List.enumFrom, fieldLoop,
        newConstruct] at hsub ⊢
      simp [hsub]
  refine ⟨hroot, ?_⟩
  have hd : dedup hiddenCycle [{ Value := some 0, Name := "" }, { Value := some 1, Name := "" },
      { Value := some 2, Name := "" }]
      = [{ Value := some 0, Name := "" }, { Value := some 1, Name := "" }, { Value := some 2, Name := "" }] := by
    decide
  simp only [populate, hd, populateLoop]
  have hroot1 : recurConstruct hiddenCycle fuel
      { current := some 0, constructed := newConstruct.constructed,
        initializedDeps := newConstruct.initializedDeps, setupLog := newConstruct.setupLog }
      { Value := some 0, Name := "" } = ({ newConstruct with current := some 0 }, .outOfFuel) := hroot
  rw [hroot1]

/-- C18: after any sequence of `recurConstruct` calls on a resolver that started
as `newConstruct` (any fuel, any `current`, any object, calls that fail or do
not finish included), a type is marked constructed exactly when it is a key of
the table, and every table entry is an instance of the runtime type that is
its key. -/
theorem callSequence_constructed_iff_key (w : World)
    (calls : List (Nat × Ref × Object)) :
    (∀ t, (callSequence w calls newConstruct).constructed t = true ↔
        ((callSequence w calls newConstruct).initializedDeps t).isSome = true) ∧
      ∀ t r, (callSequence w calls newConstruct).initializedDeps t = some r →
        w.typeOf r = t := by
  have key : ∀ (calls : List (Nat × Ref × Object)) (c : construct),
      ((∀ t, c.constructed t = true ↔ (c.initializedDeps t).isSome = true) ∧
        ∀ t r, c.initializedDeps t = some r → w.typeOf r = t) →
      (∀ t, (callSequence w calls c).constructed t = true ↔
          ((callSequence w calls c).initializedDeps t).isSome = true) ∧
        ∀ t r, (callSequence w calls c).initializedDeps t = some r → w.typeOf r = t := by
    intro calls
    induction calls with
    | nil => intro c hc; simpa [callSequence] using hc
    | cons call rest ih =>
      intro c hc
      rcases call with ⟨fuel, cur, obj⟩
      simp only [callSequence]
      refine ih _ ?_
      refine recurConstruct_inv w
        (fun c1 => (∀ t, c1.constructed t = true ↔ (c1.initializedDeps t).isSome = true) ∧
          ∀ t r, c1.initializedDeps t = some r → w.typeOf r = t)
        (fun _ => True) (fun _ _ _ _ _ => trivial) ?_ ?_ fuel _ obj trivial hc
      · rintro c1 v - ⟨h1, h2⟩
        constructor
        · intro t
          by_cases hv : t = w.typeOf v
          · simp [construct.markConstructed, hv]
          · simpa [construct.markConstructed, hv] using h1 t
        · intro t r htr
          by_cases hv : t = w.typeOf v
          · simp only [construct.markConstructed, hv, if_true, Option.some.injEq] at htr
            rw [hv, ← htr]
          · simp only [construct.markConstructed, hv, if_false] at htr
            exact h2 t r htr
      · rintro c1 v - hc1
        simpa [construct.logSetup] using hc1
  exact key calls newConstruct ⟨by simp [newConstruct], by simp [newConstruct]⟩

/-- C19: `run`, and `Weave` through it, returns a nil table together with the
error whenever `Provide`, `Populate` or the construction pass reports one (the
table `populate` returned is dropped), and whenever `Weave` returns a table
that is not nil its error is nil. -/
theorem run_nil_table_on_error (g : Graph) (w : World) (fuel : Nat) (deps : List Object)
    (depMap : List (Ref × List String)) :
    (∀ e, g.Provide deps = some e → run g w fuel deps = .returned (none, some e)) ∧
      (∀ e, g.Provide deps = none → g.Populate deps = some e →
        run g w fuel deps = .returned (none, some e)) ∧
      (∀ tbl e, g.Provide deps = none → g.Populate deps = none →
        (populate w fuel newConstruct (g.Objects deps)).2 = .returned (tbl, some e) →
        run g w fuel deps = .returned (none, some e)) ∧
      (∀ tbl err, Weave g w fuel depMap = .returned (some tbl, err) → err = none) ∧
      ∀ err, Weave g w fuel depMap = .returned (none, err) → err ≠ none := by
  have hshape : ∀ (ds : List Object) (t : Option (Ty → Option Ref)) (err : Option GoError),
      run g w fuel ds = .returned (t, err) → (t.isSome = true ↔ err = none) := by
    intro ds t err h
    unfold run at h
    cases hp : g.Provide ds with
    | some e1 =>
      simp only [hp, Outcome.returned.injEq, Prod.mk.injEq] at h
      simp [← h.1, ← h.2]
    | none =>
      cases hq : g.Populate ds with
      | some e2 =>
        simp only [hp, hq, Outcome.returned.injEq, Prod.mk.injEq] at h
        simp [← h.1, ← h.2]
      | none =>
        rcases hr : (populate w fuel newConstruct (g.Objects ds)).2 with ⟨tbl, _ | e3⟩ | _ | _
        · simp only [hp, hq, hr, Outcome.returned.injEq, Prod.mk.injEq] at h
          simp [← h.1, ← h.2]
        · simp only [hp, hq, hr, Outcome.returned.injEq, Prod.mk.injEq] at h
          simp [← h.1, ← h.2]
        · simp [hp, hq, hr] at h
        · simp [hp, hq, hr] at h
  refine ⟨?_, ?_, ?_, ?_, ?_⟩
  · intro e hp
    simp [run, hp]
  · intro e hp hq
    simp [run, hp, hq]
  · intro tbl e hp hq hr
    simp [run, hp, hq, hr]
  · intro tbl err h
    exact (hshape _ _ _ h).mp rfl
  · intro err h herr
    have := (hshape _ _ _ h).mpr herr
    simp at this

end Inject
